import Mathlib

/-!
Verification of the task-binding core of the arrow-ballista scheduler
(`ballista/scheduler/src/cluster/mod.rs`).

The three binding policies `bind_task_bias`, `bind_task_round_robin` and
`bind_task_consistent_hash` are shallowly embedded as pure Lean functions.
Rust in-place mutation (of the slot vector, of the per-job execution graphs
and of the consistent-hash ring) is made explicit: each embedded function
returns the mutated state together with the list of bound tasks.  The
`while let Some(..) = graph.fetch_running_stage(..)` loops are embedded with
an explicit fuel argument; a canonical fuel is supplied by the top-level
wrappers and is proved sufficient (the `fuelOut` constructor is unreachable),
so the wrappers compute exactly the terminating behaviour of the source.

Ghost instrumentation (event traces, pass tags) is carried alongside the
real data so that statements about intermediate execution states can be
expressed; it never influences the computation itself.
-/

namespace Ballista

/-- Embedding of `AvailableTaskSlots` (executor id and free slot count, `u32`
modelled as `Nat`; we separately prove the decrement sites never underflow). -/
structure AvailableTaskSlots where
  executor_id : String
  slots : Nat
deriving DecidableEq, Repr

instance : Inhabited AvailableTaskSlots := ⟨⟨"", 0⟩⟩

/-- Modelled from the spec: `TaskInfo` of `crate::state::execution_graph`
(not under `src/`) holds the bound executor id and task id (the wall-clock
`started_at` field is outside the model). -/
structure TaskInfo where
  executor_id : String
  task_id : Nat
deriving DecidableEq, Repr

/-- Modelled from the spec: `create_task_info` of
`crate::state::execution_graph` builds the `TaskInfo` cell content. -/
def create_task_info (executor_id : String) (task_id : Nat) : TaskInfo :=
  ⟨executor_id, task_id⟩

/-- Embedding of `PartitionId`. -/
structure PartitionId where
  job_id : String
  stage_id : Nat
  partition_id : Nat
deriving DecidableEq, Repr

/-- Embedding of `TaskDescription` (the physical plan handle is opaque to the
binder and modelled as a `Nat`). -/
structure TaskDescription where
  session_id : String
  partition : PartitionId
  stage_attempt_num : Nat
  task_id : Nat
  task_attempt : Nat
  data_cache : Bool
  plan : Nat
deriving DecidableEq, Repr

/-- Embedding of `BoundTask`: executor id paired with the task description. -/
abbrev BoundTask := String × TaskDescription

/-- Modelled from the spec: the narrow view of a running stage that the
binder reads and mutates (`stage_id`, `stage_attempt_num`, plan handle,
`task_infos` table, `task_failure_numbers`) together with the per-stage
monotonic task-id generator returned by `fetch_running_stage`. -/
structure StageState where
  stage_id : Nat
  stage_attempt_num : Nat
  plan : Nat
  task_infos : List (Option TaskInfo)
  task_failure_numbers : List Nat
  task_id_gen : Nat
deriving DecidableEq, Repr

instance : Inhabited StageState := ⟨⟨0, 0, 0, [], [], 0⟩⟩

/-- Modelled from the spec: the per-job entry of the `active_jobs` map
(`JobInfoCache`): job id, session id, whether the status is `Running`, and
the stages of the execution graph.  Map-iteration order is embedded as the
list order. -/
structure JobInfo where
  job_id : String
  session_id : String
  running : Bool
  stages : List StageState
deriving DecidableEq, Repr

/-- Indices of the currently empty `task_infos` cells, in partition order,
starting from index `k` (embeds `iter_mut().enumerate().filter(is_none)`). -/
def emptyIndicesFrom : Nat → List (Option TaskInfo) → List Nat
  | _, [] => []
  | k, none :: cs => k :: emptyIndicesFrom (k + 1) cs
  | k, some _ :: cs => emptyIndicesFrom (k + 1) cs

/-- Indices of the currently empty `task_infos` cells, in partition order. -/
def emptyIndices (cells : List (Option TaskInfo)) : List Nat :=
  emptyIndicesFrom 0 cells

/-- Sum of the slot counts (`slots.iter().fold(0, |acc, s| acc + s.slots)`). -/
def slotsTotal (slots : List AvailableTaskSlots) : Nat :=
  (slots.map (·.slots)).sum

/-- Total free slots recorded for one executor id. -/
def slotsSum (slots : List AvailableTaskSlots) (eid : String) : Nat :=
  ((slots.filter (fun s => s.executor_id = eid)).map (·.slots)).sum

/-- Slot count at position `i` (0 when out of range). -/
def slotAt (slots : List AvailableTaskSlots) (i : Nat) : Nat :=
  (slots.getD i default).slots

/-- Decrement the slot count at position `j` (embeds `slot.slots -= 1`
through the cursor reference). -/
def decAt (slots : List AvailableTaskSlots) (j : Nat) : List AvailableTaskSlots :=
  slots.set j (let e := slots.getD j default; { e with slots := e.slots - 1 })

/-- Stable insertion into a sorted list: `x` is placed before the first
element `y` with `le x y`. -/
def insertBy (le : α → α → Bool) (x : α) : List α → List α
  | [] => [x]
  | y :: ys => if le x y then x :: y :: ys else y :: insertBy le x ys

/-- Stable insertion sort, embedding the stable `slice::sort_by`. -/
def sortBy (le : α → α → Bool) : List α → List α
  | [] => []
  | x :: xs => insertBy le x (sortBy le xs)

/-- Descending comparison used by all policies:
`sort_by(|a, b| Ord::cmp(&b.slots, &a.slots))`. -/
def slotGE (a b : AvailableTaskSlots) : Bool :=
  decide (b.slots ≤ a.slots)

/-- Modelled from the spec: `fetch_running_stage(blacklist)` of
`ExecutionGraph` (not under `src/`) returns the first running stage that is
not blacklisted and still has unassigned partitions, together with its
task-id generator.  We return the index of that stage. -/
def fetchRunningStage (stages : List StageState) (blacklist : List Nat) : Option Nat :=
  stages.findIdx? (fun st => st.task_infos.any (·.isNone) && !blacklist.contains st.stage_id)

/-- How a policy's driver loop stopped: normal exhaustion of stages, the
early `return` inside the partition loop, or (ghost, proved unreachable at
the canonical fuel) fuel exhaustion. -/
inductive RoundExit where
  | normal
  | halted
  | fuelOut
deriving DecidableEq, Repr

/-- The per-partition mutation shared by all three policies:
`task_id = *gen; *gen += 1; task_infos[p] = Some(create_task_info(eid, task_id))`. -/
def bindStage (stage : StageState) (eid : String) (p : Nat) : StageState :=
  { stage with
    task_id_gen := stage.task_id_gen + 1
    task_infos := stage.task_infos.set p (some (create_task_info eid stage.task_id_gen)) }

/-- The `TaskDescription` built for a partition being bound (shared by all
three policies; only the `data_cache` flag differs). -/
def mkTaskDescription (jobId sessionId : String) (stage : StageState) (p : Nat)
    (dc : Bool) : TaskDescription :=
  { session_id := sessionId
    partition := ⟨jobId, stage.stage_id, p⟩
    stage_attempt_num := stage.stage_attempt_num
    task_id := stage.task_id_gen
    task_attempt := stage.task_failure_numbers.getD p 0
    data_cache := dc
    plan := stage.plan }

/-! ## Bias policy -/

/-- Ghost record of one bias binding: the slot vector as it was just before
the decrement, and the cursor position that was bound. -/
structure BiasEvent where
  slotsBefore : List AvailableTaskSlots
  chosen : Nat
deriving DecidableEq, Repr

/-- First position `j ≥ idx` whose slot count is nonzero; embeds the
`while slot.slots == 0 { idx_slot += 1; ... }` cursor advance, with `none`
for the early `return` when the cursor walks past the end. -/
def findNonzeroFrom (slots : List AvailableTaskSlots) (idx : Nat) : Option Nat :=
  match (slots.drop idx).findIdx? (fun e => e.slots != 0) with
  | some k => some (idx + k)
  | none => none

/-- Embedding of the inner `for (partition_id, task_info) in runnable_tasks`
loop of `bind_task_bias`: binds each runnable partition in turn, advancing
the cursor over exhausted executors; the `Bool` result records the early
`return` (cursor past the end). -/
def biasBatch (jobId sessionId : String) (stage : StageState) (runnable : List Nat)
    (slots : List AvailableTaskSlots) (idx : Nat) :
    StageState × List AvailableTaskSlots × Nat × List BoundTask × List BiasEvent × Bool :=
  match runnable with
  | [] => (stage, slots, idx, [], [], false)
  | p :: rest =>
    match findNonzeroFrom slots idx with
    | none => (stage, slots, idx, [], [], true)
    | some j =>
      let eid := (slots.getD j default).executor_id
      let td := mkTaskDescription jobId sessionId stage p false
      let r := biasBatch jobId sessionId (bindStage stage eid p) rest (decAt slots j) j
      (r.1, r.2.1, r.2.2.1, (eid, td) :: r.2.2.2.1, ⟨slots, j⟩ :: r.2.2.2.2.1, r.2.2.2.2.2)

/-- Embedding of the `while let Some((running_stage, task_id_gen)) = ...`
loop of `bind_task_bias` for one job, with explicit fuel. -/
def biasStageLoop (ifSkip : Nat → Bool) (totalSlots : Nat) (jobId sessionId : String) :
    Nat → List StageState → List Nat → List AvailableTaskSlots → Nat →
    List StageState × List AvailableTaskSlots × Nat × List BoundTask × List BiasEvent × RoundExit
  | 0, stages, _, slots, idx => (stages, slots, idx, [], [], .fuelOut)
  | fuel + 1, stages, blacklist, slots, idx =>
    match fetchRunningStage stages blacklist with
    | none => (stages, slots, idx, [], [], .normal)
    | some si =>
      let stage := stages.getD si default
      if ifSkip stage.plan then
        biasStageLoop ifSkip totalSlots jobId sessionId fuel stages
          (stage.stage_id :: blacklist) slots idx
      else
        let runnable := (emptyIndices stage.task_infos).take totalSlots
        let r := biasBatch jobId sessionId stage runnable slots idx
        let stages' := stages.set si r.1
        if r.2.2.2.2.2 then
          (stages', r.2.1, r.2.2.1, r.2.2.2.1, r.2.2.2.2.1, .halted)
        else
          let r' := biasStageLoop ifSkip totalSlots jobId sessionId fuel stages' blacklist r.2.1 r.2.2.1
          (r'.1, r'.2.1, r'.2.2.1, r.2.2.2.1 ++ r'.2.2.2.1, r.2.2.2.2.1 ++ r'.2.2.2.2.1,
            r'.2.2.2.2.2)

/-- Canonical fuel for one job's stage loop: strictly more than the number of
stages plus the number of currently empty cells, which bounds the number of
loop iterations (each iteration blacklists a stage or binds a partition). -/
def stageFuel (stages : List StageState) : Nat :=
  stages.length + (stages.map (fun st => (emptyIndices st.task_infos).length)).sum + 1

/-- Embedding of the outer `for (job_id, job_info) in active_jobs.iter()`
loop of `bind_task_bias`; non-running jobs are skipped, and the early
`return` aborts the remaining jobs. -/
def biasJobLoop (ifSkip : Nat → Bool) (totalSlots : Nat) :
    List JobInfo → List AvailableTaskSlots → Nat →
    List JobInfo × List AvailableTaskSlots × Nat × List BoundTask × List BiasEvent × RoundExit
  | [], slots, idx => ([], slots, idx, [], [], .normal)
  | job :: rest, slots, idx =>
    if job.running then
      let r := biasStageLoop ifSkip totalSlots job.job_id job.session_id
        (stageFuel job.stages) job.stages [] slots idx
      let job' := { job with stages := r.1 }
      match r.2.2.2.2.2 with
      | .normal =>
        let r' := biasJobLoop ifSkip totalSlots rest r.2.1 r.2.2.1
        (job' :: r'.1, r'.2.1, r'.2.2.1, r.2.2.2.1 ++ r'.2.2.2.1,
          r.2.2.2.2.1 ++ r'.2.2.2.2.1, r'.2.2.2.2.2)
      | e => (job' :: rest, r.2.1, r.2.2.1, r.2.2.2.1, r.2.2.2.2.1, e)
    else
      let r' := biasJobLoop ifSkip totalSlots rest slots idx
      (job :: r'.1, r'.2.1, r'.2.2.1, r'.2.2.2.1, r'.2.2.2.2.1, r'.2.2.2.2.2)

/-- Embedding of `bind_task_bias`.  Returns the bound tasks together with the
caller-visible mutated state (the slot vector, reordered by the descending
sort and decremented in place, and the mutated job graphs), plus the ghost
event trace and exit marker. -/
def bind_task_bias (slots : List AvailableTaskSlots) (jobs : List JobInfo)
    (ifSkip : Nat → Bool) :
    List BoundTask × List AvailableTaskSlots × List JobInfo × List BiasEvent × RoundExit :=
  let total := slotsTotal slots
  if total = 0 then ([], slots, jobs, [], .normal)
  else
    let sorted := sortBy slotGE slots
    let r := biasJobLoop ifSkip total jobs sorted 0
    (r.2.2.2.1, r.2.1, r.1, r.2.2.2.2.1, r.2.2.2.2.2)

/-! ## Round-robin policy -/

/-- Ghost record of the live state at the start of one iteration of the
round-robin partition loop, before the wrap logic runs. -/
structure RRTraceEntry where
  slots : List AvailableTaskSlots
  idx : Nat
  total : Nat
deriving DecidableEq, Repr

/-- The wrap logic of `bind_task_round_robin`: wrap the cursor to 0 when it
is past the end, then wrap to 0 when the entry under it has no slots. -/
def rrSelect (slots : List AvailableTaskSlots) (idx : Nat) : Nat :=
  let i1 := if slots.length ≤ idx then 0 else idx
  if slotAt slots i1 = 0 then 0 else i1

/-- Embedding of the inner partition loop of `bind_task_round_robin`: select
a cursor position (wrapping as in the source), bind, decrement the slot and
the live total, and return early when the total reaches 0.  Also returns the
ghost trace of iteration-start states. -/
def rrBatch (jobId sessionId : String) (stage : StageState) (runnable : List Nat)
    (slots : List AvailableTaskSlots) (idx total : Nat) :
    StageState × List AvailableTaskSlots × Nat × Nat × List BoundTask × List RRTraceEntry × Bool :=
  match runnable with
  | [] => (stage, slots, idx, total, [], [], false)
  | p :: rest =>
    let entry : RRTraceEntry := ⟨slots, idx, total⟩
    let j := rrSelect slots idx
    let eid := (slots.getD j default).executor_id
    let td := mkTaskDescription jobId sessionId stage p false
    if total - 1 = 0 then
      (bindStage stage eid p, decAt slots j, j + 1, 0, [(eid, td)], [entry], true)
    else
      let r := rrBatch jobId sessionId (bindStage stage eid p) rest (decAt slots j) (j + 1)
        (total - 1)
      (r.1, r.2.1, r.2.2.1, r.2.2.2.1, (eid, td) :: r.2.2.2.2.1, entry :: r.2.2.2.2.2.1,
        r.2.2.2.2.2.2)

/-- Embedding of the stage loop of `bind_task_round_robin` for one job, with
explicit fuel. -/
def rrStageLoop (ifSkip : Nat → Bool) (jobId sessionId : String) :
    Nat → List StageState → List Nat → List AvailableTaskSlots → Nat → Nat →
    List StageState × List AvailableTaskSlots × Nat × Nat × List BoundTask × List RRTraceEntry × RoundExit
  | 0, stages, _, slots, idx, total => (stages, slots, idx, total, [], [], .fuelOut)
  | fuel + 1, stages, blacklist, slots, idx, total =>
    match fetchRunningStage stages blacklist with
    | none => (stages, slots, idx, total, [], [], .normal)
    | some si =>
      let stage := stages.getD si default
      if ifSkip stage.plan then
        rrStageLoop ifSkip jobId sessionId fuel stages (stage.stage_id :: blacklist) slots idx total
      else
        let runnable := (emptyIndices stage.task_infos).take total
        let r := rrBatch jobId sessionId stage runnable slots idx total
        let stages' := stages.set si r.1
        if r.2.2.2.2.2.2 then
          (stages', r.2.1, r.2.2.1, r.2.2.2.1, r.2.2.2.2.1, r.2.2.2.2.2.1, .halted)
        else
          let r' := rrStageLoop ifSkip jobId sessionId fuel stages' blacklist r.2.1 r.2.2.1 r.2.2.2.1
          (r'.1, r'.2.1, r'.2.2.1, r'.2.2.2.1, r.2.2.2.2.1 ++ r'.2.2.2.2.1,
            r.2.2.2.2.2.1 ++ r'.2.2.2.2.2.1, r'.2.2.2.2.2.2)

/-- Embedding of the job loop of `bind_task_round_robin`. -/
def rrJobLoop (ifSkip : Nat → Bool) :
    List JobInfo → List AvailableTaskSlots → Nat → Nat →
    List JobInfo × List AvailableTaskSlots × Nat × Nat × List BoundTask × List RRTraceEntry × RoundExit
  | [], slots, idx, total => ([], slots, idx, total, [], [], .normal)
  | job :: rest, slots, idx, total =>
    if job.running then
      let r := rrStageLoop ifSkip job.job_id job.session_id (stageFuel job.stages)
        job.stages [] slots idx total
      let job' := { job with stages := r.1 }
      match r.2.2.2.2.2.2 with
      | .normal =>
        let r' := rrJobLoop ifSkip rest r.2.1 r.2.2.1 r.2.2.2.1
        (job' :: r'.1, r'.2.1, r'.2.2.1, r'.2.2.2.1, r.2.2.2.2.1 ++ r'.2.2.2.2.1,
          r.2.2.2.2.2.1 ++ r'.2.2.2.2.2.1, r'.2.2.2.2.2.2)
      | e => (job' :: rest, r.2.1, r.2.2.1, r.2.2.2.1, r.2.2.2.2.1, r.2.2.2.2.2.1, e)
    else
      let r' := rrJobLoop ifSkip rest slots idx total
      (job :: r'.1, r'.2.1, r'.2.2.1, r'.2.2.2.1, r'.2.2.2.2.1, r'.2.2.2.2.2.1, r'.2.2.2.2.2.2)

/-- Embedding of `bind_task_round_robin`.  Returns the bound tasks with the
caller-visible mutated state, plus the ghost iteration trace and exit
marker. -/
def bind_task_round_robin (slots : List AvailableTaskSlots) (jobs : List JobInfo)
    (ifSkip : Nat → Bool) :
    List BoundTask × List AvailableTaskSlots × List JobInfo × List RRTraceEntry × RoundExit :=
  let total := slotsTotal slots
  if total = 0 then ([], slots, jobs, [], .normal)
  else
    let sorted := sortBy slotGE slots
    let r := rrJobLoop ifSkip jobs sorted 0 total
    (r.2.2.2.2.1, r.2.1, r.1, r.2.2.2.2.2.1, r.2.2.2.2.2.2)

/-! ## Consistent-hash policy -/

/-- The only field of `PartitionedFile` the binder reads: the byte sequence
of the object-store path (`object_meta.location.as_ref().as_bytes()`). -/
structure PartitionedFile where
  location : List Nat
deriving DecidableEq, Repr

instance : Inhabited PartitionedFile := ⟨⟨[]⟩⟩

/-- The per-scan, per-partition, per-file result of `get_scan_files`. -/
abbrev ScanFiles := List (List (List PartitionedFile))

/-- Embedding of `is_skip_consistent_hash`: skip when there is no scan plan
or more than one scan plan in the stage. -/
def is_skip_consistent_hash (scan_files : ScanFiles) : Bool :=
  scan_files.isEmpty || scan_files.length > 1

/-- Embedding of `TopologyNode` (`u32` slots as `Nat`; the decrement site is
proved to apply only to positive counts). -/
structure TopologyNode where
  id : String
  name : String
  last_seen_ts : Nat
  available_slots : Nat
deriving DecidableEq, Repr

instance : Inhabited TopologyNode := ⟨⟨"", "", 0, 0⟩⟩

/-- A byte-sequence hash; the spec leaves the algorithm open, so the model is
parameterised by it. -/
abbrev HashFn := List Nat → Nat

/-- Byte sequence of a string, used to hash node names. -/
def strBytes (s : String) : List Nat :=
  s.data.map Char.toNat

/-- Modelled from the spec: the virtual points of the consistent-hash ring
(`ballista_core::consistent_hash`, not under `src/`): one point per
`(node, replica_index)` pair, carrying its hashed position, the node name,
the replica index and the physical node's index. -/
def chPoints (hashFn : HashFn) (replicas : Nat) (names : List String) :
    List (Nat × String × Nat × Nat) :=
  (names.enum.map (fun inm =>
    (List.range replicas).map (fun r => (hashFn (strBytes inm.2 ++ [r]), inm.2, r, inm.1)))).flatten

/-- Ring-position comparison: by hashed position, ties by node name then
replica index (the spec's tie-break). -/
def ptLE (a b : Nat × String × Nat × Nat) : Bool :=
  if a.1 < b.1 then true
  else if b.1 < a.1 then false
  else if a.2.1 < b.2.1 then true
  else if b.2.1 < a.2.1 then false
  else a.2.2.1 ≤ b.2.2.1

/-- Drop duplicates keeping first occurrences (`seen` accumulates the
already-emitted elements). -/
def dedupFirst : List Nat → List Nat → List Nat
  | [], _ => []
  | x :: xs, seen => if x ∈ seen then dedupFirst xs seen else x :: dedupFirst xs (x :: seen)

/-- Modelled from the spec: the distinct physical nodes of the ring in
clockwise order starting from the hashed position of `key`: virtual points
sorted by position (ties by name and replica index), rotated to the first
point at or after the key's position, then deduplicated by physical node. -/
def nodeOrder (hashFn : HashFn) (replicas : Nat) (names : List String) (key : List Nat) :
    List Nat :=
  let pts := sortBy ptLE (chPoints hashFn replicas names)
  let h := hashFn key
  let after := pts.filter (fun p => h ≤ p.1)
  let before := pts.filter (fun p => p.1 < h)
  dedupFirst ((after ++ before).map (fun p => p.2.2.2)) []

/-- Modelled from the spec: `get_mut_with_tolerance` returns the first valid
node (positive `available_slots`) among at most `tolerance + 1` distinct
physical nodes starting clockwise from the key's position; `none` when no
node in that window is valid.  We return the node's index. -/
def get_mut_with_tolerance (hashFn : HashFn) (replicas : Nat) (nodes : List TopologyNode)
    (key : List Nat) (tolerance : Nat) : Option Nat :=
  ((nodeOrder hashFn replicas (nodes.map (·.name)) key).take (tolerance + 1)).find?
    (fun i => (nodes.getD i default).available_slots != 0)

/-- Decrement the `available_slots` of the ring node at index `j` (embeds
`node.available_slots -= 1` through the `&mut` returned by the ring). -/
def decNodeAt (nodes : List TopologyNode) (j : Nat) : List TopologyNode :=
  nodes.set j
    (let nd := nodes.getD j default; { nd with available_slots := nd.available_slots - 1 })

/-- How the consistent-hash driver stopped: normal exhaustion, the early
`return` at `total_slots == 0`, the `assert!`/indexing panic, a propagated
`get_scan_files` error, or (ghost, proved unreachable) fuel exhaustion. -/
inductive ChStatus where
  | normal
  | halted
  | panicked
  | errored (e : String)
  | fuelOut
deriving DecidableEq, Repr

/-- Embedding of one `for (partition_id, task_info) in runnable_tasks` pass
of `bind_task_consistent_hash` at a given tolerance.  Each emitted task is
ghost-tagged with `passIdx` (0 for the first, tolerance-0 pass; 1 for the
second).  An out-of-range partition index or an empty per-partition file
list reproduces the source's panic (`assert!(!partition_files.is_empty())`). -/
def chPass (hashFn : HashFn) (replicas : Nat) (jobId sessionId : String)
    (sf : List (List PartitionedFile)) (tol passIdx : Nat) (runnable : List Nat)
    (stage : StageState) (nodes : List TopologyNode) (total : Nat) :
    StageState × List TopologyNode × Nat × List (BoundTask × Nat) × ChStatus :=
  match runnable with
  | [] => (stage, nodes, total, [], .normal)
  | p :: rest =>
    if p < sf.length then
      let files := sf.getD p []
      if files.isEmpty then (stage, nodes, total, [], .panicked)
      else
        let key := (files.getD 0 default).location
        match get_mut_with_tolerance hashFn replicas nodes key tol with
        | some j =>
          let eid := (nodes.getD j default).id
          let td := mkTaskDescription jobId sessionId stage p (tol == 0)
          if total - 1 = 0 then
            (bindStage stage eid p, decNodeAt nodes j, 0, [((eid, td), passIdx)], .halted)
          else
            let r := chPass hashFn replicas jobId sessionId sf tol passIdx rest
              (bindStage stage eid p) (decNodeAt nodes j) (total - 1)
            (r.1, r.2.1, r.2.2.1, ((eid, td), passIdx) :: r.2.2.2.1, r.2.2.2.2)
        | none => chPass hashFn replicas jobId sessionId sf tol passIdx rest stage nodes total
    else (stage, nodes, total, [], .panicked)

/-- Embedding of the stage loop of `bind_task_consistent_hash` for one job:
fetch a stage, call `get_scan_files` (propagating its error), skip and
blacklist when `is_skip_consistent_hash` fires, otherwise run the two
tolerance passes and blacklist the stage when they bound nothing. -/
def chStageLoop (hashFn : HashFn) (replicas tolerance : Nat)
    (getScanFiles : String → Nat → Except String ScanFiles) (jobId sessionId : String) :
    Nat → List StageState → List Nat → List TopologyNode → Nat →
    List StageState × List TopologyNode × Nat × List (BoundTask × Nat) × ChStatus
  | 0, stages, _, nodes, total => (stages, nodes, total, [], .fuelOut)
  | fuel + 1, stages, blacklist, nodes, total =>
    match fetchRunningStage stages blacklist with
    | none => (stages, nodes, total, [], .normal)
    | some si =>
      let stage := stages.getD si default
      match getScanFiles jobId stage.plan with
      | .error e => (stages, nodes, total, [], .errored e)
      | .ok scanFiles =>
        if is_skip_consistent_hash scanFiles then
          chStageLoop hashFn replicas tolerance getScanFiles jobId sessionId fuel stages
            (stage.stage_id :: blacklist) nodes total
        else
          let sf := scanFiles.getD 0 []
          let runnable1 := (emptyIndices stage.task_infos).take total
          let r1 := chPass hashFn replicas jobId sessionId sf 0 0 runnable1 stage nodes total
          match r1.2.2.2.2 with
          | .normal =>
            let runnable2 := (emptyIndices r1.1.task_infos).take r1.2.2.1
            let r2 := chPass hashFn replicas jobId sessionId sf tolerance 1 runnable2 r1.1 r1.2.1 r1.2.2.1
            match r2.2.2.2.2 with
            | .normal =>
              let stages2 := stages.set si r2.1
              let bl' := if total = r2.2.2.1 then stage.stage_id :: blacklist else blacklist
              let r3 := chStageLoop hashFn replicas tolerance getScanFiles jobId sessionId fuel
                stages2 bl' r2.2.1 r2.2.2.1
              (r3.1, r3.2.1, r3.2.2.1, r1.2.2.2.1 ++ r2.2.2.2.1 ++ r3.2.2.2.1, r3.2.2.2.2)
            | s => (stages.set si r2.1, r2.2.1, r2.2.2.1, r1.2.2.2.1 ++ r2.2.2.2.1, s)
          | s => (stages.set si r1.1, r1.2.1, r1.2.2.1, r1.2.2.2.1, s)

/-- Embedding of the job loop of `bind_task_consistent_hash`. -/
def chJobLoop (hashFn : HashFn) (replicas tolerance : Nat)
    (getScanFiles : String → Nat → Except String ScanFiles) :
    List JobInfo → List TopologyNode → Nat →
    List JobInfo × List TopologyNode × Nat × List (BoundTask × Nat) × ChStatus
  | [], nodes, total => ([], nodes, total, [], .normal)
  | job :: rest, nodes, total =>
    if job.running then
      let r := chStageLoop hashFn replicas tolerance getScanFiles job.job_id job.session_id
        (stageFuel job.stages) job.stages [] nodes total
      let job' := { job with stages := r.1 }
      match r.2.2.2.2 with
      | .normal =>
        let r' := chJobLoop hashFn replicas tolerance getScanFiles rest r.2.1 r.2.2.1
        (job' :: r'.1, r'.2.1, r'.2.2.1, r.2.2.2.1 ++ r'.2.2.2.1, r'.2.2.2.2)
      | s => (job' :: rest, r.2.1, r.2.2.1, r.2.2.2.1, s)
    else
      let r' := chJobLoop hashFn replicas tolerance getScanFiles rest nodes total
      (job :: r'.1, r'.2.1, r'.2.2.1, r'.2.2.2.1, r'.2.2.2.2)

/-- The ring value returned to the caller: the (mutated) physical nodes and
the replica count. -/
structure ConsistentHash where
  nodes : List TopologyNode
  replicas : Nat
deriving DecidableEq, Repr

/-- The caller-visible outcome of `bind_task_consistent_hash`:
`Ok((bound_tasks, ring))`, a propagated `Err`, or a process panic. -/
inductive ChOutcome where
  | ok (tasks : List BoundTask) (ring : Option ConsistentHash)
  | err (e : String)
  | panicked
deriving DecidableEq, Repr

/-- Sum of `available_slots` over the topology nodes. -/
def nodesTotal (nodes : List TopologyNode) : Nat :=
  (nodes.map (·.available_slots)).sum

/-- Total slots recorded in the ring for one executor id. -/
def nodesSum (nodes : List TopologyNode) (eid : String) : Nat :=
  ((nodes.filter (fun n => n.id = eid)).map (·.available_slots)).sum

/-- Embedding of `bind_task_consistent_hash`.  The first component is the
final state of the job graphs, which the caller observes even on error or
panic (the graphs are mutated in place behind a lock); the second is the
ghost pass-tagged task list; the third is the function's result. -/
def bind_task_consistent_hash (hashFn : HashFn) (topologyNodes : List TopologyNode)
    (numReplicas tolerance : Nat) (jobs : List JobInfo)
    (getScanFiles : String → Nat → Except String ScanFiles) :
    List JobInfo × List (BoundTask × Nat) × ChOutcome :=
  let total := nodesTotal topologyNodes
  if total = 0 then (jobs, [], .ok [] none)
  else
    let r := chJobLoop hashFn numReplicas tolerance getScanFiles jobs topologyNodes total
    match r.2.2.2.2 with
    | .errored e => (r.1, r.2.2.2.1, .err e)
    | .panicked => (r.1, r.2.2.2.1, .panicked)
    | _ => (r.1, r.2.2.2.1, .ok (r.2.2.2.1.map (·.1)) (some ⟨r.2.1, numReplicas⟩))

/-! ## List utilities -/

theorem getD_set_self {α : Type} {l : List α} {j : Nat} (h : j < l.length) (v d : α) :
    (l.set j v).getD j d = v := by
  rw [List.getD_eq_getElem?_getD, List.getElem?_set_self h]
  rfl

theorem getD_set_ne {α : Type} {l : List α} {i j : Nat} (h : j ≠ i) (v d : α) :
    (l.set j v).getD i d = l.getD i d := by
  rw [List.getD_eq_getElem?_getD, List.getElem?_set_ne h, ← List.getD_eq_getElem?_getD]

theorem mem_emptyIndicesFrom {cs : List (Option TaskInfo)} {k i : Nat} :
    i ∈ emptyIndicesFrom k cs ↔ ∃ d, d < cs.length ∧ cs[d]? = some none ∧ i = k + d := by
  induction cs generalizing k with
  | nil => simp [emptyIndicesFrom]
  | cons c cs ih =>
    cases c with
    | none =>
      simp only [emptyIndicesFrom, List.mem_cons, ih]
      constructor
      · rintro (rfl | ⟨d, hd, hc, rfl⟩)
        · exact ⟨0, by simp⟩
        · exact ⟨d + 1, by simpa using hd, by simpa using hc, by omega⟩
      · rintro ⟨d, hd, hc, rfl⟩
        cases d with
        | zero => left; omega
        | succ d => right; exact ⟨d, by simpa using hd, by simpa using hc, by omega⟩
    | some v =>
      simp only [emptyIndicesFrom, ih]
      constructor
      · rintro ⟨d, hd, hc, rfl⟩
        exact ⟨d + 1, by simpa using hd, by simpa using hc, by omega⟩
      · rintro ⟨d, hd, hc, rfl⟩
        cases d with
        | zero => simp at hc
        | succ d => exact ⟨d, by simpa using hd, by simpa using hc, by omega⟩

theorem le_of_mem_emptyIndicesFrom {cs : List (Option TaskInfo)} {k i : Nat}
    (h : i ∈ emptyIndicesFrom k cs) : k ≤ i := by
  obtain ⟨d, -, -, rfl⟩ := mem_emptyIndicesFrom.1 h
  omega

theorem pairwise_lt_emptyIndicesFrom (cs : List (Option TaskInfo)) (k : Nat) :
    (emptyIndicesFrom k cs).Pairwise (· < ·) := by
  induction cs generalizing k with
  | nil => simp [emptyIndicesFrom]
  | cons c cs ih =>
    cases c with
    | none =>
      refine List.Pairwise.cons (fun b hb => ?_) (ih (k + 1))
      have := le_of_mem_emptyIndicesFrom hb
      omega
    | some v => exact ih (k + 1)

theorem nodup_emptyIndices (cs : List (Option TaskInfo)) : (emptyIndices cs).Nodup :=
  (pairwise_lt_emptyIndicesFrom cs 0).imp Nat.ne_of_lt

theorem mem_emptyIndices {cs : List (Option TaskInfo)} {p : Nat} :
    p ∈ emptyIndices cs ↔ cs[p]? = some none := by
  rw [emptyIndices, mem_emptyIndicesFrom]
  constructor
  · rintro ⟨d, hd, hc, rfl⟩; simpa using hc
  · intro h
    have : p < cs.length := by
      by_contra hp
      rw [List.getElem?_eq_none (by omega)] at h
      exact Option.noConfusion h
    exact ⟨p, this, h, by omega⟩

theorem emptyIndicesFrom_set_some (cs : List (Option TaskInfo)) (k p : Nat) (v : TaskInfo) :
    emptyIndicesFrom k (cs.set p (some v)) =
      (emptyIndicesFrom k cs).filter (fun q => q != k + p) := by
  induction cs generalizing k p with
  | nil => simp [emptyIndicesFrom]
  | cons c cs ih =>
    cases p with
    | zero =>
      have hall : (emptyIndicesFrom (k + 1) cs).filter (fun q => q != k) =
          emptyIndicesFrom (k + 1) cs := by
        apply List.filter_eq_self.2
        intro a ha
        have := le_of_mem_emptyIndicesFrom ha
        simp only [ne_eq, bne_iff_ne]
        omega
      cases c with
      | none => simp [emptyIndicesFrom, hall]
      | some w => simp [emptyIndicesFrom, hall]
    | succ p =>
      have harith : k + 1 + p = k + (p + 1) := by omega
      have hk : (k != k + (p + 1)) = true := by
        simp only [bne_iff_ne, ne_eq]
        omega
      cases c with
      | none =>
        rw [List.set_cons_succ]
        show k :: emptyIndicesFrom (k + 1) (cs.set p (some v)) = _
        rw [ih, harith,
          show emptyIndicesFrom k (none :: cs) = k :: emptyIndicesFrom (k + 1) cs from rfl]
        simp only [List.filter_cons]
        rw [if_pos hk]
      | some w =>
        rw [List.set_cons_succ]
        show emptyIndicesFrom (k + 1) (cs.set p (some v)) = _
        rw [ih, harith]
        rfl

theorem emptyIndices_set_some (cs : List (Option TaskInfo)) (p : Nat) (v : TaskInfo) :
    emptyIndices (cs.set p (some v)) = (emptyIndices cs).filter (fun q => q != p) := by
  have := emptyIndicesFrom_set_some cs 0 p v
  simpa [emptyIndices] using this

theorem length_emptyIndices_set_some {cs : List (Option TaskInfo)} {p : Nat}
    (h : cs[p]? = some none) (v : TaskInfo) :
    (emptyIndices (cs.set p (some v))).length + 1 = (emptyIndices cs).length := by
  rw [emptyIndices_set_some]
  have hmem : p ∈ emptyIndices cs := mem_emptyIndices.2 h
  have hnd : (emptyIndices cs).Nodup := nodup_emptyIndices cs
  rw [← hnd.erase_eq_filter]
  rw [List.length_erase_of_mem hmem]
  have : 1 ≤ (emptyIndices cs).length := List.length_pos.2 (List.ne_nil_of_mem hmem)
  omega

theorem length_filter_le_of_imp {α : Type} {p q : α → Bool}
    (himp : ∀ x, q x = true → p x = true) (l : List α) :
    (l.filter q).length ≤ (l.filter p).length := by
  induction l with
  | nil => simp
  | cons y l ih =>
    by_cases hq : q y = true
    · rw [List.filter_cons_of_pos hq, List.filter_cons_of_pos (himp y hq)]
      simpa using ih
    · rw [List.filter_cons_of_neg (by simpa using hq)]
      by_cases hp : p y = true
      · rw [List.filter_cons_of_pos hp]
        simp only [List.length_cons]
        omega
      · rw [List.filter_cons_of_neg (by simpa using hp)]
        exact ih

theorem length_filter_lt_of_mem {α : Type} {p q : α → Bool}
    (himp : ∀ x, q x = true → p x = true) {l : List α} {x : α}
    (hx : x ∈ l) (hpx : p x = true) (hqx : q x = false) :
    (l.filter q).length < (l.filter p).length := by
  induction l with
  | nil => simp at hx
  | cons y l ih =>
    rcases List.mem_cons.1 hx with rfl | hx'
    · rw [List.filter_cons_of_pos hpx, List.filter_cons_of_neg (by simp [hqx])]
      have := length_filter_le_of_imp himp l
      simp only [List.length_cons]
      omega
    · by_cases hq : q y = true
      · rw [List.filter_cons_of_pos hq, List.filter_cons_of_pos (himp y hq)]
        simpa using ih hx'
      · rw [List.filter_cons_of_neg (by simpa using hq)]
        by_cases hp : p y = true
        · rw [List.filter_cons_of_pos hp]
          have := ih hx'
          simp only [List.length_cons]
          omega
        · rw [List.filter_cons_of_neg (by simpa using hp)]
          exact ih hx'

theorem perm_insertBy {α : Type} (le : α → α → Bool) (x : α) (l : List α) :
    List.Perm (insertBy le x l) (x :: l) := by
  induction l with
  | nil => exact List.Perm.refl _
  | cons y ys ih =>
    rw [insertBy]
    by_cases h : le x y = true
    · rw [if_pos h]
    · rw [if_neg h]
      exact ((ih.cons y).trans (List.Perm.swap x y ys))

theorem perm_sortBy {α : Type} (le : α → α → Bool) (l : List α) :
    List.Perm (sortBy le l) l := by
  induction l with
  | nil => exact List.Perm.refl _
  | cons y ys ih => exact (perm_insertBy le y (sortBy le ys)).trans (ih.cons y)

theorem mem_insertBy {α : Type} {le : α → α → Bool} {x z : α} {l : List α} :
    z ∈ insertBy le x l ↔ z = x ∨ z ∈ l := by
  rw [(perm_insertBy le x l).mem_iff, List.mem_cons]

theorem pairwise_insertBy {α : Type} {le : α → α → Bool}
    (htot : ∀ a b, le a b = false → le b a = true)
    (htrans : ∀ a b c, le a b = true → le b c = true → le a c = true)
    {l : List α} (hl : l.Pairwise (fun a b => le a b = true)) (x : α) :
    (insertBy le x l).Pairwise (fun a b => le a b = true) := by
  induction l with
  | nil => simp [insertBy]
  | cons y ys ih =>
    rw [insertBy]
    rcases List.pairwise_cons.1 hl with ⟨hy, hys⟩
    by_cases h : le x y = true
    · rw [if_pos h]
      refine List.Pairwise.cons ?_ hl
      intro b hb
      rcases List.mem_cons.1 hb with rfl | hb'
      · exact h
      · exact htrans x y b h (hy b hb')
    · rw [if_neg h]
      refine List.Pairwise.cons ?_ (ih hys)
      intro b hb
      rcases mem_insertBy.1 hb with hbx | hb'
      · rw [hbx]
        exact htot x y (by simpa using h)
      · exact hy b hb'

theorem pairwise_sortBy {α : Type} {le : α → α → Bool}
    (htot : ∀ a b, le a b = false → le b a = true)
    (htrans : ∀ a b c, le a b = true → le b c = true → le a c = true)
    (l : List α) : (sortBy le l).Pairwise (fun a b => le a b = true) := by
  induction l with
  | nil => simp [sortBy]
  | cons y ys ih => exact pairwise_insertBy htot htrans ih y

theorem slotGE_total : ∀ a b, slotGE a b = false → slotGE b a = true := by
  intro a b h
  simp only [slotGE, decide_eq_false_iff_not, not_le] at h
  simp only [slotGE, decide_eq_true_eq]
  omega

theorem slotGE_trans : ∀ a b c, slotGE a b = true → slotGE b c = true → slotGE a c = true := by
  intro a b c h1 h2
  simp only [slotGE, decide_eq_true_eq] at h1 h2 ⊢
  omega

theorem sortBy_slotGE_sorted (l : List AvailableTaskSlots) :
    (sortBy slotGE l).Pairwise (fun a b => b.slots ≤ a.slots) := by
  have := pairwise_sortBy slotGE_total slotGE_trans l
  exact this.imp (fun h => by simpa [slotGE, decide_eq_true_eq] using h)

theorem slotsTotal_sortBy (l : List AvailableTaskSlots) :
    slotsTotal (sortBy slotGE l) = slotsTotal l := by
  simp only [slotsTotal]
  exact ((perm_sortBy slotGE l).map (fun s => s.slots)).sum_eq

theorem slotsSum_sortBy (l : List AvailableTaskSlots) (eid : String) :
    slotsSum (sortBy slotGE l) eid = slotsSum l eid := by
  simp only [slotsSum]
  exact (((perm_sortBy slotGE l).filter _).map (fun s => s.slots)).sum_eq

/-! ## Slot-vector lemmas -/

theorem decAt_length (slots : List AvailableTaskSlots) (j : Nat) :
    (decAt slots j).length = slots.length := by
  simp [decAt]

theorem getD_decAt_of_ge {slots : List AvailableTaskSlots} {j : Nat}
    (h : slots.length ≤ j) : decAt slots j = slots := by
  rw [decAt, List.set_eq_of_length_le h]

theorem executor_decAt (slots : List AvailableTaskSlots) (j i : Nat) :
    ((decAt slots j).getD i default).executor_id = (slots.getD i default).executor_id := by
  by_cases hj : slots.length ≤ j
  · rw [getD_decAt_of_ge hj]
  · by_cases h : j = i
    · subst h
      rw [decAt, getD_set_self (by omega)]
    · rw [decAt, getD_set_ne h]

theorem slotAt_decAt_self {slots : List AvailableTaskSlots} {j : Nat}
    (hj : j < slots.length) : slotAt (decAt slots j) j = slotAt slots j - 1 := by
  rw [slotAt, decAt, getD_set_self hj]
  rfl

theorem slotAt_decAt_ne {slots : List AvailableTaskSlots} {j i : Nat}
    (h : j ≠ i) : slotAt (decAt slots j) i = slotAt slots i := by
  rw [slotAt, decAt, getD_set_ne h]
  rfl

theorem slotsTotal_decAt {slots : List AvailableTaskSlots} {j : Nat}
    (hj : j < slots.length) (hpos : slotAt slots j ≠ 0) :
    slotsTotal (decAt slots j) + 1 = slotsTotal slots := by
  induction slots generalizing j with
  | nil => simp at hj
  | cons s rest ih =>
    cases j with
    | zero =>
      simp only [slotAt, List.getD_cons_zero] at hpos
      simp only [decAt, List.getD_cons_zero, List.set_cons_zero, slotsTotal, List.map_cons,
        List.sum_cons]
      omega
    | succ j =>
      simp only [slotAt, List.getD_cons_succ] at hpos
      have hj' : j < rest.length := by simpa using hj
      have := ih hj' hpos
      simp only [decAt, List.getD_cons_succ, List.set_cons_succ, slotsTotal, List.map_cons,
        List.sum_cons] at this ⊢
      omega

theorem slotsSum_decAt {slots : List AvailableTaskSlots} {j : Nat}
    (hj : j < slots.length) (hpos : slotAt slots j ≠ 0) (eid : String) :
    slotsSum (decAt slots j) eid +
      (if (slots.getD j default).executor_id = eid then 1 else 0) = slotsSum slots eid := by
  induction slots generalizing j with
  | nil => simp at hj
  | cons s rest ih =>
    cases j with
    | zero =>
      simp only [slotAt, List.getD_cons_zero] at hpos
      by_cases he : s.executor_id = eid
      all_goals simp [decAt, slotsSum, List.filter_cons, he]
      all_goals omega
    | succ j =>
      simp only [slotAt, List.getD_cons_succ] at hpos
      have hj' : j < rest.length := by simpa using hj
      have hrec := ih hj' hpos
      by_cases he : s.executor_id = eid <;>
        by_cases hif : (rest.getD j default).executor_id = eid <;>
        simp [decAt, slotsSum, List.filter_cons, he, hif, List.getD_cons_succ] at hrec ⊢ <;>
        omega

/-! ## Cursor lemmas -/

theorem findNonzeroFrom_eq_some {slots : List AvailableTaskSlots} {idx j : Nat}
    (h : findNonzeroFrom slots idx = some j) :
    idx ≤ j ∧ j < slots.length ∧ slotAt slots j ≠ 0 ∧
      ∀ i, idx ≤ i → i < j → slotAt slots i = 0 := by
  rw [findNonzeroFrom] at h
  cases hf : (slots.drop idx).findIdx? (fun e => e.slots != 0) with
  | none => rw [hf] at h; exact absurd h (by simp)
  | some k =>
    rw [hf] at h
    have hj : j = idx + k := by
      cases h
      rfl
    subst hj
    obtain ⟨hk, hfi⟩ := List.findIdx?_eq_some_iff_findIdx_eq.1 hf
    have hlen : idx + k < slots.length := by
      rw [List.length_drop] at hk
      omega
    refine ⟨by omega, hlen, ?_, ?_⟩
    · have hw : List.findIdx (fun e => e.slots != 0) (slots.drop idx) <
          (slots.drop idx).length := by omega
      have h1 := @List.findIdx_getElem _ (fun e => e.slots != 0) (slots.drop idx) hw
      rw [List.getElem_drop] at h1
      simp only [hfi] at h1
      simp only [bne_iff_ne, ne_eq, decide_eq_true_eq] at h1
      rw [slotAt, List.getD_eq_getElem _ _ hlen]
      exact h1
    · intro i hi hik
      have hm : i - idx < List.findIdx (fun e => e.slots != 0) (slots.drop idx) := by omega
      have h2 := List.not_of_lt_findIdx hm
      rw [List.getElem_drop] at h2
      have hi' : idx + (i - idx) = i := by omega
      simp only [bne_eq_false_iff_eq] at h2
      rw [← hi', slotAt, List.getD_eq_getElem _ _ (by omega)]
      exact h2

theorem findNonzeroFrom_eq_none {slots : List AvailableTaskSlots} {idx : Nat}
    (h : findNonzeroFrom slots idx = none) :
    ∀ i, idx ≤ i → i < slots.length → slotAt slots i = 0 := by
  rw [findNonzeroFrom] at h
  cases hf : (slots.drop idx).findIdx? (fun e => e.slots != 0) with
  | some k => rw [hf] at h; exact absurd h (by simp)
  | none =>
    intro i hi hlen
    have hall := List.findIdx?_eq_none_iff.1 hf
    have hidrop : i - idx < (slots.drop idx).length := by
      rw [List.length_drop]
      omega
    have hmem : (slots.drop idx)[i - idx] ∈ slots.drop idx := List.getElem_mem hidrop
    have := hall _ hmem
    rw [List.getElem_drop] at this
    have hi' : idx + (i - idx) = i := by omega
    simp only [bne_eq_false_iff_eq] at this
    rw [← hi', slotAt, List.getD_eq_getElem _ _ (by omega)]
    exact this

/-! ## Stage evolution: the common shape of what one round does to a stage -/

/-- Number of bound tasks carrying a given executor id. -/
def countFor (l : List BoundTask) (eid : String) : Nat :=
  (l.filter (fun t => t.1 == eid)).length

/-- All slot entries strictly before the cursor are exhausted. -/
def prefixZero (slots : List AvailableTaskSlots) (idx : Nat) : Prop :=
  ∀ i, i < idx → slotAt slots i = 0

/-- What a (partial) round does to one stage: identity fields are untouched,
cells only go from empty to filled, each emitted task fills a cell that was
empty and now carries exactly its executor and task id, and the task ids
form the contiguous run of the task-id generator. -/
def StageDelta (jobId : String) (stage st' : StageState) (tasks : List BoundTask) : Prop :=
  st'.stage_id = stage.stage_id ∧
  st'.stage_attempt_num = stage.stage_attempt_num ∧
  st'.plan = stage.plan ∧
  st'.task_failure_numbers = stage.task_failure_numbers ∧
  st'.task_infos.length = stage.task_infos.length ∧
  stage.task_id_gen ≤ st'.task_id_gen ∧
  (∀ i : Nat, st'.task_infos[i]? = stage.task_infos[i]? ∨
      (stage.task_infos[i]? = some none ∧ ∃ v : TaskInfo, st'.task_infos[i]? = some (some v))) ∧
  (∀ t ∈ tasks, t.2.partition.job_id = jobId ∧ t.2.partition.stage_id = stage.stage_id ∧
      stage.task_infos[t.2.partition.partition_id]? = some none ∧
      st'.task_infos[t.2.partition.partition_id]? = some (some (create_task_info t.1 t.2.task_id))) ∧
  (tasks.map (fun t => t.2.task_id) =
      List.range' stage.task_id_gen (st'.task_id_gen - stage.task_id_gen)) ∧
  ((emptyIndices st'.task_infos).length + tasks.length = (emptyIndices stage.task_infos).length)

theorem StageDelta.refl (jobId : String) (stage : StageState) :
    StageDelta jobId stage stage [] := by
  refine ⟨rfl, rfl, rfl, rfl, rfl, le_refl _, fun i => Or.inl rfl, by simp, ?_, by simp⟩
  simp

theorem StageDelta.comp {jobId : String} {stage st1 st2 : StageState}
    {t1 t2 : List BoundTask}
    (h1 : StageDelta jobId stage st1 t1) (h2 : StageDelta jobId st1 st2 t2) :
    StageDelta jobId stage st2 (t1 ++ t2) := by
  obtain ⟨a1, b1, c1, d1, e1, f1, g1, h1t, i1, j1⟩ := h1
  obtain ⟨a2, b2, c2, d2, e2, f2, g2, h2t, i2, j2⟩ := h2
  refine ⟨a2.trans a1, b2.trans b1, c2.trans c1, d2.trans d1, e2.trans e1, f1.trans f2,
    ?_, ?_, ?_, ?_⟩
  · intro i
    rcases g2 i with h | ⟨hmid, v, hv⟩
    · rcases g1 i with h' | ⟨horig, v', hv'⟩
      · exact Or.inl (h.trans h')
      · exact Or.inr ⟨horig, v', h ▸ hv'⟩
    · rcases g1 i with h' | ⟨horig, v', hv'⟩
      · exact Or.inr ⟨h' ▸ hmid, v, hv⟩
      · rw [hv'] at hmid
        exact absurd hmid (by simp)
  · intro t ht
    rcases List.mem_append.1 ht with ht1 | ht2
    · obtain ⟨hj, hs, hbefore, hafter⟩ := h1t t ht1
      refine ⟨hj, hs, hbefore, ?_⟩
      rcases g2 t.2.partition.partition_id with h | ⟨hmid, v, hv⟩
      · exact h.trans hafter
      · rw [hafter] at hmid
        exact absurd hmid (by simp)
    · obtain ⟨hj, hs, hbefore, hafter⟩ := h2t t ht2
      refine ⟨hj, hs.trans a1, ?_, hafter⟩
      rcases g1 t.2.partition.partition_id with h | ⟨horig, v, hv⟩
      · exact h ▸ hbefore
      · exact horig
  · rw [List.map_append, i1, i2]
    have harith : st1.task_id_gen = stage.task_id_gen + (st1.task_id_gen - stage.task_id_gen) := by
      omega
    rw [show List.range' st1.task_id_gen (st2.task_id_gen - st1.task_id_gen) =
        List.range' (stage.task_id_gen + 1 * (st1.task_id_gen - stage.task_id_gen))
          (st2.task_id_gen - st1.task_id_gen) by rw [Nat.one_mul, ← harith]]
    rw [List.range'_append]
    congr 1
    omega
  · rw [List.length_append]
    omega

/-- What a round does to the whole stage list of one job.  Stage ids are
assumed unique within the job, so tasks can be attributed to stages by id. -/
def StagesDelta (jobId : String) (stages stages' : List StageState)
    (tasks : List BoundTask) : Prop :=
  stages'.length = stages.length ∧
  (∀ k, k < stages.length →
    StageDelta jobId (stages.getD k default) (stages'.getD k default)
      (tasks.filter (fun t => t.2.partition.stage_id == (stages.getD k default).stage_id))) ∧
  (∀ t ∈ tasks, t.2.partition.job_id = jobId ∧
    ∃ k, k < stages.length ∧ t.2.partition.stage_id = (stages.getD k default).stage_id)

/-- Characterisation of a successful `fetch_running_stage`. -/
theorem fetchRunningStage_eq_some {stages : List StageState} {bl : List Nat} {si : Nat}
    (h : fetchRunningStage stages bl = some si) :
    si < stages.length ∧
    (stages.getD si default).task_infos.any (·.isNone) = true ∧
    bl.contains (stages.getD si default).stage_id = false := by
  rw [fetchRunningStage] at h
  obtain ⟨hk, hfi⟩ := List.findIdx?_eq_some_iff_findIdx_eq.1 h
  have hp := @List.findIdx_getElem _
    (fun st => st.task_infos.any (·.isNone) && !bl.contains st.stage_id) stages (by omega)
  simp only [hfi] at hp
  rw [List.getD_eq_getElem _ _ hk] at *
  simp only [Bool.and_eq_true, Bool.not_eq_true'] at hp
  exact ⟨hk, hp.1, hp.2⟩

theorem emptyIndices_ne_nil {cells : List (Option TaskInfo)}
    (h : cells.any (·.isNone) = true) : emptyIndices cells ≠ [] := by
  rcases List.any_eq_true.1 h with ⟨c, hc, hcn⟩
  rcases List.mem_iff_getElem?.1 hc with ⟨i, hi⟩
  have : c = none := by
    cases c
    · rfl
    · simp at hcn
  subst this
  have : i ∈ emptyIndices cells := mem_emptyIndices.2 hi
  exact List.ne_nil_of_mem this

theorem runnable_cells_none {cells : List (Option TaskInfo)} {n : Nat} :
    ∀ p ∈ (emptyIndices cells).take n, cells[p]? = some none := by
  intro p hp
  exact mem_emptyIndices.1 (List.take_subset n _ hp)

theorem runnable_nodup (cells : List (Option TaskInfo)) (n : Nat) :
    ((emptyIndices cells).take n).Nodup :=
  (nodup_emptyIndices cells).sublist (List.take_sublist n _)

theorem take_ne_nil_of_pos {l : List Nat} {n : Nat} (hn : 1 ≤ n) (hl : l ≠ []) :
    l.take n ≠ [] := by
  cases l with
  | nil => exact absurd rfl hl
  | cons x xs =>
    cases n with
    | zero => omega
    | succ n => simp

theorem countP_set_congr {α : Type} {p : α → Bool} {l : List α} {i : Nat} {a : α}
    [Inhabited α] (hi : i < l.length) (hp : p a = p (l.getD i default)) :
    (l.set i a).countP p = l.countP p := by
  induction l generalizing i with
  | nil => simp at hi
  | cons x xs ih =>
    cases i with
    | zero =>
      simp only [List.getD_cons_zero] at hp
      simp only [List.set_cons_zero, List.countP_cons, hp]
    | succ i =>
      simp only [List.getD_cons_succ] at hp
      have := ih (by simpa using hi) hp
      simp only [List.set_cons_succ, List.countP_cons, this]

/-- Measure for the stage loops: non-blacklisted stages plus empty cells. -/
def totalEmpty (stages : List StageState) : Nat :=
  (stages.map (fun st => (emptyIndices st.task_infos).length)).sum

def nonBlacklisted (stages : List StageState) (bl : List Nat) : Nat :=
  (stages.filter (fun st => !bl.contains st.stage_id)).length

def loopMeasure (stages : List StageState) (bl : List Nat) : Nat :=
  nonBlacklisted stages bl + totalEmpty stages

theorem nonBlacklisted_cons_lt {stages : List StageState} {bl : List Nat} {si : Nat}
    (hsi : si < stages.length)
    (hnb : bl.contains (stages.getD si default).stage_id = false) :
    nonBlacklisted stages ((stages.getD si default).stage_id :: bl) < nonBlacklisted stages bl := by
  have hmem : stages.getD si default ∈ stages := by
    rw [List.getD_eq_getElem _ _ hsi]
    exact List.getElem_mem hsi
  simp only [nonBlacklisted]
  refine length_filter_lt_of_mem ?_ hmem ?_ ?_
  · intro x hx
    simp only [Bool.not_eq_true', List.contains_cons, Bool.or_eq_false_iff] at hx ⊢
    exact hx.2
  · simpa using hnb
  · simp

theorem nonBlacklisted_set_same_id {stages : List StageState} {bl : List Nat} {si : Nat}
    {st1 : StageState} (hsi : si < stages.length)
    (hid : st1.stage_id = (stages.getD si default).stage_id) :
    nonBlacklisted (stages.set si st1) bl = nonBlacklisted stages bl := by
  simp only [nonBlacklisted, ← List.countP_eq_length_filter]
  exact countP_set_congr hsi (by rw [hid])

theorem totalEmpty_set {stages : List StageState} {si : Nat} {st1 : StageState}
    (hsi : si < stages.length) {d : Nat}
    (hd : (emptyIndices st1.task_infos).length + d
        = (emptyIndices (stages.getD si default).task_infos).length) :
    totalEmpty (stages.set si st1) + d = totalEmpty stages := by
  induction stages generalizing si with
  | nil => simp at hsi
  | cons x xs ih =>
    cases si with
    | zero =>
      simp only [List.getD_cons_zero] at hd
      simp only [List.set_cons_zero, totalEmpty, List.map_cons, List.sum_cons]
      omega
    | succ si =>
      simp only [List.getD_cons_succ] at hd
      have := ih (by simpa using hsi) hd
      simp only [List.set_cons_succ, totalEmpty, List.map_cons, List.sum_cons] at this ⊢
      omega

/-- One binding step of any policy: filling the empty cell `p` with a fresh
task id and emitting the matching task is a valid stage evolution. -/
theorem StageDelta.single (jobId sessionId : String) (stage : StageState) (p : Nat)
    (hp : stage.task_infos[p]? = some none) (eid : String) (dc : Bool) :
    StageDelta jobId stage (bindStage stage eid p)
      [(eid, mkTaskDescription jobId sessionId stage p dc)] := by
  have hplen : p < stage.task_infos.length := by
    by_contra hcon
    rw [List.getElem?_eq_none (by omega)] at hp
    exact Option.noConfusion hp
  refine ⟨rfl, rfl, rfl, rfl, by simp [bindStage], by simp [bindStage], ?_, ?_, ?_, ?_⟩
  · intro i
    by_cases h : p = i
    · subst h
      exact Or.inr ⟨hp, create_task_info eid stage.task_id_gen,
        by simp [bindStage, List.getElem?_set_self hplen]⟩
    · exact Or.inl (by simp [bindStage, List.getElem?_set_ne h])
  · intro t ht
    rcases List.mem_singleton.1 ht with rfl
    refine ⟨rfl, rfl, hp, ?_⟩
    simp [bindStage, mkTaskDescription, List.getElem?_set_self hplen]
  · have h1 : (bindStage stage eid p).task_id_gen - stage.task_id_gen = 1 := by
      simp [bindStage]
    simp only [List.map_cons, List.map_nil, h1, List.range'_one, mkTaskDescription]
  · simpa [bindStage] using
      length_emptyIndices_set_some hp (create_task_info eid stage.task_id_gen)

/-- The stage-side facts of one bias batch. -/
theorem biasBatch_stageDelta (jobId sessionId : String) (stage : StageState)
    (runnable : List Nat) (slots : List AvailableTaskSlots) (idx : Nat)
    (hrun : ∀ p ∈ runnable, stage.task_infos[p]? = some none)
    (hnd : runnable.Nodup) :
    StageDelta jobId stage (biasBatch jobId sessionId stage runnable slots idx).1
      (biasBatch jobId sessionId stage runnable slots idx).2.2.2.1 := by
  induction runnable generalizing stage slots idx with
  | nil => simpa [biasBatch] using StageDelta.refl jobId stage
  | cons p rest ih =>
    rw [biasBatch]
    cases hfind : findNonzeroFrom slots idx with
    | none => simpa using StageDelta.refl jobId stage
    | some j =>
      simp only
      have hp := hrun p (List.mem_cons_self p rest)
      have hsingle := StageDelta.single jobId sessionId stage p hp
        (slots.getD j default).executor_id false
      have hrest : ∀ q ∈ rest,
          (bindStage stage (slots.getD j default).executor_id p).task_infos[q]? =
            some none := by
        intro q hq
        have hne : p ≠ q := by
          intro hcon
          subst hcon
          exact (List.nodup_cons.1 hnd).1 hq
        simpa [bindStage, List.getElem?_set_ne hne] using hrun q (List.mem_cons_of_mem p hq)
      have ih' := ih _ (decAt slots j) j hrest (List.nodup_cons.1 hnd).2
      exact hsingle.comp ih'

/-- The slot-side facts of one bias batch: lengths and executor ids are
preserved, the cursor only advances, the exhausted prefix stays exhausted,
every recorded bind chose the first non-exhausted position, and the early
return happens only with the whole vector exhausted. -/
theorem biasBatch_slots_facts (jobId sessionId : String) (stage : StageState)
    (runnable : List Nat) (slots : List AvailableTaskSlots) (idx : Nat)
    (hpz : prefixZero slots idx) :
    (biasBatch jobId sessionId stage runnable slots idx).2.1.length = slots.length ∧
    idx ≤ (biasBatch jobId sessionId stage runnable slots idx).2.2.1 ∧
    prefixZero (biasBatch jobId sessionId stage runnable slots idx).2.1
      (biasBatch jobId sessionId stage runnable slots idx).2.2.1 ∧
    (∀ i : Nat, (((biasBatch jobId sessionId stage runnable slots idx).2.1.getD i
        default).executor_id = (slots.getD i default).executor_id)) ∧
    (∀ ev ∈ (biasBatch jobId sessionId stage runnable slots idx).2.2.2.2.1,
      (∀ i, i < ev.chosen → slotAt ev.slotsBefore i = 0) ∧
        slotAt ev.slotsBefore ev.chosen ≠ 0) ∧
    ((biasBatch jobId sessionId stage runnable slots idx).2.2.2.2.2 = true →
      ∀ i, i < slots.length →
        slotAt (biasBatch jobId sessionId stage runnable slots idx).2.1 i = 0) := by
  induction runnable generalizing stage slots idx with
  | nil =>
    refine ⟨rfl, le_refl _, hpz, fun i => rfl, ?_, ?_⟩
    · intro ev hev
      simp [biasBatch] at hev
    · intro h
      simp [biasBatch] at h
  | cons p rest ih =>
    rw [biasBatch]
    cases hfind : findNonzeroFrom slots idx with
    | none =>
      obtain h0 := findNonzeroFrom_eq_none hfind
      simp only
      refine ⟨by trivial, le_refl _, hpz, fun i => by trivial, by simp, ?_⟩
      intro _ i hilen
      by_cases hi : i < idx
      · exact hpz i hi
      · exact h0 i (by omega) hilen
    | some j =>
      obtain ⟨hij, hjlen, hjpos, hzero⟩ := findNonzeroFrom_eq_some hfind
      simp only
      have hpz' : prefixZero (decAt slots j) j := by
        intro i hi
        have hne : j ≠ i := by omega
        rw [slotAt_decAt_ne hne]
        by_cases hidx : i < idx
        · exact hpz i hidx
        · exact hzero i (by omega) hi
      obtain ⟨ihlen, ihidx, ihpz, ihids, ihev, ihhalt⟩ :=
        ih (bindStage stage (slots.getD j default).executor_id p) (decAt slots j) j hpz'
      refine ⟨ihlen.trans (decAt_length slots j), by omega, ihpz, ?_, ?_, ?_⟩
      · intro i
        rw [ihids i, executor_decAt]
      · intro ev hev
        rcases List.mem_cons.1 hev with rfl | hev'
        · refine ⟨?_, hjpos⟩
          intro i hi
          by_cases hidx : i < idx
          · exact hpz i hidx
          · exact hzero i (by omega) hi
        · exact ihev ev hev'
      · intro hhalt i hilen
        exact ihhalt hhalt i (by rw [decAt_length slots j]; exact hilen)

theorem countFor_cons (e : String) (td : TaskDescription) (l : List BoundTask) (eid : String) :
    countFor ((e, td) :: l) eid = countFor l eid + (if e = eid then 1 else 0) := by
  rw [countFor, List.filter_cons]
  by_cases he : e = eid
  · simp [countFor, he]
  · simp [countFor, he]

theorem countFor_append (l1 l2 : List BoundTask) (eid : String) :
    countFor (l1 ++ l2) eid = countFor l1 eid + countFor l2 eid := by
  simp [countFor, List.filter_append]

/-- Slot conservation over one bias batch: per executor id, final slots plus
emitted tasks equal initial slots. -/
theorem biasBatch_conservation (jobId sessionId : String) (stage : StageState)
    (runnable : List Nat) (slots : List AvailableTaskSlots) (idx : Nat) (eid : String) :
    slotsSum (biasBatch jobId sessionId stage runnable slots idx).2.1 eid +
      countFor (biasBatch jobId sessionId stage runnable slots idx).2.2.2.1 eid =
      slotsSum slots eid := by
  induction runnable generalizing stage slots idx with
  | nil => simp [biasBatch, countFor]
  | cons p rest ih =>
    rw [biasBatch]
    cases hfind : findNonzeroFrom slots idx with
    | none => simp [countFor]
    | some j =>
      obtain ⟨hij, hjlen, hjpos, hzero⟩ := findNonzeroFrom_eq_some hfind
      simp only
      have ihrec := ih (bindStage stage (slots.getD j default).executor_id p)
        (decAt slots j) j
      have hdec := slotsSum_decAt hjlen hjpos eid
      rw [countFor_cons]
      omega

/-- Total-slot conservation over one bias batch. -/
theorem biasBatch_total (jobId sessionId : String) (stage : StageState)
    (runnable : List Nat) (slots : List AvailableTaskSlots) (idx : Nat) :
    slotsTotal (biasBatch jobId sessionId stage runnable slots idx).2.1 +
      (biasBatch jobId sessionId stage runnable slots idx).2.2.2.1.length =
      slotsTotal slots := by
  induction runnable generalizing stage slots idx with
  | nil => simp [biasBatch]
  | cons p rest ih =>
    rw [biasBatch]
    cases hfind : findNonzeroFrom slots idx with
    | none => simp
    | some j =>
      obtain ⟨hij, hjlen, hjpos, hzero⟩ := findNonzeroFrom_eq_some hfind
      simp only [List.length_cons]
      have ihrec := ih (bindStage stage (slots.getD j default).executor_id p)
        (decAt slots j) j
      have hdec := slotsTotal_decAt hjlen hjpos
      omega

/-- When the early return did not fire, the bias batch binds every runnable
partition. -/
theorem biasBatch_length_of_not_halted (jobId sessionId : String) (stage : StageState)
    (runnable : List Nat) (slots : List AvailableTaskSlots) (idx : Nat)
    (h : (biasBatch jobId sessionId stage runnable slots idx).2.2.2.2.2 = false) :
    (biasBatch jobId sessionId stage runnable slots idx).2.2.2.1.length = runnable.length := by
  induction runnable generalizing stage slots idx with
  | nil => simp [biasBatch]
  | cons p rest ih =>
    rw [biasBatch] at h ⊢
    cases hfind : findNonzeroFrom slots idx with
    | none =>
      rw [hfind] at h
      simp at h
    | some j =>
      rw [hfind] at h
      simp only at h ⊢
      simp only [List.length_cons]
      rw [ih (bindStage stage (slots.getD j default).executor_id p) (decAt slots j) j h]

/-! ## Stage-list evolution -/

instance : Inhabited JobInfo := ⟨⟨"", "", false, []⟩⟩

theorem set_getD_self {α : Type} [Inhabited α] {l : List α} {i : Nat} (h : i < l.length) :
    l.set i (l.getD i default) = l := by
  induction l generalizing i with
  | nil => simp at h
  | cons x xs ih =>
    cases i with
    | zero => simp
    | succ i =>
      simp only [List.getD_cons_succ, List.set_cons_succ, List.cons.injEq, true_and]
      exact ih (by simpa using h)

theorem nodup_map_stage_id_ne {stages : List StageState}
    (hnd : (stages.map (·.stage_id)).Nodup) {k si : Nat}
    (hk : k < stages.length) (hsi : si < stages.length) (hne : k ≠ si) :
    (stages.getD k default).stage_id ≠ (stages.getD si default).stage_id := by
  have h1 : (stages.map (·.stage_id))[k]? = some (stages.getD k default).stage_id := by
    rw [List.getElem?_map, List.getD_eq_getElem _ _ hk, List.getElem?_eq_getElem hk]
    rfl
  have h2 : (stages.map (·.stage_id))[si]? = some (stages.getD si default).stage_id := by
    rw [List.getElem?_map, List.getD_eq_getElem _ _ hsi, List.getElem?_eq_getElem hsi]
    rfl
  intro hcon
  have heq : (stages.map (·.stage_id))[k]? = (stages.map (·.stage_id))[si]? := by
    rw [h1, h2, hcon]
  have := List.getElem?_inj (by simpa using hk) hnd heq
  exact hne this

theorem StagesDelta.refl_stages (jobId : String) (stages : List StageState) :
    StagesDelta jobId stages stages [] := by
  refine ⟨rfl, ?_, by simp⟩
  intro k hk
  simpa using StageDelta.refl jobId (stages.getD k default)

theorem StagesDelta.ofSet {jobId : String} {stages : List StageState} {si : Nat}
    {st1 : StageState} {tasks : List BoundTask} (hsi : si < stages.length)
    (hnd : (stages.map (·.stage_id)).Nodup)
    (hdelta : StageDelta jobId (stages.getD si default) st1 tasks) :
    StagesDelta jobId stages (stages.set si st1) tasks := by
  refine ⟨by simp, ?_, ?_⟩
  · intro k hk
    by_cases hks : k = si
    · subst hks
      rw [getD_set_self hsi]
      have hfilter : tasks.filter
          (fun t => t.2.partition.stage_id == (stages.getD k default).stage_id) = tasks := by
        rw [List.filter_eq_self]
        intro t ht
        have := (hdelta.2.2.2.2.2.2.2.1 t ht).2.1
        simp [this]
      rw [hfilter]
      exact hdelta
    · rw [getD_set_ne (fun h => hks h.symm)]
      have hfilter : tasks.filter
          (fun t => t.2.partition.stage_id == (stages.getD k default).stage_id) = [] := by
        rw [List.filter_eq_nil_iff]
        intro t ht
        have hts := (hdelta.2.2.2.2.2.2.2.1 t ht).2.1
        have hneq := nodup_map_stage_id_ne hnd hk hsi hks
        simp only [beq_iff_eq, hts]
        exact fun hcon => hneq hcon.symm
      rw [hfilter]
      exact StageDelta.refl jobId _
  · intro t ht
    exact ⟨(hdelta.2.2.2.2.2.2.2.1 t ht).1, si, hsi, (hdelta.2.2.2.2.2.2.2.1 t ht).2.1⟩

theorem StagesDelta.compose {jobId : String} {s0 s1 s2 : List StageState}
    {t1 t2 : List BoundTask} (h1 : StagesDelta jobId s0 s1 t1)
    (h2 : StagesDelta jobId s1 s2 t2) : StagesDelta jobId s0 s2 (t1 ++ t2) := by
  obtain ⟨hl1, hk1, ht1⟩ := h1
  obtain ⟨hl2, hk2, ht2⟩ := h2
  refine ⟨hl2.trans hl1, ?_, ?_⟩
  · intro k hk
    have hd1 := hk1 k hk
    have hd2 := hk2 k (by omega)
    have hid : (s1.getD k default).stage_id = (s0.getD k default).stage_id := hd1.1
    rw [List.filter_append]
    have heq : t2.filter (fun t => t.2.partition.stage_id == (s0.getD k default).stage_id) =
        t2.filter (fun t => t.2.partition.stage_id == (s1.getD k default).stage_id) := by
      rw [hid]
    rw [heq]
    exact hd1.comp hd2
  · intro t ht
    rcases List.mem_append.1 ht with h | h
    · exact ht1 t h
    · obtain ⟨hj, k, hk, hs⟩ := ht2 t h
      exact ⟨hj, k, by omega, hs.trans (hk1 k (by omega)).1⟩

theorem stages_map_id_set {stages : List StageState} {si : Nat} {st1 : StageState}
    (hsi : si < stages.length)
    (hid : st1.stage_id = (stages.getD si default).stage_id) :
    (stages.set si st1).map (·.stage_id) = stages.map (·.stage_id) := by
  rw [List.map_set]
  have heq : st1.stage_id = ((stages.map (·.stage_id)).getD si default) := by
    rw [hid, List.getD_eq_getElem _ _ hsi, List.getD_eq_getElem _ _ (by simpa using hsi)]
    simp
  rw [heq]
  exact set_getD_self (by simpa using hsi)

/-- The stage loop of the bias policy is a valid stage-list evolution. -/
theorem biasStageLoop_stagesDelta (ifSkip : Nat → Bool) (totalSlots : Nat)
    (jobId sessionId : String) (fuel : Nat) :
    ∀ (stages : List StageState) (bl : List Nat) (slots : List AvailableTaskSlots) (idx : Nat),
    (stages.map (·.stage_id)).Nodup →
    StagesDelta jobId stages
      (biasStageLoop ifSkip totalSlots jobId sessionId fuel stages bl slots idx).1
      (biasStageLoop ifSkip totalSlots jobId sessionId fuel stages bl slots idx).2.2.2.1 := by
  induction fuel with
  | zero =>
    intro stages bl slots idx hnd
    exact StagesDelta.refl_stages jobId stages
  | succ fuel ih =>
    intro stages bl slots idx hnd
    rw [biasStageLoop]
    cases hfetch : fetchRunningStage stages bl with
    | none => exact StagesDelta.refl_stages jobId stages
    | some si =>
      obtain hsi := (fetchRunningStage_eq_some hfetch).1
      simp only
      by_cases hskip : ifSkip (stages.getD si default).plan = true
      · rw [if_pos hskip]
        exact ih stages _ slots idx hnd
      · rw [if_neg hskip]
        have hrun := @runnable_cells_none (stages.getD si default).task_infos totalSlots
        have hndr := runnable_nodup (stages.getD si default).task_infos totalSlots
        have hdelta := biasBatch_stageDelta jobId sessionId (stages.getD si default)
          ((emptyIndices (stages.getD si default).task_infos).take totalSlots) slots idx
          hrun hndr
        by_cases hhalt : (biasBatch jobId sessionId (stages.getD si default)
            ((emptyIndices (stages.getD si default).task_infos).take totalSlots)
            slots idx).2.2.2.2.2 = true
        · rw [if_pos hhalt]
          exact StagesDelta.ofSet hsi hnd hdelta
        · rw [if_neg hhalt]
          simp only
          have hnd' : ((stages.set si (biasBatch jobId sessionId (stages.getD si default)
              ((emptyIndices (stages.getD si default).task_infos).take totalSlots)
              slots idx).1).map (·.stage_id)).Nodup := by
            rw [stages_map_id_set hsi hdelta.1]
            exact hnd
          exact (StagesDelta.ofSet hsi hnd hdelta).compose (ih _ bl _ _ hnd')

/-- Slot-side facts through the bias stage loop. -/
theorem biasStageLoop_slots_facts (ifSkip : Nat → Bool) (totalSlots : Nat)
    (jobId sessionId : String) (fuel : Nat) :
    ∀ (stages : List StageState) (bl : List Nat) (slots : List AvailableTaskSlots) (idx : Nat),
    prefixZero slots idx →
    (biasStageLoop ifSkip totalSlots jobId sessionId fuel stages bl slots idx).2.1.length
      = slots.length ∧
    idx ≤ (biasStageLoop ifSkip totalSlots jobId sessionId fuel stages bl slots idx).2.2.1 ∧
    prefixZero (biasStageLoop ifSkip totalSlots jobId sessionId fuel stages bl slots idx).2.1
      (biasStageLoop ifSkip totalSlots jobId sessionId fuel stages bl slots idx).2.2.1 ∧
    (∀ i : Nat, (((biasStageLoop ifSkip totalSlots jobId sessionId fuel stages bl slots
        idx).2.1.getD i default).executor_id = (slots.getD i default).executor_id)) ∧
    (∀ ev ∈ (biasStageLoop ifSkip totalSlots jobId sessionId fuel stages bl slots
        idx).2.2.2.2.1,
      (∀ i, i < ev.chosen → slotAt ev.slotsBefore i = 0) ∧
        slotAt ev.slotsBefore ev.chosen ≠ 0) ∧
    ((biasStageLoop ifSkip totalSlots jobId sessionId fuel stages bl slots
        idx).2.2.2.2.2 = RoundExit.halted →
      ∀ i, i < slots.length →
        slotAt (biasStageLoop ifSkip totalSlots jobId sessionId fuel stages bl slots
          idx).2.1 i = 0) := by
  induction fuel with
  | zero =>
    intro stages bl slots idx hpz
    refine ⟨rfl, le_refl _, hpz, fun i => rfl, ?_, ?_⟩
    · intro ev hev
      simp [biasStageLoop] at hev
    · intro h
      simp [biasStageLoop] at h
  | succ fuel ih =>
    intro stages bl slots idx hpz
    rw [biasStageLoop]
    cases hfetch : fetchRunningStage stages bl with
    | none =>
      refine ⟨rfl, le_refl _, hpz, fun i => rfl, by simp, by simp⟩
    | some si =>
      simp only
      by_cases hskip : ifSkip (stages.getD si default).plan = true
      · rw [if_pos hskip]
        exact ih stages _ slots idx hpz
      · rw [if_neg hskip]
        obtain ⟨blen, bidx, bpz, bids, bev, bhalt⟩ := biasBatch_slots_facts jobId sessionId
          (stages.getD si default)
          ((emptyIndices (stages.getD si default).task_infos).take totalSlots) slots idx hpz
        by_cases hhalt : (biasBatch jobId sessionId (stages.getD si default)
            ((emptyIndices (stages.getD si default).task_infos).take totalSlots)
            slots idx).2.2.2.2.2 = true
        · rw [if_pos hhalt]
          exact ⟨blen, bidx, bpz, bids, bev, fun _ => bhalt hhalt⟩
        · rw [if_neg hhalt]
          simp only
          obtain ⟨ilen, iidx, ipz, iids, iev, ihalt⟩ := ih _ bl _ _ bpz
          refine ⟨ilen.trans blen, by omega, ipz, ?_, ?_, ?_⟩
          · intro i
            rw [iids i, bids i]
          · intro ev hev
            rcases List.mem_append.1 hev with h | h
            · exact bev ev h
            · exact iev ev h
          · intro hx i hilen
            exact ihalt hx i (by rw [blen]; exact hilen)

/-- Per-executor slot conservation through the bias stage loop. -/
theorem biasStageLoop_conservation (ifSkip : Nat → Bool) (totalSlots : Nat)
    (jobId sessionId : String) (fuel : Nat) :
    ∀ (stages : List StageState) (bl : List Nat) (slots : List AvailableTaskSlots)
      (idx : Nat) (eid : String),
    slotsSum (biasStageLoop ifSkip totalSlots jobId sessionId fuel stages bl slots idx).2.1
        eid +
      countFor (biasStageLoop ifSkip totalSlots jobId sessionId fuel stages bl slots
        idx).2.2.2.1 eid = slotsSum slots eid := by
  induction fuel with
  | zero =>
    intro stages bl slots idx eid
    simp [biasStageLoop, countFor]
  | succ fuel ih =>
    intro stages bl slots idx eid
    rw [biasStageLoop]
    cases hfetch : fetchRunningStage stages bl with
    | none => simp [countFor]
    | some si =>
      simp only
      by_cases hskip : ifSkip (stages.getD si default).plan = true
      · rw [if_pos hskip]
        exact ih stages _ slots idx eid
      · rw [if_neg hskip]
        have hbatch := biasBatch_conservation jobId sessionId (stages.getD si default)
          ((emptyIndices (stages.getD si default).task_infos).take totalSlots) slots idx eid
        by_cases hhalt : (biasBatch jobId sessionId (stages.getD si default)
            ((emptyIndices (stages.getD si default).task_infos).take totalSlots)
            slots idx).2.2.2.2.2 = true
        · rw [if_pos hhalt]
          exact hbatch
        · rw [if_neg hhalt]
          simp only
          have hrec := ih (stages.set si (biasBatch jobId sessionId (stages.getD si default)
            ((emptyIndices (stages.getD si default).task_infos).take totalSlots)
            slots idx).1) bl
            (biasBatch jobId sessionId (stages.getD si default)
              ((emptyIndices (stages.getD si default).task_infos).take totalSlots)
              slots idx).2.1
            (biasBatch jobId sessionId (stages.getD si default)
              ((emptyIndices (stages.getD si default).task_infos).take totalSlots)
              slots idx).2.2.1 eid
          rw [countFor_append]
          omega

/-- Total-slot conservation through the bias stage loop. -/
theorem biasStageLoop_total (ifSkip : Nat → Bool) (totalSlots : Nat)
    (jobId sessionId : String) (fuel : Nat) :
    ∀ (stages : List StageState) (bl : List Nat) (slots : List AvailableTaskSlots)
      (idx : Nat),
    slotsTotal (biasStageLoop ifSkip totalSlots jobId sessionId fuel stages bl slots
        idx).2.1 +
      (biasStageLoop ifSkip totalSlots jobId sessionId fuel stages bl slots
        idx).2.2.2.1.length = slotsTotal slots := by
  induction fuel with
  | zero =>
    intro stages bl slots idx
    simp [biasStageLoop]
  | succ fuel ih =>
    intro stages bl slots idx
    rw [biasStageLoop]
    cases hfetch : fetchRunningStage stages bl with
    | none => simp
    | some si =>
      simp only
      by_cases hskip : ifSkip (stages.getD si default).plan = true
      · rw [if_pos hskip]
        exact ih stages _ slots idx
      · rw [if_neg hskip]
        have hbatch := biasBatch_total jobId sessionId (stages.getD si default)
          ((emptyIndices (stages.getD si default).task_infos).take totalSlots) slots idx
        by_cases hhalt : (biasBatch jobId sessionId (stages.getD si default)
            ((emptyIndices (stages.getD si default).task_infos).take totalSlots)
            slots idx).2.2.2.2.2 = true
        · rw [if_pos hhalt]
          exact hbatch
        · rw [if_neg hhalt]
          simp only
          have hrec := ih (stages.set si (biasBatch jobId sessionId (stages.getD si default)
            ((emptyIndices (stages.getD si default).task_infos).take totalSlots)
            slots idx).1) bl
            (biasBatch jobId sessionId (stages.getD si default)
              ((emptyIndices (stages.getD si default).task_infos).take totalSlots)
              slots idx).2.1
            (biasBatch jobId sessionId (stages.getD si default)
              ((emptyIndices (stages.getD si default).task_infos).take totalSlots)
              slots idx).2.2.1
          rw [List.length_append]
          omega

/-- The canonical fuel is sufficient for the bias stage loop. -/
theorem biasStageLoop_no_fuelOut (ifSkip : Nat → Bool) (totalSlots : Nat)
    (jobId sessionId : String) (htot : 1 ≤ totalSlots) (fuel : Nat) :
    ∀ (stages : List StageState) (bl : List Nat) (slots : List AvailableTaskSlots)
      (idx : Nat), loopMeasure stages bl < fuel →
    (biasStageLoop ifSkip totalSlots jobId sessionId fuel stages bl slots
      idx).2.2.2.2.2 ≠ RoundExit.fuelOut := by
  induction fuel with
  | zero =>
    intro stages bl slots idx hm
    omega
  | succ fuel ih =>
    intro stages bl slots idx hm
    rw [biasStageLoop]
    cases hfetch : fetchRunningStage stages bl with
    | none => simp
    | some si =>
      obtain ⟨hsi, hany, hnb⟩ := fetchRunningStage_eq_some hfetch
      simp only
      by_cases hskip : ifSkip (stages.getD si default).plan = true
      · rw [if_pos hskip]
        apply ih
        have := nonBlacklisted_cons_lt hsi hnb
        simp only [loopMeasure] at hm ⊢
        omega
      · rw [if_neg hskip]
        have hdelta := biasBatch_stageDelta jobId sessionId (stages.getD si default)
          ((emptyIndices (stages.getD si default).task_infos).take totalSlots) slots idx
          (@runnable_cells_none (stages.getD si default).task_infos totalSlots)
          (runnable_nodup (stages.getD si default).task_infos totalSlots)
        by_cases hhalt : (biasBatch jobId sessionId (stages.getD si default)
            ((emptyIndices (stages.getD si default).task_infos).take totalSlots)
            slots idx).2.2.2.2.2 = true
        · rw [if_pos hhalt]
          simp
        · rw [if_neg hhalt]
          simp only
          apply ih
          have hlen := biasBatch_length_of_not_halted jobId sessionId
            (stages.getD si default)
            ((emptyIndices (stages.getD si default).task_infos).take totalSlots) slots idx
            (by simpa using hhalt)
          have hne : ((emptyIndices (stages.getD si default).task_infos).take
              totalSlots) ≠ [] :=
            take_ne_nil_of_pos htot (emptyIndices_ne_nil hany)
          have hpos : 1 ≤ ((emptyIndices (stages.getD si default).task_infos).take
              totalSlots).length := List.length_pos.2 hne
          have hcount := hdelta.2.2.2.2.2.2.2.2.2
          have hempty := totalEmpty_set hsi hcount
          have hnbl := @nonBlacklisted_set_same_id stages bl si _ hsi hdelta.1
          simp only [loopMeasure] at hm ⊢
          omega

/-! ## Job-list evolution -/

/-- What a round does to the `active_jobs` map: job identities and statuses
are untouched, and each job's stages evolve by `StagesDelta` under the tasks
attributed to that job. -/
def JobsDelta (jobs jobs' : List JobInfo) (tasks : List BoundTask) : Prop :=
  jobs'.length = jobs.length ∧
  (∀ k, k < jobs.length →
    (jobs'.getD k default).job_id = (jobs.getD k default).job_id ∧
    (jobs'.getD k default).session_id = (jobs.getD k default).session_id ∧
    (jobs'.getD k default).running = (jobs.getD k default).running ∧
    StagesDelta (jobs.getD k default).job_id (jobs.getD k default).stages
      (jobs'.getD k default).stages
      (tasks.filter (fun t => t.2.partition.job_id == (jobs.getD k default).job_id))) ∧
  (∀ t ∈ tasks, ∃ k, k < jobs.length ∧
    t.2.partition.job_id = (jobs.getD k default).job_id)

theorem JobsDelta.refl_jobs (jobs : List JobInfo) : JobsDelta jobs jobs [] := by
  refine ⟨rfl, ?_, by simp⟩
  intro k hk
  exact ⟨rfl, rfl, rfl, by simpa using StagesDelta.refl_stages _ (jobs.getD k default).stages⟩

theorem nodup_map_job_id_head_ne {job : JobInfo} {rest : List JobInfo}
    (hnd : ((job :: rest).map (·.job_id)).Nodup) {k : Nat} (hk : k < rest.length) :
    (rest.getD k default).job_id ≠ job.job_id := by
  rw [List.map_cons, List.nodup_cons] at hnd
  intro hcon
  apply hnd.1
  rw [← hcon, List.getD_eq_getElem _ _ hk]
  exact List.mem_map_of_mem _ (List.getElem_mem hk)

/-- A task list whose job ids all come from `rest` is filtered away by the
head job's id. -/
theorem filter_head_of_rest {job : JobInfo} {rest : List JobInfo}
    (hnd : ((job :: rest).map (·.job_id)).Nodup) {tasks : List BoundTask}
    (hall : ∀ t ∈ tasks, ∃ k, k < rest.length ∧
      t.2.partition.job_id = (rest.getD k default).job_id) :
    tasks.filter (fun t => t.2.partition.job_id == job.job_id) = [] := by
  rw [List.filter_eq_nil_iff]
  intro t ht
  obtain ⟨k, hk, hid⟩ := hall t ht
  simp only [beq_iff_eq, hid]
  exact fun hcon => nodup_map_job_id_head_ne hnd hk hcon

/-- The job loop of the bias policy is a valid job-list evolution. -/
theorem biasJobLoop_jobsDelta (ifSkip : Nat → Bool) (totalSlots : Nat) :
    ∀ (jobs : List JobInfo) (slots : List AvailableTaskSlots) (idx : Nat),
    (jobs.map (·.job_id)).Nodup →
    (∀ job ∈ jobs, (job.stages.map (·.stage_id)).Nodup) →
    JobsDelta jobs (biasJobLoop ifSkip totalSlots jobs slots idx).1
      (biasJobLoop ifSkip totalSlots jobs slots idx).2.2.2.1 := by
  intro jobs
  induction jobs with
  | nil =>
    intro slots idx hnd hnds
    exact JobsDelta.refl_jobs []
  | cons job rest ih =>
    intro slots idx hnd hnds
    rw [biasJobLoop]
    by_cases hrun : job.running = true
    · rw [if_pos hrun]
      simp only
      have hdstage := biasStageLoop_stagesDelta ifSkip totalSlots job.job_id job.session_id
        (stageFuel job.stages) job.stages [] slots idx
        (hnds job (List.mem_cons_self job rest))
      cases hexit : (biasStageLoop ifSkip totalSlots job.job_id job.session_id
          (stageFuel job.stages) job.stages [] slots idx).2.2.2.2.2 with
      | normal =>
        simp only
        have hrest := ih (biasStageLoop ifSkip totalSlots job.job_id job.session_id
            (stageFuel job.stages) job.stages [] slots idx).2.1
          (biasStageLoop ifSkip totalSlots job.job_id job.session_id
            (stageFuel job.stages) job.stages [] slots idx).2.2.1
          (by
            rw [List.map_cons, List.nodup_cons] at hnd
            exact hnd.2)
          (fun j hj => hnds j (List.mem_cons_of_mem job hj))
        refine ⟨by simp [hrest.1], ?_, ?_⟩
        · intro k hk
          cases k with
          | zero =>
            refine ⟨rfl, rfl, rfl, ?_⟩
            simp only [List.getD_cons_zero]
            rw [List.filter_append]
            have h1 : (biasStageLoop ifSkip totalSlots job.job_id job.session_id
                (stageFuel job.stages) job.stages [] slots idx).2.2.2.1.filter
                (fun t => t.2.partition.job_id == job.job_id) =
                (biasStageLoop ifSkip totalSlots job.job_id job.session_id
                  (stageFuel job.stages) job.stages [] slots idx).2.2.2.1 := by
              rw [List.filter_eq_self]
              intro t ht
              have := (hdstage.2.2 t ht).1
              simp [this]
            have h2 := filter_head_of_rest hnd hrest.2.2
            rw [h1, h2, List.append_nil]
            exact hdstage
          | succ k =>
            have hk' : k < rest.length := by simpa using hk
            obtain ⟨hji, hsi, hri, hsd⟩ := hrest.2.1 k hk'
            refine ⟨by simpa using hji, by simpa using hsi, by simpa using hri, ?_⟩
            simp only [List.getD_cons_succ]
            rw [List.filter_append]
            have h1 : (biasStageLoop ifSkip totalSlots job.job_id job.session_id
                (stageFuel job.stages) job.stages [] slots idx).2.2.2.1.filter
                (fun t => t.2.partition.job_id == (rest.getD k default).job_id) = [] := by
              rw [List.filter_eq_nil_iff]
              intro t ht
              have := (hdstage.2.2 t ht).1
              simp only [beq_iff_eq, this]
              exact fun hcon => nodup_map_job_id_head_ne hnd hk' hcon.symm
            rw [h1, List.nil_append]
            exact hsd
        · intro t ht
          rcases List.mem_append.1 ht with h | h
          · exact ⟨0, by simp, (hdstage.2.2 t h).1⟩
          · obtain ⟨k, hk, hid⟩ := hrest.2.2 t h
            exact ⟨k + 1, by simpa using hk, by simpa using hid⟩
      | halted =>
        simp only
        refine ⟨by simp, ?_, ?_⟩
        · intro k hk
          cases k with
          | zero =>
            refine ⟨rfl, rfl, rfl, ?_⟩
            simp only [List.getD_cons_zero]
            have h1 : (biasStageLoop ifSkip totalSlots job.job_id job.session_id
                (stageFuel job.stages) job.stages [] slots idx).2.2.2.1.filter
                (fun t => t.2.partition.job_id == job.job_id) =
                (biasStageLoop ifSkip totalSlots job.job_id job.session_id
                  (stageFuel job.stages) job.stages [] slots idx).2.2.2.1 := by
              rw [List.filter_eq_self]
              intro t ht
              have := (hdstage.2.2 t ht).1
              simp [this]
            rw [h1]
            exact hdstage
          | succ k =>
            have hk' : k < rest.length := by simpa using hk
            refine ⟨rfl, rfl, rfl, ?_⟩
            simp only [List.getD_cons_succ]
            have h1 : (biasStageLoop ifSkip totalSlots job.job_id job.session_id
                (stageFuel job.stages) job.stages [] slots idx).2.2.2.1.filter
                (fun t => t.2.partition.job_id == (rest.getD k default).job_id) = [] := by
              rw [List.filter_eq_nil_iff]
              intro t ht
              have := (hdstage.2.2 t ht).1
              simp only [beq_iff_eq, this]
              exact fun hcon => nodup_map_job_id_head_ne hnd hk' hcon.symm
            rw [h1]
            exact StagesDelta.refl_stages _ _
        · intro t ht
          exact ⟨0, by simp, (hdstage.2.2 t ht).1⟩
      | fuelOut =>
        simp only
        refine ⟨by simp, ?_, ?_⟩
        · intro k hk
          cases k with
          | zero =>
            refine ⟨rfl, rfl, rfl, ?_⟩
            simp only [List.getD_cons_zero]
            have h1 : (biasStageLoop ifSkip totalSlots job.job_id job.session_id
                (stageFuel job.stages) job.stages [] slots idx).2.2.2.1.filter
                (fun t => t.2.partition.job_id == job.job_id) =
                (biasStageLoop ifSkip totalSlots job.job_id job.session_id
                  (stageFuel job.stages) job.stages [] slots idx).2.2.2.1 := by
              rw [List.filter_eq_self]
              intro t ht
              have := (hdstage.2.2 t ht).1
              simp [this]
            rw [h1]
            exact hdstage
          | succ k =>
            have hk' : k < rest.length := by simpa using hk
            refine ⟨rfl, rfl, rfl, ?_⟩
            simp only [List.getD_cons_succ]
            have h1 : (biasStageLoop ifSkip totalSlots job.job_id job.session_id
                (stageFuel job.stages) job.stages [] slots idx).2.2.2.1.filter
                (fun t => t.2.partition.job_id == (rest.getD k default).job_id) = [] := by
              rw [List.filter_eq_nil_iff]
              intro t ht
              have := (hdstage.2.2 t ht).1
              simp only [beq_iff_eq, this]
              exact fun hcon => nodup_map_job_id_head_ne hnd hk' hcon.symm
            rw [h1]
            exact StagesDelta.refl_stages _ _
        · intro t ht
          exact ⟨0, by simp, (hdstage.2.2 t ht).1⟩
    · rw [if_neg hrun]
      simp only
      have hrest := ih slots idx
        (by
          rw [List.map_cons, List.nodup_cons] at hnd
          exact hnd.2)
        (fun j hj => hnds j (List.mem_cons_of_mem job hj))
      refine ⟨by simp [hrest.1], ?_, ?_⟩
      · intro k hk
        cases k with
        | zero =>
          refine ⟨rfl, rfl, rfl, ?_⟩
          simp only [List.getD_cons_zero]
          rw [filter_head_of_rest hnd hrest.2.2]
          exact StagesDelta.refl_stages _ _
        | succ k =>
          have hk' : k < rest.length := by simpa using hk
          obtain ⟨hji, hsi, hri, hsd⟩ := hrest.2.1 k hk'
          exact ⟨by simpa using hji, by simpa using hsi, by simpa using hri, by
            simpa using hsd⟩
      · intro t ht
        obtain ⟨k, hk, hid⟩ := hrest.2.2 t ht
        exact ⟨k + 1, by simpa using hk, by simpa using hid⟩

theorem loopMeasure_lt_stageFuel (stages : List StageState) :
    loopMeasure stages [] < stageFuel stages := by
  simp only [loopMeasure, stageFuel, nonBlacklisted, totalEmpty]
  have h : (stages.filter (fun st => !([] : List Nat).contains st.stage_id)).length
      = stages.length := by
    rw [List.filter_eq_self.2]
    intro a _
    simp
  omega

/-- Slot-side facts through the bias job loop. -/
theorem biasJobLoop_slots_facts (ifSkip : Nat → Bool) (totalSlots : Nat) :
    ∀ (jobs : List JobInfo) (slots : List AvailableTaskSlots) (idx : Nat),
    prefixZero slots idx →
    (biasJobLoop ifSkip totalSlots jobs slots idx).2.1.length = slots.length ∧
    idx ≤ (biasJobLoop ifSkip totalSlots jobs slots idx).2.2.1 ∧
    prefixZero (biasJobLoop ifSkip totalSlots jobs slots idx).2.1
      (biasJobLoop ifSkip totalSlots jobs slots idx).2.2.1 ∧
    (∀ i : Nat, (((biasJobLoop ifSkip totalSlots jobs slots idx).2.1.getD i
        default).executor_id = (slots.getD i default).executor_id)) ∧
    (∀ ev ∈ (biasJobLoop ifSkip totalSlots jobs slots idx).2.2.2.2.1,
      (∀ i, i < ev.chosen → slotAt ev.slotsBefore i = 0) ∧
        slotAt ev.slotsBefore ev.chosen ≠ 0) ∧
    ((biasJobLoop ifSkip totalSlots jobs slots idx).2.2.2.2.2 = RoundExit.halted →
      ∀ i, i < slots.length →
        slotAt (biasJobLoop ifSkip totalSlots jobs slots idx).2.1 i = 0) := by
  intro jobs
  induction jobs with
  | nil =>
    intro slots idx hpz
    refine ⟨rfl, le_refl _, hpz, fun i => rfl, by simp [biasJobLoop], by simp [biasJobLoop]⟩
  | cons job rest ih =>
    intro slots idx hpz
    rw [biasJobLoop]
    by_cases hrun : job.running = true
    · rw [if_pos hrun]
      simp only
      obtain ⟨slen, sidx, spz, sids, sev, shalt⟩ := biasStageLoop_slots_facts ifSkip
        totalSlots job.job_id job.session_id (stageFuel job.stages) job.stages [] slots
        idx hpz
      cases hexit : (biasStageLoop ifSkip totalSlots job.job_id job.session_id
          (stageFuel job.stages) job.stages [] slots idx).2.2.2.2.2 with
      | normal =>
        simp only
        obtain ⟨ilen, iidx, ipz, iids, iev, ihalt⟩ := ih _ _ spz
        refine ⟨ilen.trans slen, by omega, ipz, ?_, ?_, ?_⟩
        · intro i
          rw [iids i, sids i]
        · intro ev hev
          rcases List.mem_append.1 hev with h | h
          · exact sev ev h
          · exact iev ev h
        · intro hx i hilen
          exact ihalt hx i (by rw [slen]; exact hilen)
      | halted =>
        simp only
        exact ⟨slen, sidx, spz, sids, sev, fun _ => shalt hexit⟩
      | fuelOut =>
        simp only
        refine ⟨slen, sidx, spz, sids, sev, ?_⟩
        intro hx
        exact absurd hx (by simp)
    · rw [if_neg hrun]
      simp only
      obtain ⟨ilen, iidx, ipz, iids, iev, ihalt⟩ := ih slots idx hpz
      exact ⟨ilen, iidx, ipz, iids, iev, ihalt⟩

/-- Per-executor slot conservation through the bias job loop. -/
theorem biasJobLoop_conservation (ifSkip : Nat → Bool) (totalSlots : Nat) :
    ∀ (jobs : List JobInfo) (slots : List AvailableTaskSlots) (idx : Nat) (eid : String),
    slotsSum (biasJobLoop ifSkip totalSlots jobs slots idx).2.1 eid +
      countFor (biasJobLoop ifSkip totalSlots jobs slots idx).2.2.2.1 eid =
      slotsSum slots eid := by
  intro jobs
  induction jobs with
  | nil =>
    intro slots idx eid
    simp [biasJobLoop, countFor]
  | cons job rest ih =>
    intro slots idx eid
    rw [biasJobLoop]
    by_cases hrun : job.running = true
    · rw [if_pos hrun]
      simp only
      have hs := biasStageLoop_conservation ifSkip totalSlots job.job_id job.session_id
        (stageFuel job.stages) job.stages [] slots idx eid
      cases hexit : (biasStageLoop ifSkip totalSlots job.job_id job.session_id
          (stageFuel job.stages) job.stages [] slots idx).2.2.2.2.2 with
      | normal =>
        simp only
        have hr := ih (biasStageLoop ifSkip totalSlots job.job_id job.session_id
            (stageFuel job.stages) job.stages [] slots idx).2.1
          (biasStageLoop ifSkip totalSlots job.job_id job.session_id
            (stageFuel job.stages) job.stages [] slots idx).2.2.1 eid
        rw [countFor_append]
        omega
      | halted =>
        simp only
        exact hs
      | fuelOut =>
        simp only
        exact hs
    · rw [if_neg hrun]
      simp only
      exact ih slots idx eid

/-- Total-slot conservation through the bias job loop. -/
theorem biasJobLoop_total (ifSkip : Nat → Bool) (totalSlots : Nat) :
    ∀ (jobs : List JobInfo) (slots : List AvailableTaskSlots) (idx : Nat),
    slotsTotal (biasJobLoop ifSkip totalSlots jobs slots idx).2.1 +
      (biasJobLoop ifSkip totalSlots jobs slots idx).2.2.2.1.length =
      slotsTotal slots := by
  intro jobs
  induction jobs with
  | nil =>
    intro slots idx
    simp [biasJobLoop]
  | cons job rest ih =>
    intro slots idx
    rw [biasJobLoop]
    by_cases hrun : job.running = true
    · rw [if_pos hrun]
      simp only
      have hs := biasStageLoop_total ifSkip totalSlots job.job_id job.session_id
        (stageFuel job.stages) job.stages [] slots idx
      cases hexit : (biasStageLoop ifSkip totalSlots job.job_id job.session_id
          (stageFuel job.stages) job.stages [] slots idx).2.2.2.2.2 with
      | normal =>
        simp only
        have hr := ih (biasStageLoop ifSkip totalSlots job.job_id job.session_id
            (stageFuel job.stages) job.stages [] slots idx).2.1
          (biasStageLoop ifSkip totalSlots job.job_id job.session_id
            (stageFuel job.stages) job.stages [] slots idx).2.2.1
        rw [List.length_append]
        omega
      | halted =>
        simp only
        exact hs
      | fuelOut =>
        simp only
        exact hs
    · rw [if_neg hrun]
      simp only
      exact ih slots idx

/-- The bias job loop never exhausts its fuel. -/
theorem biasJobLoop_no_fuelOut (ifSkip : Nat → Bool) (totalSlots : Nat)
    (htot : 1 ≤ totalSlots) :
    ∀ (jobs : List JobInfo) (slots : List AvailableTaskSlots) (idx : Nat),
    (biasJobLoop ifSkip totalSlots jobs slots idx).2.2.2.2.2 ≠ RoundExit.fuelOut := by
  intro jobs
  induction jobs with
  | nil =>
    intro slots idx
    simp [biasJobLoop]
  | cons job rest ih =>
    intro slots idx
    rw [biasJobLoop]
    by_cases hrun : job.running = true
    · rw [if_pos hrun]
      simp only
      cases hexit : (biasStageLoop ifSkip totalSlots job.job_id job.session_id
          (stageFuel job.stages) job.stages [] slots idx).2.2.2.2.2 with
      | normal =>
        simp only
        exact ih _ _
      | halted =>
        simp only
        simp
      | fuelOut =>
        exact absurd hexit (biasStageLoop_no_fuelOut ifSkip totalSlots job.job_id
          job.session_id htot (stageFuel job.stages) job.stages [] slots idx
          (loopMeasure_lt_stageFuel job.stages))
    · rw [if_neg hrun]
      simp only
      exact ih slots idx

theorem slotsTotal_eq_zero {slots : List AvailableTaskSlots}
    (h : ∀ i, i < slots.length → slotAt slots i = 0) : slotsTotal slots = 0 := by
  induction slots with
  | nil => rfl
  | cons s rest ih =>
    have h0 := h 0 (by simp)
    simp only [slotAt, List.getD_cons_zero] at h0
    have hr : ∀ i, i < rest.length → slotAt rest i = 0 := by
      intro i hi
      have := h (i + 1) (by simpa using hi)
      simpa [slotAt, List.getD_cons_succ] using this
    simp [slotsTotal, h0]
    have := ih hr
    simpa [slotsTotal] using this

theorem length_sortBy (slots : List AvailableTaskSlots) :
    (sortBy slotGE slots).length = slots.length :=
  (perm_sortBy slotGE slots).length_eq

/-- The state evolution of a whole `bind_task_bias` round. -/
theorem bind_task_bias_jobsDelta (slots : List AvailableTaskSlots) (jobs : List JobInfo)
    (ifSkip : Nat → Bool) (hnd : (jobs.map (·.job_id)).Nodup)
    (hnds : ∀ job ∈ jobs, (job.stages.map (·.stage_id)).Nodup) :
    JobsDelta jobs (bind_task_bias slots jobs ifSkip).2.2.1
      (bind_task_bias slots jobs ifSkip).1 := by
  rw [bind_task_bias]
  by_cases htot : slotsTotal slots = 0
  · rw [if_pos htot]
    exact JobsDelta.refl_jobs jobs
  · rw [if_neg htot]
    exact biasJobLoop_jobsDelta ifSkip (slotsTotal slots) jobs (sortBy slotGE slots) 0
      hnd hnds

/-- Per-executor slot conservation of a whole `bind_task_bias` round. -/
theorem bind_task_bias_conservation (slots : List AvailableTaskSlots)
    (jobs : List JobInfo) (ifSkip : Nat → Bool) (eid : String) :
    slotsSum (bind_task_bias slots jobs ifSkip).2.1 eid +
      countFor (bind_task_bias slots jobs ifSkip).1 eid = slotsSum slots eid := by
  rw [bind_task_bias]
  by_cases htot : slotsTotal slots = 0
  · rw [if_pos htot]
    simp [countFor]
  · rw [if_neg htot]
    simp only
    have := biasJobLoop_conservation ifSkip (slotsTotal slots) jobs
      (sortBy slotGE slots) 0 eid
    rw [slotsSum_sortBy] at this
    exact this

/-- Total-slot conservation of a whole `bind_task_bias` round. -/
theorem bind_task_bias_total (slots : List AvailableTaskSlots) (jobs : List JobInfo)
    (ifSkip : Nat → Bool) :
    slotsTotal (bind_task_bias slots jobs ifSkip).2.1 +
      (bind_task_bias slots jobs ifSkip).1.length = slotsTotal slots := by
  rw [bind_task_bias]
  by_cases htot : slotsTotal slots = 0
  · rw [if_pos htot]
    simp [htot]
  · rw [if_neg htot]
    simp only
    have := biasJobLoop_total ifSkip (slotsTotal slots) jobs (sortBy slotGE slots) 0
    rw [slotsTotal_sortBy] at this
    exact this

/-- Every bind of a `bind_task_bias` round chose the first position with free
slots in the (descending-sorted) vector as it was at that moment. -/
theorem bind_task_bias_events (slots : List AvailableTaskSlots) (jobs : List JobInfo)
    (ifSkip : Nat → Bool) :
    ∀ ev ∈ (bind_task_bias slots jobs ifSkip).2.2.2.1,
      (∀ i, i < ev.chosen → slotAt ev.slotsBefore i = 0) ∧
        slotAt ev.slotsBefore ev.chosen ≠ 0 := by
  rw [bind_task_bias]
  by_cases htot : slotsTotal slots = 0
  · rw [if_pos htot]
    simp
  · rw [if_neg htot]
    simp only
    have := biasJobLoop_slots_facts ifSkip (slotsTotal slots) jobs (sortBy slotGE slots) 0
      (fun i hi => absurd hi (Nat.not_lt_zero i))
    exact this.2.2.2.2.1

/-- When the bias round returned early (cursor past the end), the whole slot
vector is exhausted, and therefore exactly `slotsTotal slots` tasks were
bound. -/
theorem bind_task_bias_halted (slots : List AvailableTaskSlots) (jobs : List JobInfo)
    (ifSkip : Nat → Bool)
    (h : (bind_task_bias slots jobs ifSkip).2.2.2.2 = RoundExit.halted) :
    (∀ i, i < slots.length → slotAt (bind_task_bias slots jobs ifSkip).2.1 i = 0) ∧
    (bind_task_bias slots jobs ifSkip).1.length = slotsTotal slots := by
  have htotal := bind_task_bias_total slots jobs ifSkip
  rw [bind_task_bias] at h ⊢
  by_cases htot : slotsTotal slots = 0
  · rw [if_pos htot] at h
    exact absurd h (by simp)
  · rw [if_neg htot] at h ⊢
    simp only at h ⊢
    have hf := biasJobLoop_slots_facts ifSkip (slotsTotal slots) jobs (sortBy slotGE slots)
      0 (fun i hi => absurd hi (Nat.not_lt_zero i))
    have hz : ∀ i, i < slots.length →
        slotAt (biasJobLoop ifSkip (slotsTotal slots) jobs (sortBy slotGE slots) 0).2.1
          i = 0 := by
      intro i hi
      exact hf.2.2.2.2.2 h i (by rw [length_sortBy]; exact hi)
    refine ⟨hz, ?_⟩
    have hzero : slotsTotal
        (biasJobLoop ifSkip (slotsTotal slots) jobs (sortBy slotGE slots) 0).2.1 = 0 := by
      apply slotsTotal_eq_zero
      intro i hi
      exact hz i (by rw [← length_sortBy slots, ← hf.1]; exact hi)
    rw [bind_task_bias] at htotal
    rw [if_neg htot] at htotal
    simp only at htotal
    omega

/-- The canonical fuel of `bind_task_bias` is never exhausted: the embedded
driver computes the full terminating round of the source. -/
theorem bind_task_bias_no_fuelOut (slots : List AvailableTaskSlots) (jobs : List JobInfo)
    (ifSkip : Nat → Bool) :
    (bind_task_bias slots jobs ifSkip).2.2.2.2 ≠ RoundExit.fuelOut := by
  rw [bind_task_bias]
  by_cases htot : slotsTotal slots = 0
  · rw [if_pos htot]
    simp
  · rw [if_neg htot]
    simp only
    exact biasJobLoop_no_fuelOut ifSkip (slotsTotal slots) (by omega) jobs
      (sortBy slotGE slots) 0

/-- A stage whose plan the bias skip predicate flags is left untouched by the
bias stage loop. -/
theorem biasStageLoop_skip_frame (ifSkip : Nat → Bool) (totalSlots : Nat)
    (jobId sessionId : String) (fuel : Nat) :
    ∀ (stages : List StageState) (bl : List Nat) (slots : List AvailableTaskSlots)
      (idx : Nat) (k : Nat), k < stages.length →
    ifSkip (stages.getD k default).plan = true →
    (biasStageLoop ifSkip totalSlots jobId sessionId fuel stages bl slots idx).1.getD k
      default = stages.getD k default := by
  induction fuel with
  | zero =>
    intro stages bl slots idx k hk hskip
    rfl
  | succ fuel ih =>
    intro stages bl slots idx k hk hskip
    rw [biasStageLoop]
    cases hfetch : fetchRunningStage stages bl with
    | none => rfl
    | some si =>
      obtain hsi := (fetchRunningStage_eq_some hfetch).1
      simp only
      by_cases hskipsi : ifSkip (stages.getD si default).plan = true
      · rw [if_pos hskipsi]
        exact ih stages _ slots idx k hk hskip
      · rw [if_neg hskipsi]
        have hne : si ≠ k := by
          intro hcon
          subst hcon
          exact hskipsi hskip
        by_cases hhalt : (biasBatch jobId sessionId (stages.getD si default)
            ((emptyIndices (stages.getD si default).task_infos).take totalSlots)
            slots idx).2.2.2.2.2 = true
        · rw [if_pos hhalt]
          exact getD_set_ne hne _ _
        · rw [if_neg hhalt]
          simp only
          rw [ih _ bl _ _ k (by simpa using hk)
            (by rw [getD_set_ne hne]; exact hskip)]
          exact getD_set_ne hne _ _

/-- A stage whose plan the bias skip predicate flags is left untouched by the
whole bias job loop. -/
theorem biasJobLoop_skip_frame (ifSkip : Nat → Bool) (totalSlots : Nat) :
    ∀ (jobs : List JobInfo) (slots : List AvailableTaskSlots) (idx : Nat) (k m : Nat),
    k < jobs.length → m < (jobs.getD k default).stages.length →
    ifSkip (((jobs.getD k default).stages.getD m default)).plan = true →
    ((biasJobLoop ifSkip totalSlots jobs slots idx).1.getD k default).stages.getD m
      default = (jobs.getD k default).stages.getD m default := by
  intro jobs
  induction jobs with
  | nil =>
    intro slots idx k m hk
    simp at hk
  | cons job rest ih =>
    intro slots idx k m hk hm hskip
    rw [biasJobLoop]
    by_cases hrun : job.running = true
    · rw [if_pos hrun]
      simp only
      cases hexit : (biasStageLoop ifSkip totalSlots job.job_id job.session_id
          (stageFuel job.stages) job.stages [] slots idx).2.2.2.2.2 with
      | normal =>
        simp only
        cases k with
        | zero =>
          simp only [List.getD_cons_zero] at hm hskip ⊢
          exact biasStageLoop_skip_frame ifSkip totalSlots job.job_id job.session_id
            (stageFuel job.stages) job.stages [] slots idx m hm hskip
        | succ k =>
          simp only [List.getD_cons_succ] at hm hskip ⊢
          exact ih _ _ k m (by simpa using hk) hm hskip
      | halted =>
        simp only
        cases k with
        | zero =>
          simp only [List.getD_cons_zero] at hm hskip ⊢
          exact biasStageLoop_skip_frame ifSkip totalSlots job.job_id job.session_id
            (stageFuel job.stages) job.stages [] slots idx m hm hskip
        | succ k =>
          simp only [List.getD_cons_succ]
      | fuelOut =>
        simp only
        cases k with
        | zero =>
          simp only [List.getD_cons_zero] at hm hskip ⊢
          exact biasStageLoop_skip_frame ifSkip totalSlots job.job_id job.session_id
            (stageFuel job.stages) job.stages [] slots idx m hm hskip
        | succ k =>
          simp only [List.getD_cons_succ]
    · rw [if_neg hrun]
      simp only
      cases k with
      | zero => simp only [List.getD_cons_zero]
      | succ k =>
        simp only [List.getD_cons_succ] at hm hskip ⊢
        exact ih _ _ k m (by simpa using hk) hm hskip

/-! ## Round-robin invariant -/

/-- The invariant of the round-robin cursor: the live total matches the
vector, the cursor is in range, the already-visited prefix and the
not-yet-visited suffix are each descending, and a visited entry is at most
one below any unvisited entry (the state is a descending vector whose first
`idx` entries were decremented once in this sweep). -/
def rrInv (slots : List AvailableTaskSlots) (idx total : Nat) : Prop :=
  total = slotsTotal slots ∧
  idx ≤ slots.length ∧
  (∀ i j, i < j → j < idx → slotAt slots j ≤ slotAt slots i) ∧
  (∀ i j, idx ≤ i → i < j → j < slots.length → slotAt slots j ≤ slotAt slots i) ∧
  (∀ i j, i < idx → idx ≤ j → j < slots.length → slotAt slots j ≤ slotAt slots i + 1)

theorem slotsTotal_pos_exists {slots : List AvailableTaskSlots}
    (h : 0 < slotsTotal slots) : ∃ i, i < slots.length ∧ 0 < slotAt slots i := by
  induction slots with
  | nil => simp [slotsTotal] at h
  | cons s rest ih =>
    by_cases hs : 0 < s.slots
    · exact ⟨0, by simp, by simpa [slotAt]⟩
    · have : 0 < slotsTotal rest := by
        simp only [slotsTotal, List.map_cons, List.sum_cons] at h
        simp only [slotsTotal]
        omega
      obtain ⟨i, hi, hpos⟩ := ih this
      exact ⟨i + 1, by simpa using hi, by simpa [slotAt, List.getD_cons_succ] using hpos⟩

theorem pairwise_desc_slotAt {l : List AvailableTaskSlots}
    (h : l.Pairwise (fun a b => b.slots ≤ a.slots)) :
    ∀ i j, i < j → j < l.length → slotAt l j ≤ slotAt l i := by
  intro i j hij hj
  have := List.pairwise_iff_getElem.1 h i j (by omega) hj hij
  rw [slotAt, slotAt, List.getD_eq_getElem l default hj,
    List.getD_eq_getElem l default (show i < l.length by omega)]
  exact this

/-- The invariant holds at the start of the round, right after the sort. -/
theorem rrInv_init (slots : List AvailableTaskSlots) :
    rrInv (sortBy slotGE slots) 0 (slotsTotal slots) := by
  refine ⟨(slotsTotal_sortBy slots).symm, by omega, by omega, ?_, by omega⟩
  intro i j _ hij hj
  exact pairwise_desc_slotAt (sortBy_slotGE_sorted slots) i j hij hj

/-- Under the invariant with capacity left, the wrap logic selects an
in-range position with a positive slot count. -/
theorem rrSelect_pos {slots : List AvailableTaskSlots} {idx total : Nat}
    (hinv : rrInv slots idx total) (htot : 0 < total) :
    rrSelect slots idx < slots.length ∧ 0 < slotAt slots (rrSelect slots idx) := by
  obtain ⟨htotal, hle, hvis, hunvis, hcross⟩ := hinv
  obtain ⟨w, hwlen, hwpos⟩ := slotsTotal_pos_exists (htotal ▸ htot)
  rw [rrSelect]
  by_cases hwrap : slots.length ≤ idx
  · have hidx : idx = slots.length := by omega
    simp only [if_pos hwrap]
    have h0 : 0 < slotAt slots 0 := by
      rcases Nat.eq_zero_or_pos w with rfl | hw
      · exact hwpos
      · have := hvis 0 w hw (by omega)
        omega
    rw [if_neg (by omega)]
    exact ⟨by omega, h0⟩
  · simp only [if_neg hwrap]
    by_cases hz : slotAt slots idx = 0
    · rw [if_pos hz]
      have hwlt : w < idx := by
        by_contra hcon
        rcases Nat.eq_or_lt_of_le (Nat.le_of_not_lt hcon) with heq | hlt
        · rw [heq] at hz
          omega
        · have := hunvis idx w (le_refl idx) hlt hwlen
          omega
      have h0 : 0 < slotAt slots 0 := by
        rcases Nat.eq_zero_or_pos w with rfl | hw
        · exact hwpos
        · have := hvis 0 w hw hwlt
          omega
      exact ⟨by omega, h0⟩
    · rw [if_neg hz]
      exact ⟨by omega, by omega⟩

/-- The invariant is preserved by one round-robin binding step. -/
theorem rrInv_step {slots : List AvailableTaskSlots} {idx total : Nat}
    (hinv : rrInv slots idx total) (htot : 0 < total) :
    rrInv (decAt slots (rrSelect slots idx)) (rrSelect slots idx + 1) (total - 1) := by
  obtain ⟨hjlen, hjpos⟩ := rrSelect_pos hinv htot
  obtain ⟨htotal, hle, hvis, hunvis, hcross⟩ := hinv
  have hdec := slotsTotal_decAt hjlen (by omega)
  have hat : ∀ i, i ≠ rrSelect slots idx →
      slotAt (decAt slots (rrSelect slots idx)) i = slotAt slots i := by
    intro i hi
    exact slotAt_decAt_ne (fun h => hi h.symm)
  have hatj : slotAt (decAt slots (rrSelect slots idx)) (rrSelect slots idx) =
      slotAt slots (rrSelect slots idx) - 1 := slotAt_decAt_self hjlen
  rw [rrSelect] at hjlen hjpos hatj hat ⊢
  by_cases hwrap : slots.length ≤ idx
  · have hidx : idx = slots.length := by omega
    simp only [if_pos hwrap, ite_self] at hjlen hjpos hatj hat ⊢
    have hall : ∀ i j, i < j → j < slots.length → slotAt slots j ≤ slotAt slots i :=
      fun i j hij hj => hvis i j hij (by omega)
    refine ⟨?_, by simpa [decAt] using hjlen, ?_, ?_, ?_⟩
    · rw [rrSelect] at hdec
      simp only [if_pos hwrap, ite_self] at hdec
      omega
    · intro i j hij hj
      omega
    · intro i j h1 hij hj
      rw [hat i (by omega), hat j (by omega)]
      exact hall i j hij (by simpa [decAt] using hj)
    · intro i j hi h1 hj
      have hi0 : i = 0 := by omega
      subst hi0
      rw [hatj, hat j (by omega)]
      have := hall 0 j (by omega) (by simpa [decAt] using hj)
      omega
  · simp only [if_neg hwrap] at hjlen hjpos hatj hat ⊢
    by_cases hz : slotAt slots idx = 0
    · simp only [if_pos hz] at hjlen hjpos hatj hat ⊢
      have hzall : ∀ j, idx ≤ j → j < slots.length → slotAt slots j = 0 := by
        intro j hj hjl
        rcases Nat.eq_or_lt_of_le hj with rfl | hlt
        · exact hz
        · have := hunvis idx j (le_refl idx) hlt hjl
          omega
      have hidxpos : 0 < idx := by
        by_contra hcon
        have h0 : idx = 0 := by omega
        subst h0
        exact absurd hz hjpos.ne'

      refine ⟨?_, by simpa [decAt] using hjlen, ?_, ?_, ?_⟩
      · rw [rrSelect] at hdec
        simp only [if_neg hwrap, if_pos hz] at hdec
        omega
      · intro i j hij hj
        omega
      · intro i j h1 hij hj
        rw [hat i (by omega), hat j (by omega)]
        have hjl : j < slots.length := by simpa [decAt] using hj
        by_cases hjidx : j < idx
        · exact hvis i j hij hjidx
        · rw [hzall j (by omega) hjl]
          omega
      · intro i j hi h1 hj
        have hi0 : i = 0 := by omega
        subst hi0
        rw [hatj, hat j (by omega)]
        have hjl : j < slots.length := by simpa [decAt] using hj
        by_cases hjidx : j < idx
        · have := hvis 0 j (by omega) hjidx
          omega
        · rw [hzall j (by omega) hjl]
          omega
    · simp only [if_neg hz] at hjlen hjpos hatj hat ⊢
      refine ⟨?_, by simpa [decAt] using hjlen, ?_, ?_, ?_⟩
      · rw [rrSelect] at hdec
        simp only [if_neg hwrap, if_neg hz] at hdec
        omega
      · intro i j hij hj
        have hjl : j ≤ idx := by omega
        rcases Nat.eq_or_lt_of_le hjl with rfl | hlt
        · rw [hatj, hat i (by omega)]
          have := hcross i j hij (le_refl j) (by omega)
          omega
        · rw [hat i (by omega), hat j (by omega)]
          exact hvis i j hij hlt
      · intro i j h1 hij hj
        rw [hat i (by omega), hat j (by omega)]
        exact hunvis i j (by omega) hij (by simpa [decAt] using hj)
      · intro i j hi h1 hj
        have hjl : j < slots.length := by simpa [decAt] using hj
        by_cases hiidx : i < idx
        · rw [hat i (by omega), hat j (by omega)]
          exact hcross i j hiidx (by omega) hjl
        · have hii : i = idx := by omega
          subst hii
          rw [hatj, hat j (by omega)]
          have := hunvis i j (le_refl i) (by omega) hjl
          omega

/-- The stage-side facts of one round-robin batch. -/
theorem rrBatch_stageDelta (jobId sessionId : String) (stage : StageState)
    (runnable : List Nat) (slots : List AvailableTaskSlots) (idx total : Nat)
    (hrun : ∀ p ∈ runnable, stage.task_infos[p]? = some none)
    (hnd : runnable.Nodup) :
    StageDelta jobId stage (rrBatch jobId sessionId stage runnable slots idx total).1
      (rrBatch jobId sessionId stage runnable slots idx total).2.2.2.2.1 := by
  induction runnable generalizing stage slots idx total with
  | nil => simpa [rrBatch] using StageDelta.refl jobId stage
  | cons p rest ih =>
    rw [rrBatch]
    have hp := hrun p (List.mem_cons_self p rest)
    have hsingle := StageDelta.single jobId sessionId stage p hp
      (slots.getD (rrSelect slots idx) default).executor_id false
    by_cases hhalt : total - 1 = 0
    · rw [if_pos hhalt]
      simpa using hsingle
    · rw [if_neg hhalt]
      simp only
      have hrest : ∀ q ∈ rest,
          (bindStage stage (slots.getD (rrSelect slots idx) default).executor_id
            p).task_infos[q]? = some none := by
        intro q hq
        have hne : p ≠ q := by
          intro hcon
          subst hcon
          exact (List.nodup_cons.1 hnd).1 hq
        simpa [bindStage, List.getElem?_set_ne hne] using
          hrun q (List.mem_cons_of_mem p hq)
      have ih' := ih _ (decAt slots (rrSelect slots idx)) (rrSelect slots idx + 1)
        (total - 1) hrest (List.nodup_cons.1 hnd).2
      exact hsingle.comp ih'

/-- The slot-side facts of one round-robin batch: invariant preservation,
trace-state validity, conservation, and structural preservation. -/
theorem rrBatch_main (jobId sessionId : String) (stage : StageState)
    (runnable : List Nat) (slots : List AvailableTaskSlots) (idx total : Nat)
    (hinv : rrInv slots idx total) (htot : 0 < total) :
    rrInv (rrBatch jobId sessionId stage runnable slots idx total).2.1
      (rrBatch jobId sessionId stage runnable slots idx total).2.2.1
      (rrBatch jobId sessionId stage runnable slots idx total).2.2.2.1 ∧
    ((rrBatch jobId sessionId stage runnable slots idx total).2.2.2.2.2.2 = false →
      0 < (rrBatch jobId sessionId stage runnable slots idx total).2.2.2.1) ∧
    (∀ e ∈ (rrBatch jobId sessionId stage runnable slots idx total).2.2.2.2.2.1,
      rrInv e.slots e.idx e.total ∧ 0 < e.total) ∧
    (∀ eid, slotsSum (rrBatch jobId sessionId stage runnable slots idx total).2.1 eid +
      countFor (rrBatch jobId sessionId stage runnable slots idx total).2.2.2.2.1 eid =
      slotsSum slots eid) ∧
    ((rrBatch jobId sessionId stage runnable slots idx total).2.2.2.1 +
      (rrBatch jobId sessionId stage runnable slots idx total).2.2.2.2.1.length = total) ∧
    (rrBatch jobId sessionId stage runnable slots idx total).2.1.length = slots.length ∧
    (∀ i : Nat, (((rrBatch jobId sessionId stage runnable slots idx
        total).2.1.getD i default).executor_id = (slots.getD i default).executor_id)) := by
  induction runnable generalizing stage slots idx total with
  | nil =>
    refine ⟨hinv, fun _ => htot, ?_, fun eid => by simp [rrBatch, countFor], by
      simp [rrBatch], rfl, fun i => rfl⟩
    intro e he
    simp [rrBatch] at he
  | cons p rest ih =>
    rw [rrBatch]
    obtain ⟨hjl, hjp⟩ := rrSelect_pos hinv htot
    have hstep := rrInv_step hinv htot
    have hdecS := fun eid => slotsSum_decAt hjl (by omega) eid
    have hlen := decAt_length slots (rrSelect slots idx)
    have hids := executor_decAt slots (rrSelect slots idx)
    by_cases hhalt : total - 1 = 0
    · rw [if_pos hhalt]
      simp only
      rw [hhalt] at hstep
      refine ⟨hstep, by simp, ?_, ?_, by simp; omega, hlen, hids⟩
      · intro e he
        rcases List.mem_singleton.1 he with rfl
        exact ⟨hinv, htot⟩
      · intro eid
        rw [countFor_cons]
        have h1 := hdecS eid
        have h0 : countFor ([] : List BoundTask) eid = 0 := rfl
        omega
    · rw [if_neg hhalt]
      simp only
      obtain ⟨i1, i2, i3, i4, i5, i6, i7⟩ := ih _ (decAt slots (rrSelect slots idx))
        (rrSelect slots idx + 1) (total - 1) hstep (by omega)
      refine ⟨i1, i2, ?_, ?_, by simp only [List.length_cons]; omega,
        i6.trans hlen, fun i => (i7 i).trans (hids i)⟩
      · intro e he
        rcases List.mem_cons.1 he with rfl | he'
        · exact ⟨hinv, htot⟩
        · exact i3 e he'
      · intro eid
        rw [countFor_cons]
        have h1 := i4 eid
        have h2 := hdecS eid
        omega

theorem rrBatch_length_pos (jobId sessionId : String) (stage : StageState)
    (p : Nat) (rest : List Nat) (slots : List AvailableTaskSlots) (idx total : Nat) :
    1 ≤ (rrBatch jobId sessionId stage (p :: rest) slots idx total).2.2.2.2.1.length := by
  rw [rrBatch]
  by_cases hhalt : total - 1 = 0
  · rw [if_pos hhalt]
    simp
  · rw [if_neg hhalt]
    simp

/-- The stage loop of the round-robin policy is a valid stage-list
evolution. -/
theorem rrStageLoop_stagesDelta (ifSkip : Nat → Bool) (jobId sessionId : String)
    (fuel : Nat) :
    ∀ (stages : List StageState) (bl : List Nat) (slots : List AvailableTaskSlots)
      (idx total : Nat),
    (stages.map (·.stage_id)).Nodup →
    StagesDelta jobId stages
      (rrStageLoop ifSkip jobId sessionId fuel stages bl slots idx total).1
      (rrStageLoop ifSkip jobId sessionId fuel stages bl slots idx total).2.2.2.2.1 := by
  induction fuel with
  | zero =>
    intro stages bl slots idx total hnd
    exact StagesDelta.refl_stages jobId stages
  | succ fuel ih =>
    intro stages bl slots idx total hnd
    rw [rrStageLoop]
    cases hfetch : fetchRunningStage stages bl with
    | none => exact StagesDelta.refl_stages jobId stages
    | some si =>
      obtain hsi := (fetchRunningStage_eq_some hfetch).1
      simp only
      by_cases hskip : ifSkip (stages.getD si default).plan = true
      · rw [if_pos hskip]
        exact ih stages _ slots idx total hnd
      · rw [if_neg hskip]
        have hdelta := rrBatch_stageDelta jobId sessionId (stages.getD si default)
          ((emptyIndices (stages.getD si default).task_infos).take total) slots idx total
          (@runnable_cells_none (stages.getD si default).task_infos total)
          (runnable_nodup (stages.getD si default).task_infos total)
        by_cases hhalt : (rrBatch jobId sessionId (stages.getD si default)
            ((emptyIndices (stages.getD si default).task_infos).take total)
            slots idx total).2.2.2.2.2.2 = true
        · rw [if_pos hhalt]
          exact StagesDelta.ofSet hsi hnd hdelta
        · rw [if_neg hhalt]
          simp only
          have hnd' : ((stages.set si (rrBatch jobId sessionId (stages.getD si default)
              ((emptyIndices (stages.getD si default).task_infos).take total)
              slots idx total).1).map (·.stage_id)).Nodup := by
            rw [stages_map_id_set hsi hdelta.1]
            exact hnd
          exact (StagesDelta.ofSet hsi hnd hdelta).compose (ih _ bl _ _ _ hnd')

/-- Slot-side facts through the round-robin stage loop: the invariant is
maintained, all trace states are valid with capacity left, slots are
conserved per executor, and the structure of the vector is preserved. -/
theorem rrStageLoop_main (ifSkip : Nat → Bool) (jobId sessionId : String) (fuel : Nat) :
    ∀ (stages : List StageState) (bl : List Nat) (slots : List AvailableTaskSlots)
      (idx total : Nat), rrInv slots idx total → 0 < total →
    rrInv (rrStageLoop ifSkip jobId sessionId fuel stages bl slots idx total).2.1
      (rrStageLoop ifSkip jobId sessionId fuel stages bl slots idx total).2.2.1
      (rrStageLoop ifSkip jobId sessionId fuel stages bl slots idx total).2.2.2.1 ∧
    ((rrStageLoop ifSkip jobId sessionId fuel stages bl slots idx
        total).2.2.2.2.2.2 ≠ RoundExit.halted →
      0 < (rrStageLoop ifSkip jobId sessionId fuel stages bl slots idx total).2.2.2.1) ∧
    (∀ e ∈ (rrStageLoop ifSkip jobId sessionId fuel stages bl slots idx
        total).2.2.2.2.2.1, rrInv e.slots e.idx e.total ∧ 0 < e.total) ∧
    (∀ eid, slotsSum (rrStageLoop ifSkip jobId sessionId fuel stages bl slots idx
        total).2.1 eid +
      countFor (rrStageLoop ifSkip jobId sessionId fuel stages bl slots idx
        total).2.2.2.2.1 eid = slotsSum slots eid) ∧
    ((rrStageLoop ifSkip jobId sessionId fuel stages bl slots idx total).2.2.2.1 +
      (rrStageLoop ifSkip jobId sessionId fuel stages bl slots idx
        total).2.2.2.2.1.length = total) ∧
    (rrStageLoop ifSkip jobId sessionId fuel stages bl slots idx total).2.1.length
      = slots.length ∧
    (∀ i : Nat, (((rrStageLoop ifSkip jobId sessionId fuel stages bl slots idx
        total).2.1.getD i default).executor_id = (slots.getD i default).executor_id)) := by
  induction fuel with
  | zero =>
    intro stages bl slots idx total hinv htot
    refine ⟨hinv, fun _ => htot, ?_, fun eid => by simp [rrStageLoop, countFor],
      by simp [rrStageLoop], rfl, fun i => rfl⟩
    intro e he
    simp [rrStageLoop] at he
  | succ fuel ih =>
    intro stages bl slots idx total hinv htot
    rw [rrStageLoop]
    cases hfetch : fetchRunningStage stages bl with
    | none =>
      refine ⟨hinv, fun _ => htot, ?_, fun eid => by simp [countFor], by simp, rfl,
        fun i => rfl⟩
      intro e he
      simp at he
    | some si =>
      simp only
      by_cases hskip : ifSkip (stages.getD si default).plan = true
      · rw [if_pos hskip]
        exact ih stages _ slots idx total hinv htot
      · rw [if_neg hskip]
        obtain ⟨b1, b2, b3, b4, b5, b6, b7⟩ := rrBatch_main jobId sessionId
          (stages.getD si default)
          ((emptyIndices (stages.getD si default).task_infos).take total) slots idx total
          hinv htot
        by_cases hhalt : (rrBatch jobId sessionId (stages.getD si default)
            ((emptyIndices (stages.getD si default).task_infos).take total)
            slots idx total).2.2.2.2.2.2 = true
        · rw [if_pos hhalt]
          refine ⟨b1, ?_, b3, b4, b5, b6, b7⟩
          intro hcon
          exact absurd rfl hcon
        · rw [if_neg hhalt]
          simp only
          obtain ⟨j1, j2, j3, j4, j5, j6, j7⟩ := ih _ bl _ _ _ b1
            (b2 (by simpa using hhalt))
          refine ⟨j1, j2, ?_, ?_, ?_, j6.trans b6, fun i => (j7 i).trans (b7 i)⟩
          · intro e he
            rcases List.mem_append.1 he with h | h
            · exact b3 e h
            · exact j3 e h
          · intro eid
            have h1 := j4 eid
            have h2 := b4 eid
            rw [countFor_append]
            omega
          · rw [List.length_append]
            omega

/-- The canonical fuel is sufficient for the round-robin stage loop. -/
theorem rrStageLoop_no_fuelOut (ifSkip : Nat → Bool) (jobId sessionId : String)
    (fuel : Nat) :
    ∀ (stages : List StageState) (bl : List Nat) (slots : List AvailableTaskSlots)
      (idx total : Nat), rrInv slots idx total → 0 < total →
      loopMeasure stages bl < fuel →
    (rrStageLoop ifSkip jobId sessionId fuel stages bl slots idx
      total).2.2.2.2.2.2 ≠ RoundExit.fuelOut := by
  induction fuel with
  | zero =>
    intro stages bl slots idx total hinv htot hm
    omega
  | succ fuel ih =>
    intro stages bl slots idx total hinv htot hm
    rw [rrStageLoop]
    cases hfetch : fetchRunningStage stages bl with
    | none => simp
    | some si =>
      obtain ⟨hsi, hany, hnb⟩ := fetchRunningStage_eq_some hfetch
      simp only
      by_cases hskip : ifSkip (stages.getD si default).plan = true
      · rw [if_pos hskip]
        apply ih stages _ slots idx total hinv htot
        have := nonBlacklisted_cons_lt hsi hnb
        simp only [loopMeasure] at hm ⊢
        omega
      · rw [if_neg hskip]
        obtain ⟨b1, b2, b3, b4, b5, b6, b7⟩ := rrBatch_main jobId sessionId
          (stages.getD si default)
          ((emptyIndices (stages.getD si default).task_infos).take total) slots idx total
          hinv htot
        have hdelta := rrBatch_stageDelta jobId sessionId (stages.getD si default)
          ((emptyIndices (stages.getD si default).task_infos).take total) slots idx total
          (@runnable_cells_none (stages.getD si default).task_infos total)
          (runnable_nodup (stages.getD si default).task_infos total)
        by_cases hhalt : (rrBatch jobId sessionId (stages.getD si default)
            ((emptyIndices (stages.getD si default).task_infos).take total)
            slots idx total).2.2.2.2.2.2 = true
        · rw [if_pos hhalt]
          simp
        · rw [if_neg hhalt]
          simp only
          apply ih _ bl _ _ _ b1 (b2 (by simpa using hhalt))
          have hne : ((emptyIndices (stages.getD si default).task_infos).take
              total) ≠ [] :=
            take_ne_nil_of_pos htot (emptyIndices_ne_nil hany)
          have hpos : 1 ≤ (rrBatch jobId sessionId (stages.getD si default)
              ((emptyIndices (stages.getD si default).task_infos).take total)
              slots idx total).2.2.2.2.1.length := by
            cases hr : (emptyIndices (stages.getD si default).task_infos).take total with
            | nil => exact absurd hr hne
            | cons p rest =>
              rw [← hr]
              rw [hr]
              exact rrBatch_length_pos jobId sessionId (stages.getD si default) p rest
                slots idx total
          have hcount := hdelta.2.2.2.2.2.2.2.2.2
          have hempty := totalEmpty_set hsi hcount
          have hnbl := @nonBlacklisted_set_same_id stages bl si _ hsi hdelta.1
          simp only [loopMeasure] at hm ⊢
          omega

/-- A stage whose plan the skip predicate flags is left untouched by the
round-robin stage loop. -/
theorem rrStageLoop_skip_frame (ifSkip : Nat → Bool) (jobId sessionId : String)
    (fuel : Nat) :
    ∀ (stages : List StageState) (bl : List Nat) (slots : List AvailableTaskSlots)
      (idx total : Nat) (k : Nat), k < stages.length →
    ifSkip (stages.getD k default).plan = true →
    (rrStageLoop ifSkip jobId sessionId fuel stages bl slots idx total).1.getD k
      default = stages.getD k default := by
  induction fuel with
  | zero =>
    intro stages bl slots idx total k hk hskip
    rfl
  | succ fuel ih =>
    intro stages bl slots idx total k hk hskip
    rw [rrStageLoop]
    cases hfetch : fetchRunningStage stages bl with
    | none => rfl
    | some si =>
      obtain hsi := (fetchRunningStage_eq_some hfetch).1
      simp only
      by_cases hskipsi : ifSkip (stages.getD si default).plan = true
      · rw [if_pos hskipsi]
        exact ih stages _ slots idx total k hk hskip
      · rw [if_neg hskipsi]
        have hne : si ≠ k := by
          intro hcon
          subst hcon
          exact hskipsi hskip
        by_cases hhalt : (rrBatch jobId sessionId (stages.getD si default)
            ((emptyIndices (stages.getD si default).task_infos).take total)
            slots idx total).2.2.2.2.2.2 = true
        · rw [if_pos hhalt]
          exact getD_set_ne hne _ _
        · rw [if_neg hhalt]
          simp only
          rw [ih _ bl _ _ _ k (by simpa using hk)
            (by rw [getD_set_ne hne]; exact hskip)]
          exact getD_set_ne hne _ _

theorem filter_self_of_job {jobId : String} {tasks : List BoundTask}
    (hall : ∀ t ∈ tasks, t.2.partition.job_id = jobId) :
    tasks.filter (fun t => t.2.partition.job_id == jobId) = tasks := by
  rw [List.filter_eq_self]
  intro t ht
  simp [hall t ht]

theorem filter_nil_of_job {job : JobInfo} {rest : List JobInfo}
    (hnd : ((job :: rest).map (·.job_id)).Nodup) {tasks : List BoundTask} {k : Nat}
    (hk : k < rest.length)
    (hall : ∀ t ∈ tasks, t.2.partition.job_id = job.job_id) :
    tasks.filter (fun t => t.2.partition.job_id == (rest.getD k default).job_id)
      = [] := by
  rw [List.filter_eq_nil_iff]
  intro t ht
  simp only [beq_iff_eq, hall t ht]
  exact fun hcon => nodup_map_job_id_head_ne hnd hk hcon.symm

/-- The job loop of the round-robin policy is a valid job-list evolution. -/
theorem rrJobLoop_jobsDelta (ifSkip : Nat → Bool) :
    ∀ (jobs : List JobInfo) (slots : List AvailableTaskSlots) (idx total : Nat),
    (jobs.map (·.job_id)).Nodup →
    (∀ job ∈ jobs, (job.stages.map (·.stage_id)).Nodup) →
    JobsDelta jobs (rrJobLoop ifSkip jobs slots idx total).1
      (rrJobLoop ifSkip jobs slots idx total).2.2.2.2.1 := by
  intro jobs
  induction jobs with
  | nil =>
    intro slots idx total hnd hnds
    exact JobsDelta.refl_jobs []
  | cons job rest ih =>
    intro slots idx total hnd hnds
    rw [rrJobLoop]
    by_cases hrun : job.running = true
    · rw [if_pos hrun]
      simp only
      have hdstage := rrStageLoop_stagesDelta ifSkip job.job_id job.session_id
        (stageFuel job.stages) job.stages [] slots idx total
        (hnds job (List.mem_cons_self job rest))
      have hallhead : ∀ t ∈ (rrStageLoop ifSkip job.job_id job.session_id
          (stageFuel job.stages) job.stages [] slots idx total).2.2.2.2.1,
          t.2.partition.job_id = job.job_id := fun t ht => (hdstage.2.2 t ht).1
      cases hexit : (rrStageLoop ifSkip job.job_id job.session_id
          (stageFuel job.stages) job.stages [] slots idx total).2.2.2.2.2.2 with
      | normal =>
        simp only
        have hrest := ih (rrStageLoop ifSkip job.job_id job.session_id
            (stageFuel job.stages) job.stages [] slots idx total).2.1
          (rrStageLoop ifSkip job.job_id job.session_id
            (stageFuel job.stages) job.stages [] slots idx total).2.2.1
          (rrStageLoop ifSkip job.job_id job.session_id
            (stageFuel job.stages) job.stages [] slots idx total).2.2.2.1
          (by
            rw [List.map_cons, List.nodup_cons] at hnd
            exact hnd.2)
          (fun j hj => hnds j (List.mem_cons_of_mem job hj))
        refine ⟨by simp [hrest.1], ?_, ?_⟩
        · intro k hk
          cases k with
          | zero =>
            refine ⟨rfl, rfl, rfl, ?_⟩
            simp only [List.getD_cons_zero]
            rw [List.filter_append, filter_self_of_job hallhead,
              filter_head_of_rest hnd hrest.2.2, List.append_nil]
            exact hdstage
          | succ k =>
            have hk' : k < rest.length := by simpa using hk
            obtain ⟨hji, hsi, hri, hsd⟩ := hrest.2.1 k hk'
            refine ⟨by simpa using hji, by simpa using hsi, by simpa using hri, ?_⟩
            simp only [List.getD_cons_succ]
            rw [List.filter_append, filter_nil_of_job hnd hk' hallhead,
              List.nil_append]
            exact hsd
        · intro t ht
          rcases List.mem_append.1 ht with h | h
          · exact ⟨0, by simp, hallhead t h⟩
          · obtain ⟨k, hk, hid⟩ := hrest.2.2 t h
            exact ⟨k + 1, by simpa using hk, by simpa using hid⟩
      | halted =>
        simp only
        refine ⟨by simp, ?_, ?_⟩
        · intro k hk
          cases k with
          | zero =>
            refine ⟨rfl, rfl, rfl, ?_⟩
            simp only [List.getD_cons_zero]
            rw [filter_self_of_job hallhead]
            exact hdstage
          | succ k =>
            have hk' : k < rest.length := by simpa using hk
            refine ⟨rfl, rfl, rfl, ?_⟩
            simp only [List.getD_cons_succ]
            rw [filter_nil_of_job hnd hk' hallhead]
            exact StagesDelta.refl_stages _ _
        · intro t ht
          exact ⟨0, by simp, hallhead t ht⟩
      | fuelOut =>
        simp only
        refine ⟨by simp, ?_, ?_⟩
        · intro k hk
          cases k with
          | zero =>
            refine ⟨rfl, rfl, rfl, ?_⟩
            simp only [List.getD_cons_zero]
            rw [filter_self_of_job hallhead]
            exact hdstage
          | succ k =>
            have hk' : k < rest.length := by simpa using hk
            refine ⟨rfl, rfl, rfl, ?_⟩
            simp only [List.getD_cons_succ]
            rw [filter_nil_of_job hnd hk' hallhead]
            exact StagesDelta.refl_stages _ _
        · intro t ht
          exact ⟨0, by simp, hallhead t ht⟩
    · rw [if_neg hrun]
      simp only
      have hrest := ih slots idx total
        (by
          rw [List.map_cons, List.nodup_cons] at hnd
          exact hnd.2)
        (fun j hj => hnds j (List.mem_cons_of_mem job hj))
      refine ⟨by simp [hrest.1], ?_, ?_⟩
      · intro k hk
        cases k with
        | zero =>
          refine ⟨rfl, rfl, rfl, ?_⟩
          simp only [List.getD_cons_zero]
          rw [filter_head_of_rest hnd hrest.2.2]
          exact StagesDelta.refl_stages _ _
        | succ k =>
          have hk' : k < rest.length := by simpa using hk
          obtain ⟨hji, hsi, hri, hsd⟩ := hrest.2.1 k hk'
          exact ⟨by simpa using hji, by simpa using hsi, by simpa using hri, by
            simpa using hsd⟩
      · intro t ht
        obtain ⟨k, hk, hid⟩ := hrest.2.2 t ht
        exact ⟨k + 1, by simpa using hk, by simpa using hid⟩

/-- Slot-side facts through the round-robin job loop. -/
theorem rrJobLoop_main (ifSkip : Nat → Bool) :
    ∀ (jobs : List JobInfo) (slots : List AvailableTaskSlots) (idx total : Nat),
    rrInv slots idx total → 0 < total →
    (∀ e ∈ (rrJobLoop ifSkip jobs slots idx total).2.2.2.2.2.1,
      rrInv e.slots e.idx e.total ∧ 0 < e.total) ∧
    (∀ eid, slotsSum (rrJobLoop ifSkip jobs slots idx total).2.1 eid +
      countFor (rrJobLoop ifSkip jobs slots idx total).2.2.2.2.1 eid =
      slotsSum slots eid) ∧
    ((rrJobLoop ifSkip jobs slots idx total).2.2.2.1 +
      (rrJobLoop ifSkip jobs slots idx total).2.2.2.2.1.length = total) ∧
    (rrJobLoop ifSkip jobs slots idx total).2.1.length = slots.length := by
  intro jobs
  induction jobs with
  | nil =>
    intro slots idx total hinv htot
    refine ⟨?_, fun eid => by simp [rrJobLoop, countFor], by simp [rrJobLoop], rfl⟩
    intro e he
    simp [rrJobLoop] at he
  | cons job rest ih =>
    intro slots idx total hinv htot
    rw [rrJobLoop]
    by_cases hrun : job.running = true
    · rw [if_pos hrun]
      simp only
      obtain ⟨s1, s2, s3, s4, s5, s6, s7⟩ := rrStageLoop_main ifSkip job.job_id
        job.session_id (stageFuel job.stages) job.stages [] slots idx total hinv htot
      cases hexit : (rrStageLoop ifSkip job.job_id job.session_id
          (stageFuel job.stages) job.stages [] slots idx total).2.2.2.2.2.2 with
      | normal =>
        simp only
        obtain ⟨j1, j2, j3, j4⟩ := ih _ _ _ s1 (s2 (by simp [hexit]))
        refine ⟨?_, ?_, ?_, j4.trans s6⟩
        · intro e he
          rcases List.mem_append.1 he with h | h
          · exact s3 e h
          · exact j1 e h
        · intro eid
          have h1 := j2 eid
          have h2 := s4 eid
          rw [countFor_append]
          omega
        · rw [List.length_append]
          have := j3
          omega
      | halted =>
        simp only
        exact ⟨s3, s4, s5, s6⟩
      | fuelOut =>
        simp only
        exact ⟨s3, s4, s5, s6⟩
    · rw [if_neg hrun]
      simp only
      exact ih slots idx total hinv htot

/-- The round-robin job loop never exhausts its fuel. -/
theorem rrJobLoop_no_fuelOut (ifSkip : Nat → Bool) :
    ∀ (jobs : List JobInfo) (slots : List AvailableTaskSlots) (idx total : Nat),
    rrInv slots idx total → 0 < total →
    (rrJobLoop ifSkip jobs slots idx total).2.2.2.2.2.2 ≠ RoundExit.fuelOut := by
  intro jobs
  induction jobs with
  | nil =>
    intro slots idx total hinv htot
    simp [rrJobLoop]
  | cons job rest ih =>
    intro slots idx total hinv htot
    rw [rrJobLoop]
    by_cases hrun : job.running = true
    · rw [if_pos hrun]
      simp only
      obtain ⟨s1, s2, s3, s4, s5, s6, s7⟩ := rrStageLoop_main ifSkip job.job_id
        job.session_id (stageFuel job.stages) job.stages [] slots idx total hinv htot
      cases hexit : (rrStageLoop ifSkip job.job_id job.session_id
          (stageFuel job.stages) job.stages [] slots idx total).2.2.2.2.2.2 with
      | normal =>
        simp only
        exact ih _ _ _ s1 (s2 (by simp [hexit]))
      | halted =>
        simp only
        simp
      | fuelOut =>
        exact absurd hexit (rrStageLoop_no_fuelOut ifSkip job.job_id job.session_id
          (stageFuel job.stages) job.stages [] slots idx total hinv htot
          (loopMeasure_lt_stageFuel job.stages))
    · rw [if_neg hrun]
      simp only
      exact ih slots idx total hinv htot

/-- A stage whose plan the skip predicate flags is left untouched by the
round-robin job loop. -/
theorem rrJobLoop_skip_frame (ifSkip : Nat → Bool) :
    ∀ (jobs : List JobInfo) (slots : List AvailableTaskSlots) (idx total : Nat)
      (k m : Nat),
    k < jobs.length → m < (jobs.getD k default).stages.length →
    ifSkip (((jobs.getD k default).stages.getD m default)).plan = true →
    ((rrJobLoop ifSkip jobs slots idx total).1.getD k default).stages.getD m
      default = (jobs.getD k default).stages.getD m default := by
  intro jobs
  induction jobs with
  | nil =>
    intro slots idx total k m hk
    simp at hk
  | cons job rest ih =>
    intro slots idx total k m hk hm hskip
    rw [rrJobLoop]
    by_cases hrun : job.running = true
    · rw [if_pos hrun]
      simp only
      cases hexit : (rrStageLoop ifSkip job.job_id job.session_id
          (stageFuel job.stages) job.stages [] slots idx total).2.2.2.2.2.2 with
      | normal =>
        simp only
        cases k with
        | zero =>
          simp only [List.getD_cons_zero] at hm hskip ⊢
          exact rrStageLoop_skip_frame ifSkip job.job_id job.session_id
            (stageFuel job.stages) job.stages [] slots idx total m hm hskip
        | succ k =>
          simp only [List.getD_cons_succ] at hm hskip ⊢
          exact ih _ _ _ k m (by simpa using hk) hm hskip
      | halted =>
        simp only
        cases k with
        | zero =>
          simp only [List.getD_cons_zero] at hm hskip ⊢
          exact rrStageLoop_skip_frame ifSkip job.job_id job.session_id
            (stageFuel job.stages) job.stages [] slots idx total m hm hskip
        | succ k =>
          simp only [List.getD_cons_succ]
      | fuelOut =>
        simp only
        cases k with
        | zero =>
          simp only [List.getD_cons_zero] at hm hskip ⊢
          exact rrStageLoop_skip_frame ifSkip job.job_id job.session_id
            (stageFuel job.stages) job.stages [] slots idx total m hm hskip
        | succ k =>
          simp only [List.getD_cons_succ]
    · rw [if_neg hrun]
      simp only
      cases k with
      | zero => simp only [List.getD_cons_zero]
      | succ k =>
        simp only [List.getD_cons_succ] at hm hskip ⊢
        exact ih _ _ _ k m (by simpa using hk) hm hskip

/-! ## Round-robin wrapper facts -/

/-- The state evolution of a whole `bind_task_round_robin` round. -/
theorem bind_task_round_robin_jobsDelta (slots : List AvailableTaskSlots)
    (jobs : List JobInfo) (ifSkip : Nat → Bool)
    (hnd : (jobs.map (·.job_id)).Nodup)
    (hnds : ∀ job ∈ jobs, (job.stages.map (·.stage_id)).Nodup) :
    JobsDelta jobs (bind_task_round_robin slots jobs ifSkip).2.2.1
      (bind_task_round_robin slots jobs ifSkip).1 := by
  rw [bind_task_round_robin]
  by_cases htot : slotsTotal slots = 0
  · rw [if_pos htot]
    exact JobsDelta.refl_jobs jobs
  · rw [if_neg htot]
    exact rrJobLoop_jobsDelta ifSkip jobs (sortBy slotGE slots) 0 (slotsTotal slots)
      hnd hnds

/-- Per-executor slot conservation of a whole `bind_task_round_robin`
round. -/
theorem bind_task_round_robin_conservation (slots : List AvailableTaskSlots)
    (jobs : List JobInfo) (ifSkip : Nat → Bool) (eid : String) :
    slotsSum (bind_task_round_robin slots jobs ifSkip).2.1 eid +
      countFor (bind_task_round_robin slots jobs ifSkip).1 eid = slotsSum slots eid := by
  rw [bind_task_round_robin]
  by_cases htot : slotsTotal slots = 0
  · rw [if_pos htot]
    simp [countFor]
  · rw [if_neg htot]
    simp only
    have := (rrJobLoop_main ifSkip jobs (sortBy slotGE slots) 0 (slotsTotal slots)
      (rrInv_init slots) (by omega)).2.1 eid
    rw [slotsSum_sortBy] at this
    exact this

/-- Every iteration-start state recorded in a `bind_task_round_robin` round
is a valid cursor state with capacity left, so the entry the wrap logic
selects there is in range and has a positive slot count. -/
theorem bind_task_round_robin_trace (slots : List AvailableTaskSlots)
    (jobs : List JobInfo) (ifSkip : Nat → Bool) :
    ∀ e ∈ (bind_task_round_robin slots jobs ifSkip).2.2.2.1,
      0 < e.total ∧ rrSelect e.slots e.idx < e.slots.length ∧
        0 < slotAt e.slots (rrSelect e.slots e.idx) := by
  rw [bind_task_round_robin]
  by_cases htot : slotsTotal slots = 0
  · rw [if_pos htot]
    simp
  · rw [if_neg htot]
    simp only
    intro e he
    have := (rrJobLoop_main ifSkip jobs (sortBy slotGE slots) 0 (slotsTotal slots)
      (rrInv_init slots) (by omega)).1 e he
    obtain ⟨hsel1, hsel2⟩ := rrSelect_pos this.1 this.2
    exact ⟨this.2, hsel1, hsel2⟩

/-- The canonical fuel of `bind_task_round_robin` is never exhausted. -/
theorem bind_task_round_robin_no_fuelOut (slots : List AvailableTaskSlots)
    (jobs : List JobInfo) (ifSkip : Nat → Bool) :
    (bind_task_round_robin slots jobs ifSkip).2.2.2.2 ≠ RoundExit.fuelOut := by
  rw [bind_task_round_robin]
  by_cases htot : slotsTotal slots = 0
  · rw [if_pos htot]
    simp
  · rw [if_neg htot]
    simp only
    exact rrJobLoop_no_fuelOut ifSkip jobs (sortBy slotGE slots) 0 (slotsTotal slots)
      (rrInv_init slots) (by omega)

/-- A stage whose plan the skip predicate flags is left untouched by a whole
`bind_task_round_robin` round. -/
theorem bind_task_round_robin_skip_frame (slots : List AvailableTaskSlots)
    (jobs : List JobInfo) (ifSkip : Nat → Bool) {k m : Nat}
    (hk : k < jobs.length) (hm : m < (jobs.getD k default).stages.length)
    (hskip : ifSkip (((jobs.getD k default).stages.getD m default)).plan = true) :
    ((bind_task_round_robin slots jobs ifSkip).2.2.1.getD k default).stages.getD m
      default = (jobs.getD k default).stages.getD m default := by
  rw [bind_task_round_robin]
  by_cases htot : slotsTotal slots = 0
  · rw [if_pos htot]
  · rw [if_neg htot]
    simp only
    exact rrJobLoop_skip_frame ifSkip jobs (sortBy slotGE slots) 0 (slotsTotal slots)
      k m hk hm hskip

/-- A stage whose plan the skip predicate flags is left untouched by a whole
`bind_task_bias` round. -/
theorem bind_task_bias_skip_frame (slots : List AvailableTaskSlots)
    (jobs : List JobInfo) (ifSkip : Nat → Bool) {k m : Nat}
    (hk : k < jobs.length) (hm : m < (jobs.getD k default).stages.length)
    (hskip : ifSkip (((jobs.getD k default).stages.getD m default)).plan = true) :
    ((bind_task_bias slots jobs ifSkip).2.2.1.getD k default).stages.getD m
      default = (jobs.getD k default).stages.getD m default := by
  rw [bind_task_bias]
  by_cases htot : slotsTotal slots = 0
  · rw [if_pos htot]
  · rw [if_neg htot]
    simp only
    exact biasJobLoop_skip_frame ifSkip (slotsTotal slots) jobs (sortBy slotGE slots) 0
      k m hk hm hskip

/-- A stage that a round left untouched received no bound task: any task
carrying its job and stage id would have had to fill one of its cells. -/
theorem no_tasks_for_untouched_stage {jobs jobs' : List JobInfo}
    {tasks : List BoundTask} (hjd : JobsDelta jobs jobs' tasks) {k m : Nat}
    (hk : k < jobs.length) (hm : m < (jobs.getD k default).stages.length)
    (hframe : (jobs'.getD k default).stages.getD m default
      = (jobs.getD k default).stages.getD m default) :
    ∀ t ∈ tasks, ¬(t.2.partition.job_id = (jobs.getD k default).job_id ∧
      t.2.partition.stage_id
        = ((jobs.getD k default).stages.getD m default).stage_id) := by
  intro t ht ⟨hj, hs⟩
  obtain ⟨hlen, hper, hex⟩ := hjd
  obtain ⟨hji, hsi, hri, hsd⟩ := hper k hk
  obtain ⟨hsl, hsper, hsex⟩ := hsd
  have hcnt := (hsper m hm).2.2.2.2.2.2.2.2.2
  rw [hframe] at hcnt
  have hzero : ((tasks.filter
      (fun t => t.2.partition.job_id == (jobs.getD k default).job_id)).filter
      (fun t => t.2.partition.stage_id ==
        ((jobs.getD k default).stages.getD m default).stage_id)).length = 0 := by
    omega
  rw [List.length_eq_zero] at hzero
  have ht1 : t ∈ tasks.filter
      (fun t => t.2.partition.job_id == (jobs.getD k default).job_id) := by
    rw [List.mem_filter]
    exact ⟨ht, by simp [hj]⟩
  have ht2 : t ∈ ((tasks.filter
      (fun t => t.2.partition.job_id == (jobs.getD k default).job_id)).filter
      (fun t => t.2.partition.stage_id ==
        ((jobs.getD k default).stages.getD m default).stage_id)) := by
    rw [List.mem_filter]
    exact ⟨ht1, by simp [hs]⟩
  rw [hzero] at ht2
  simp at ht2

/-! ## Ring-node lemmas -/

theorem decNodeAt_length (nodes : List TopologyNode) (j : Nat) :
    (decNodeAt nodes j).length = nodes.length := by
  simp [decNodeAt]

theorem getD_decNodeAt_of_ge {nodes : List TopologyNode} {j : Nat}
    (h : nodes.length ≤ j) : decNodeAt nodes j = nodes := by
  rw [decNodeAt, List.set_eq_of_length_le h]

theorem decNodeAt_id (nodes : List TopologyNode) (j i : Nat) :
    ((decNodeAt nodes j).getD i default).id = ((nodes.getD i default)).id := by
  by_cases hj : nodes.length ≤ j
  · rw [getD_decNodeAt_of_ge hj]
  · by_cases h : j = i
    · subst h
      rw [decNodeAt, getD_set_self (by omega)]
    · rw [decNodeAt, getD_set_ne h]

theorem decNodeAt_name (nodes : List TopologyNode) (j i : Nat) :
    ((decNodeAt nodes j).getD i default).name = ((nodes.getD i default)).name := by
  by_cases hj : nodes.length ≤ j
  · rw [getD_decNodeAt_of_ge hj]
  · by_cases h : j = i
    · subst h
      rw [decNodeAt, getD_set_self (by omega)]
    · rw [decNodeAt, getD_set_ne h]

theorem decNodeAt_slots_self {nodes : List TopologyNode} {j : Nat}
    (hj : j < nodes.length) :
    ((decNodeAt nodes j).getD j default).available_slots =
      ((nodes.getD j default)).available_slots - 1 := by
  rw [decNodeAt, getD_set_self hj]

theorem decNodeAt_slots_ne {nodes : List TopologyNode} {j i : Nat} (h : j ≠ i) :
    ((decNodeAt nodes j).getD i default).available_slots =
      ((nodes.getD i default)).available_slots := by
  rw [decNodeAt, getD_set_ne h]

theorem nodesTotal_decNodeAt {nodes : List TopologyNode} {j : Nat}
    (hj : j < nodes.length) (hpos : (nodes.getD j default).available_slots ≠ 0) :
    nodesTotal (decNodeAt nodes j) + 1 = nodesTotal nodes := by
  induction nodes generalizing j with
  | nil => simp at hj
  | cons n rest ih =>
    cases j with
    | zero =>
      simp only [List.getD_cons_zero] at hpos
      simp only [decNodeAt, List.getD_cons_zero, List.set_cons_zero, nodesTotal,
        List.map_cons, List.sum_cons]
      omega
    | succ j =>
      simp only [List.getD_cons_succ] at hpos
      have := ih (by simpa using hj) hpos
      simp only [decNodeAt, List.getD_cons_succ, List.set_cons_succ, nodesTotal,
        List.map_cons, List.sum_cons] at this ⊢
      omega

theorem nodesSum_decNodeAt {nodes : List TopologyNode} {j : Nat}
    (hj : j < nodes.length) (hpos : (nodes.getD j default).available_slots ≠ 0)
    (eid : String) :
    nodesSum (decNodeAt nodes j) eid +
      (if (nodes.getD j default).id = eid then 1 else 0) = nodesSum nodes eid := by
  induction nodes generalizing j with
  | nil => simp at hj
  | cons n rest ih =>
    cases j with
    | zero =>
      simp only [List.getD_cons_zero] at hpos
      by_cases he : n.id = eid
      all_goals simp [decNodeAt, nodesSum, List.filter_cons, he]
      all_goals omega
    | succ j =>
      simp only [List.getD_cons_succ] at hpos
      have hrec := ih (by simpa using hj) hpos
      by_cases he : n.id = eid <;>
        by_cases hif : (rest.getD j default).id = eid <;>
        simp [decNodeAt, nodesSum, List.filter_cons, he, hif, List.getD_cons_succ]
          at hrec ⊢ <;>
        omega

/-- Pointwise domination between ring states: same shape, ids and names,
with slot counts at most those of the right-hand state. -/
def nodesLE (a b : List TopologyNode) : Prop :=
  a.length = b.length ∧
  (∀ i : Nat, (a.getD i default).id = (b.getD i default).id ∧
    (a.getD i default).name = (b.getD i default).name ∧
    (a.getD i default).available_slots ≤ (b.getD i default).available_slots)

theorem nodesLE.refl_nodes (a : List TopologyNode) : nodesLE a a :=
  ⟨rfl, fun _ => ⟨rfl, rfl, le_refl _⟩⟩

theorem nodesLE.trans {a b c : List TopologyNode} (h1 : nodesLE a b)
    (h2 : nodesLE b c) : nodesLE a c := by
  refine ⟨h1.1.trans h2.1, fun i => ?_⟩
  obtain ⟨i1, i2, i3⟩ := h1.2 i
  obtain ⟨j1, j2, j3⟩ := h2.2 i
  exact ⟨i1.trans j1, i2.trans j2, i3.trans j3⟩

theorem nodesLE_decNodeAt (nodes : List TopologyNode) (j : Nat) :
    nodesLE (decNodeAt nodes j) nodes := by
  refine ⟨decNodeAt_length nodes j, fun i => ?_⟩
  refine ⟨decNodeAt_id nodes j i, decNodeAt_name nodes j i, ?_⟩
  by_cases hj : nodes.length ≤ j
  · rw [getD_decNodeAt_of_ge hj]
  · by_cases h : j = i
    · subst h
      rw [decNodeAt_slots_self (by omega)]
      omega
    · rw [decNodeAt_slots_ne h]

theorem map_name_eq_of_nodesLE {a b : List TopologyNode} (h : nodesLE a b) :
    a.map (·.name) = b.map (·.name) := by
  obtain ⟨hlen, hpt⟩ := h
  apply List.ext_getElem (by simpa using hlen)
  intro i h1 h2
  have := (hpt i).2.1
  rw [List.getD_eq_getElem a default (by simpa using h1),
    List.getD_eq_getElem b default (by simpa using h2)] at this
  simpa using this

/-- A failing tolerance-0 lookup keeps failing as slots only decrease. -/
theorem get_mut_none_mono {hashFn : HashFn} {replicas : Nat}
    {a b : List TopologyNode} (hle : nodesLE a b) {key : List Nat}
    (h : get_mut_with_tolerance hashFn replicas b key 0 = none) :
    get_mut_with_tolerance hashFn replicas a key 0 = none := by
  rw [get_mut_with_tolerance] at h ⊢
  rw [map_name_eq_of_nodesLE hle]
  rw [List.find?_eq_none] at h ⊢
  intro i hi
  have hb := h i hi
  simp only [bne_iff_ne, ne_eq, Bool.not_eq_true, bne_eq_false_iff_eq] at hb ⊢
  have := (hle.2 i).2.2
  omega

theorem mem_dedupFirst {l seen : List Nat} {x : Nat} (h : x ∈ dedupFirst l seen) :
    x ∈ l := by
  induction l generalizing seen with
  | nil => simp [dedupFirst] at h
  | cons y ys ih =>
    rw [dedupFirst] at h
    by_cases hy : y ∈ seen
    · rw [if_pos hy] at h
      exact List.mem_cons_of_mem y (ih h)
    · rw [if_neg hy] at h
      rcases List.mem_cons.1 h with rfl | h'
      · exact List.mem_cons_self x ys
      · exact List.mem_cons_of_mem y (ih h')

theorem mem_chPoints_idx {hashFn : HashFn} {replicas : Nat} {names : List String}
    {p : Nat × String × Nat × Nat} (h : p ∈ chPoints hashFn replicas names) :
    p.2.2.2 < names.length := by
  rw [chPoints] at h
  rcases List.mem_flatten.1 h with ⟨l, hl, hpl⟩
  rcases List.mem_map.1 hl with ⟨inm, hinm, rfl⟩
  rcases List.mem_map.1 hpl with ⟨r, _, rfl⟩
  simpa using List.fst_lt_of_mem_enum hinm

theorem mem_nodeOrder_lt {hashFn : HashFn} {replicas : Nat} {names : List String}
    {key : List Nat} {i : Nat} (h : i ∈ nodeOrder hashFn replicas names key) :
    i < names.length := by
  rw [nodeOrder] at h
  have h1 := mem_dedupFirst h
  rcases List.mem_map.1 h1 with ⟨p, hp, rfl⟩
  rcases List.mem_append.1 hp with hpa | hpb
  · have := (perm_sortBy ptLE (chPoints hashFn replicas names)).mem_iff.1
      (List.mem_of_mem_filter hpa)
    exact mem_chPoints_idx this
  · have := (perm_sortBy ptLE (chPoints hashFn replicas names)).mem_iff.1
      (List.mem_of_mem_filter hpb)
    exact mem_chPoints_idx this

/-- A successful ring lookup returns a valid in-range node index. -/
theorem get_mut_some_valid {hashFn : HashFn} {replicas tol : Nat}
    {nodes : List TopologyNode} {key : List Nat} {j : Nat}
    (h : get_mut_with_tolerance hashFn replicas nodes key tol = some j) :
    j < nodes.length ∧ 0 < (nodes.getD j default).available_slots := by
  rw [get_mut_with_tolerance] at h
  have hmem := List.mem_of_find?_eq_some h
  have hvalid := List.find?_some h
  have hin : j ∈ nodeOrder hashFn replicas (nodes.map (·.name)) key :=
    List.take_subset _ _ hmem
  have hlt := mem_nodeOrder_lt hin
  rw [List.length_map] at hlt
  simp only [bne_iff_ne, ne_eq, decide_eq_true_eq] at hvalid
  exact ⟨hlt, by omega⟩

/-! ## Consistent-hash pass lemmas -/

/-- The stage-side facts of one consistent-hash pass. -/
theorem chPass_stageDelta (hashFn : HashFn) (replicas : Nat) (jobId sessionId : String)
    (sf : List (List PartitionedFile)) (tol passIdx : Nat) (runnable : List Nat)
    (stage : StageState) (nodes : List TopologyNode) (total : Nat)
    (hrun : ∀ p ∈ runnable, stage.task_infos[p]? = some none)
    (hnd : runnable.Nodup) :
    StageDelta jobId stage
      (chPass hashFn replicas jobId sessionId sf tol passIdx runnable stage nodes
        total).1
      ((chPass hashFn replicas jobId sessionId sf tol passIdx runnable stage nodes
        total).2.2.2.1.map (·.1)) := by
  induction runnable generalizing stage nodes total with
  | nil => simpa [chPass] using StageDelta.refl jobId stage
  | cons p rest ih =>
    rw [chPass]
    by_cases hplen : p < sf.length
    · rw [if_pos hplen]
      by_cases hemp : (sf.getD p []).isEmpty = true
      · rw [if_pos hemp]
        simpa using StageDelta.refl jobId stage
      · rw [if_neg hemp]
        simp only
        cases hget : get_mut_with_tolerance hashFn replicas nodes
            (((sf.getD p []).getD 0 default).location) tol with
        | none =>
          simp only
          exact ih stage nodes total (fun q hq => hrun q (List.mem_cons_of_mem p hq))
            (List.nodup_cons.1 hnd).2
        | some j =>
          simp only
          have hp := hrun p (List.mem_cons_self p rest)
          have hsingle := StageDelta.single jobId sessionId stage p hp
            ((nodes.getD j default)).id (tol == 0)
          by_cases hhalt : total - 1 = 0
          · rw [if_pos hhalt]
            simpa using hsingle
          · rw [if_neg hhalt]
            simp only
            have hrest : ∀ q ∈ rest,
                (bindStage stage ((nodes.getD j default)).id p).task_infos[q]? =
                  some none := by
              intro q hq
              have hne : p ≠ q := by
                intro hcon
                subst hcon
                exact (List.nodup_cons.1 hnd).1 hq
              simpa [bindStage, List.getElem?_set_ne hne] using
                hrun q (List.mem_cons_of_mem p hq)
            have ih' := ih _ (decNodeAt nodes j) (total - 1) hrest
              (List.nodup_cons.1 hnd).2
            have := hsingle.comp ih'
            simpa using this
    · rw [if_neg hplen]
      simpa using StageDelta.refl jobId stage

/-- Across one consistent-hash pass, every node's available slots only
decrease. -/
theorem chPass_nodesLE (hashFn : HashFn) (replicas : Nat) (jobId sessionId : String)
    (sf : List (List PartitionedFile)) (tol passIdx : Nat) (runnable : List Nat)
    (stage : StageState) (nodes : List TopologyNode) (total : Nat) :
    nodesLE (chPass hashFn replicas jobId sessionId sf tol passIdx runnable stage nodes
        total).2.1 nodes := by
  induction runnable generalizing stage nodes total with
  | nil => exact nodesLE.refl_nodes nodes
  | cons p rest ih =>
    rw [chPass]
    by_cases hplen : p < sf.length
    · rw [if_pos hplen]
      by_cases hemp : (sf.getD p []).isEmpty = true
      · rw [if_pos hemp]
        exact nodesLE.refl_nodes nodes
      · rw [if_neg hemp]
        simp only
        cases hget : get_mut_with_tolerance hashFn replicas nodes
            (((sf.getD p []).getD 0 default).location) tol with
        | none =>
          exact ih stage nodes total
        | some j =>
          simp only
          by_cases hhalt : total - 1 = 0
          · rw [if_pos hhalt]
            exact nodesLE_decNodeAt nodes j
          · rw [if_neg hhalt]
            simp only
            exact (ih _ (decNodeAt nodes j) (total - 1)).trans (nodesLE_decNodeAt nodes j)
    · rw [if_neg hplen]
      exact nodesLE.refl_nodes nodes

/-- The node-side facts of one consistent-hash pass: slots only decrease,
per-executor conservation, count accounting, status behaviour, tagging and
`data_cache` values. -/
theorem chPass_main (hashFn : HashFn) (replicas : Nat) (jobId sessionId : String)
    (sf : List (List PartitionedFile)) (tol passIdx : Nat) (runnable : List Nat)
    (stage : StageState) (nodes : List TopologyNode) (total : Nat)
    (htot : 0 < total) :
    nodesLE (chPass hashFn replicas jobId sessionId sf tol passIdx runnable stage nodes
        total).2.1 nodes ∧
    (∀ eid, nodesSum (chPass hashFn replicas jobId sessionId sf tol passIdx runnable
        stage nodes total).2.1 eid +
      countFor ((chPass hashFn replicas jobId sessionId sf tol passIdx runnable stage
        nodes total).2.2.2.1.map (·.1)) eid = nodesSum nodes eid) ∧
    ((chPass hashFn replicas jobId sessionId sf tol passIdx runnable stage nodes
        total).2.2.1 +
      (chPass hashFn replicas jobId sessionId sf tol passIdx runnable stage nodes
        total).2.2.2.1.length = total) ∧
    ((chPass hashFn replicas jobId sessionId sf tol passIdx runnable stage nodes
        total).2.2.2.2 ≠ ChStatus.fuelOut ∧
     ∀ e, (chPass hashFn replicas jobId sessionId sf tol passIdx runnable stage nodes
        total).2.2.2.2 ≠ ChStatus.errored e) ∧
    ((chPass hashFn replicas jobId sessionId sf tol passIdx runnable stage nodes
        total).2.2.2.2 = ChStatus.halted →
      (chPass hashFn replicas jobId sessionId sf tol passIdx runnable stage nodes
        total).2.2.1 = 0) ∧
    ((chPass hashFn replicas jobId sessionId sf tol passIdx runnable stage nodes
        total).2.2.2.2 = ChStatus.normal →
      0 < (chPass hashFn replicas jobId sessionId sf tol passIdx runnable stage nodes
        total).2.2.1) ∧
    (∀ x ∈ (chPass hashFn replicas jobId sessionId sf tol passIdx runnable stage nodes
        total).2.2.2.1, x.2 = passIdx ∧ x.1.2.data_cache = (tol == 0)) := by
  induction runnable generalizing stage nodes total with
  | nil =>
    refine ⟨nodesLE.refl_nodes nodes, fun eid => by simp [chPass, countFor], by simp [chPass],
      by simp [chPass], by simp [chPass], fun _ => htot, ?_⟩
    intro x hx
    simp [chPass] at hx
  | cons p rest ih =>
    rw [chPass]
    by_cases hplen : p < sf.length
    · rw [if_pos hplen]
      by_cases hemp : (sf.getD p []).isEmpty = true
      · rw [if_pos hemp]
        refine ⟨nodesLE.refl_nodes nodes, fun eid => by simp [countFor], by simp, by simp,
          by simp, fun _ => htot, ?_⟩
        · intro x hx
          simp at hx
      · rw [if_neg hemp]
        simp only
        cases hget : get_mut_with_tolerance hashFn replicas nodes
            (((sf.getD p []).getD 0 default).location) tol with
        | none =>
          exact ih stage nodes total htot
        | some j =>
          simp only
          obtain ⟨hjlen, hjpos⟩ := get_mut_some_valid hget
          have hdec := fun eid => nodesSum_decNodeAt hjlen (by omega) eid
          by_cases hhalt : total - 1 = 0
          · rw [if_pos hhalt]
            refine ⟨nodesLE_decNodeAt nodes j, ?_, by simp; omega, by simp, by simp,
              ?_, ?_⟩
            · intro eid
              have h1 := hdec eid
              simp only [List.map_cons, List.map_nil, countFor_cons]
              have h0 : countFor ([] : List BoundTask) eid = 0 := rfl
              omega
            · intro h
              simp at h
            · intro x hx
              rcases List.mem_singleton.1 hx with rfl
              exact ⟨rfl, rfl⟩
          · rw [if_neg hhalt]
            simp only
            obtain ⟨i1, i2, i3, i4, i5, i6, i7⟩ := ih _ (decNodeAt nodes j) (total - 1)
              (by omega)
            refine ⟨i1.trans (nodesLE_decNodeAt nodes j), ?_, ?_, i4, i5, i6, ?_⟩
            · intro eid
              rw [List.map_cons, countFor_cons]
              have h1 := i2 eid
              have h2 := hdec eid
              omega
            · simp only [List.length_cons]
              omega
            · intro x hx
              rcases List.mem_cons.1 hx with rfl | hx'
              · exact ⟨rfl, rfl⟩
              · exact i7 x hx'
    · rw [if_neg hplen]
      refine ⟨nodesLE.refl_nodes nodes, fun eid => by simp [countFor], by simp, by simp,
        by simp, fun h => absurd h (by simp), ?_⟩
      intro x hx
      simp at hx

/-- In a tolerance-0 pass that ended normally, every runnable partition whose
cell is still empty passed the panic guards and failed its ring lookup, and
still fails it against the exit state of the ring. -/
theorem chPass_miss (hashFn : HashFn) (replicas : Nat) (jobId sessionId : String)
    (sf : List (List PartitionedFile)) (passIdx : Nat) (runnable : List Nat)
    (stage : StageState) (nodes : List TopologyNode) (total : Nat)
    (hrun : ∀ p ∈ runnable, stage.task_infos[p]? = some none)
    (hnd : runnable.Nodup)
    (hnorm : (chPass hashFn replicas jobId sessionId sf 0 passIdx runnable stage nodes
      total).2.2.2.2 = ChStatus.normal) :
    ∀ p ∈ runnable,
      (chPass hashFn replicas jobId sessionId sf 0 passIdx runnable stage nodes
        total).1.task_infos[p]? = some none →
      p < sf.length ∧ (sf.getD p []).isEmpty = false ∧
      get_mut_with_tolerance hashFn replicas
        (chPass hashFn replicas jobId sessionId sf 0 passIdx runnable stage nodes
          total).2.1 (((sf.getD p []).getD 0 default).location) 0 = none := by
  induction runnable generalizing stage nodes total with
  | nil =>
    intro p hp
    simp at hp
  | cons q rest ih =>
    rw [chPass] at hnorm ⊢
    by_cases hplen : q < sf.length
    · rw [if_pos hplen] at hnorm ⊢
      by_cases hemp : (sf.getD q []).isEmpty = true
      · rw [if_pos hemp] at hnorm
        simp at hnorm
      · rw [if_neg hemp] at hnorm ⊢
        simp only at hnorm ⊢
        cases hget : get_mut_with_tolerance hashFn replicas nodes
            (((sf.getD q []).getD 0 default).location) 0 with
        | none =>
          rw [hget] at hnorm
          simp only at hnorm ⊢
          intro p hp hcell
          rcases List.mem_cons.1 hp with rfl | hp'
          · refine ⟨hplen, by simpa using hemp, ?_⟩
            have hle := chPass_nodesLE hashFn replicas jobId sessionId sf 0 passIdx rest
              stage nodes total
            exact get_mut_none_mono hle hget
          · exact ih stage nodes total
              (fun r hr => hrun r (List.mem_cons_of_mem q hr))
              (List.nodup_cons.1 hnd).2 hnorm p hp' hcell
        | some j =>
          rw [hget] at hnorm
          simp only at hnorm ⊢
          by_cases hhalt : total - 1 = 0
          · rw [if_pos hhalt] at hnorm
            simp at hnorm
          · rw [if_neg hhalt] at hnorm ⊢
            simp only at hnorm ⊢
            have hq := hrun q (List.mem_cons_self q rest)
            have hqlen : q < stage.task_infos.length := by
              by_contra hcon
              rw [List.getElem?_eq_none (by omega)] at hq
              exact Option.noConfusion hq
            have hrest : ∀ r ∈ rest,
                (bindStage stage ((nodes.getD j default)).id q).task_infos[r]? =
                  some none := by
              intro r hr
              have hne : q ≠ r := by
                intro hcon
                subst hcon
                exact (List.nodup_cons.1 hnd).1 hr
              simpa [bindStage, List.getElem?_set_ne hne] using
                hrun r (List.mem_cons_of_mem q hr)
            intro p hp hcell
            rcases List.mem_cons.1 hp with rfl | hp'
            · exfalso
              have hmono := (chPass_stageDelta hashFn replicas jobId sessionId sf 0
                passIdx rest (bindStage stage ((nodes.getD j default)).id p)
                (decNodeAt nodes j) (total - 1) hrest
                (List.nodup_cons.1 hnd).2).2.2.2.2.2.2.1 p
              rcases hmono with heq | ⟨hwas, v, hv⟩
              · rw [heq] at hcell
                rw [bindStage] at hcell
                simp only [List.getElem?_set_self hqlen] at hcell
                exact Option.noConfusion hcell (fun h => Option.noConfusion h)
              · rw [bindStage] at hwas
                simp only [List.getElem?_set_self hqlen] at hwas
                exact Option.noConfusion hwas (fun h => Option.noConfusion h)
            · exact ih _ (decNodeAt nodes j) (total - 1) hrest
                (List.nodup_cons.1 hnd).2 hnorm p hp' hcell
    · rw [if_neg hplen] at hnorm
      simp at hnorm

/-- A pass in which every runnable partition passes the guards but misses the
ring binds nothing and leaves every component unchanged. -/
theorem chPass_noop (hashFn : HashFn) (replicas : Nat) (jobId sessionId : String)
    (sf : List (List PartitionedFile)) (tol passIdx : Nat) (runnable : List Nat)
    (stage : StageState) (nodes : List TopologyNode) (total : Nat)
    (hmiss : ∀ p ∈ runnable, p < sf.length ∧ (sf.getD p []).isEmpty = false ∧
      get_mut_with_tolerance hashFn replicas nodes
        (((sf.getD p []).getD 0 default).location) tol = none) :
    chPass hashFn replicas jobId sessionId sf tol passIdx runnable stage nodes total
      = (stage, nodes, total, [], ChStatus.normal) := by
  induction runnable with
  | nil => rfl
  | cons q rest ih =>
    rw [chPass]
    obtain ⟨h1, h2, h3⟩ := hmiss q (List.mem_cons_self q rest)
    rw [if_pos h1]
    simp only
    rw [if_neg (by rw [h2]; decide), h3]
    exact ih (fun r hr => hmiss r (List.mem_cons_of_mem q hr))

/-! ## Window lemmas: the second pass can only revisit first-pass misses -/

/-- Membership in a prefix of a strictly increasing list is governed by the
number of smaller elements. -/
theorem sorted_mem_take_iff {l : List Nat} (hs : l.Pairwise (· < ·)) (p n : Nat) :
    p ∈ l.take n ↔ p ∈ l ∧ (l.filter (fun q => decide (q < p))).length < n := by
  induction l generalizing n with
  | nil => simp
  | cons x xs ih =>
    have hx : ∀ b ∈ xs, x < b := (List.pairwise_cons.1 hs).1
    have hs' := (List.pairwise_cons.1 hs).2
    cases n with
    | zero => simp
    | succ n =>
      rw [List.take_succ_cons]
      by_cases hpx : p = x
      · subst hpx
        have hfilt : (p :: xs).filter (fun q => decide (q < p)) = [] := by
          rw [List.filter_eq_nil_iff]
          intro a ha
          rcases List.mem_cons.1 ha with rfl | ha'
          · simp
          · simp [Nat.not_lt.2 (le_of_lt (hx a ha'))]
        simp [hfilt]
      · by_cases hpxs : p ∈ xs
        · have hxp : x < p := hx p hpxs
          have hfilt : (x :: xs).filter (fun q => decide (q < p)) =
              x :: xs.filter (fun q => decide (q < p)) := by
            simp [List.filter_cons, hxp]
          rw [List.mem_cons, hfilt]
          simp only [List.length_cons, List.mem_cons]
          constructor
          · rintro (rfl | hmem)
            · exact absurd rfl hpx
            · have := (ih hs' n).1 hmem
              exact ⟨Or.inr this.1, by omega⟩
          · rintro ⟨h, hlen⟩
            exact Or.inr ((ih hs' n).2 ⟨hpxs, by omega⟩)
        · constructor
          · intro hmem
            rcases List.mem_cons.1 hmem with rfl | hmem'
            · exact absurd rfl hpx
            · exact absurd (List.mem_of_mem_take hmem') hpxs
          · rintro ⟨hmem, h⟩
            rcases List.mem_cons.1 hmem with rfl | hmem'
            · exact absurd rfl hpx
            · exact absurd hmem' hpxs

/-- After a round that only fills empty cells, the empty indices are exactly
the still-empty subset of the old empty indices, in order. -/
theorem emptyIndices_eq_filter {cells cs' : List (Option TaskInfo)}
    (hmono : ∀ i : Nat, cs'[i]? = cells[i]? ∨
      (cells[i]? = some none ∧ ∃ v : TaskInfo, cs'[i]? = some (some v))) :
    emptyIndices cs' =
      (emptyIndices cells).filter (fun q => decide (cs'[q]? = some none)) := by
  have hmem : ∀ q : Nat, q ∈ emptyIndices cs' ↔
      q ∈ (emptyIndices cells).filter (fun q => decide (cs'[q]? = some none)) := by
    intro q
    rw [List.mem_filter, mem_emptyIndices, mem_emptyIndices]
    constructor
    · intro h
      refine ⟨?_, by simp [h]⟩
      rcases hmono q with heq | ⟨hw, v, hv⟩
      · rw [← heq]
        exact h
      · rw [hv] at h
        exact absurd h (by simp)
    · rintro ⟨h1, h2⟩
      simpa using h2
  have hperm : (emptyIndices cs').Perm
      ((emptyIndices cells).filter (fun q => decide (cs'[q]? = some none))) :=
    (List.perm_ext_iff_of_nodup (nodup_emptyIndices cs')
      ((nodup_emptyIndices cells).filter _)).2 hmem
  have h1 : List.Sorted (fun a b : Nat => a ≤ b) (emptyIndices cs') :=
    (pairwise_lt_emptyIndicesFrom cs' 0).imp le_of_lt
  have h2 : List.Sorted (fun a b : Nat => a ≤ b)
      ((emptyIndices cells).filter (fun q => decide (cs'[q]? = some none))) :=
    ((pairwise_lt_emptyIndicesFrom cells 0).filter _).imp le_of_lt
  exact List.eq_of_perm_of_sorted hperm h1 h2

/-- Counting bound: removing at most `B` elements from a strictly increasing
list moves any window of the remaining elements at most `B` positions. -/
theorem take_window {E : List Nat} (hs : E.Pairwise (· < ·)) (pred : Nat → Bool)
    {T B : Nat} (hB : (E.filter pred).length + B = E.length)
    {p : Nat} (hp : p ∈ (E.filter pred).take (T - B)) :
    p ∈ E.take T := by
  have hsf : (E.filter pred).Pairwise (· < ·) := hs.filter _
  obtain ⟨hpm, hcnt⟩ := (sorted_mem_take_iff hsf p (T - B)).1 hp
  have hpE : p ∈ E := List.mem_of_mem_filter hpm
  refine (sorted_mem_take_iff hs p T).2 ⟨hpE, ?_⟩
  have hsplit : (E.filter (fun q => decide (q < p))).length =
      ((E.filter (fun q => decide (q < p))).filter pred).length +
      ((E.filter (fun q => decide (q < p))).filter (fun a => !pred a)).length :=
    List.length_eq_length_filter_add pred
  have hcomm : (E.filter (fun q => decide (q < p))).filter pred =
      (E.filter pred).filter (fun q => decide (q < p)) :=
    List.filter_comm pred (fun q => decide (q < p)) E
  have hsub : ((E.filter (fun q => decide (q < p))).filter (fun a => !pred a)).length ≤
      (E.filter (fun a => !pred a)).length := by
    rw [List.filter_comm]
    exact (List.filter_sublist _).length_le
  have hnot : (E.filter pred).length + (E.filter (fun a => !pred a)).length = E.length :=
    (List.length_eq_length_filter_add pred).symm
  rw [hsplit, hcomm]
  omega

/-- With caller-supplied tolerance 0, the second pass over a stage binds
nothing: every still-empty cell in its window was already tried and missed in
the first pass, and slots have only decreased since. -/
theorem chSecondPass_noop (hashFn : HashFn) (replicas : Nat) (jobId sessionId : String)
    (sf : List (List PartitionedFile)) (stage : StageState) (nodes : List TopologyNode)
    (total : Nat) (htot : 0 < total)
    (hnorm : (chPass hashFn replicas jobId sessionId sf 0 0
        ((emptyIndices stage.task_infos).take total) stage nodes total).2.2.2.2 =
      ChStatus.normal) :
    chPass hashFn replicas jobId sessionId sf 0 1
      ((emptyIndices (chPass hashFn replicas jobId sessionId sf 0 0
          ((emptyIndices stage.task_infos).take total) stage nodes
          total).1.task_infos).take
        (chPass hashFn replicas jobId sessionId sf 0 0
          ((emptyIndices stage.task_infos).take total) stage nodes total).2.2.1)
      (chPass hashFn replicas jobId sessionId sf 0 0
        ((emptyIndices stage.task_infos).take total) stage nodes total).1
      (chPass hashFn replicas jobId sessionId sf 0 0
        ((emptyIndices stage.task_infos).take total) stage nodes total).2.1
      (chPass hashFn replicas jobId sessionId sf 0 0
        ((emptyIndices stage.task_infos).take total) stage nodes total).2.2.1 =
      ((chPass hashFn replicas jobId sessionId sf 0 0
          ((emptyIndices stage.task_infos).take total) stage nodes total).1,
       (chPass hashFn replicas jobId sessionId sf 0 0
          ((emptyIndices stage.task_infos).take total) stage nodes total).2.1,
       (chPass hashFn replicas jobId sessionId sf 0 0
          ((emptyIndices stage.task_infos).take total) stage nodes total).2.2.1,
       [], ChStatus.normal) := by
  have hrun1 := @runnable_cells_none stage.task_infos total
  have hnd1 := runnable_nodup stage.task_infos total
  have hdelta := chPass_stageDelta hashFn replicas jobId sessionId sf 0 0
    ((emptyIndices stage.task_infos).take total) stage nodes total hrun1 hnd1
  have hmono := hdelta.2.2.2.2.2.2.1
  have hcount := hdelta.2.2.2.2.2.2.2.2.2
  have htot1 := (chPass_main hashFn replicas jobId sessionId sf 0 0
    ((emptyIndices stage.task_infos).take total) stage nodes total htot).2.2.1
  have hmiss := chPass_miss hashFn replicas jobId sessionId sf 0
    ((emptyIndices stage.task_infos).take total) stage nodes total hrun1 hnd1 hnorm
  have hE1 := emptyIndices_eq_filter hmono
  refine chPass_noop hashFn replicas jobId sessionId sf 0 1 _ _ _ _ ?_
  intro p hp
  have hpcell : (chPass hashFn replicas jobId sessionId sf 0 0
      ((emptyIndices stage.task_infos).take total) stage nodes
      total).1.task_infos[p]? = some none :=
    mem_emptyIndices.1 (List.mem_of_mem_take hp)
  have hp1 : p ∈ (emptyIndices stage.task_infos).take total := by
    rw [hE1] at hp
    have hlen : ((emptyIndices stage.task_infos).filter
        (fun q => decide ((chPass hashFn replicas jobId sessionId sf 0 0
          ((emptyIndices stage.task_infos).take total) stage nodes
          total).1.task_infos[q]? = some none))).length +
        ((chPass hashFn replicas jobId sessionId sf 0 0
          ((emptyIndices stage.task_infos).take total) stage nodes
          total).2.2.2.1.map (·.1)).length =
        (emptyIndices stage.task_infos).length := by
      rw [← hE1]
      exact hcount
    have htake : (chPass hashFn replicas jobId sessionId sf 0 0
        ((emptyIndices stage.task_infos).take total) stage nodes total).2.2.1 =
        total - ((chPass hashFn replicas jobId sessionId sf 0 0
          ((emptyIndices stage.task_infos).take total) stage nodes
          total).2.2.2.1.map (·.1)).length := by
      rw [List.length_map]
      omega
    rw [htake] at hp
    exact take_window (pairwise_lt_emptyIndicesFrom stage.task_infos 0) _ hlen hp
  exact hmiss p hp1 hpcell

/-! ## Consistent-hash stage-loop lemmas -/

/-- The consistent-hash stage loop is a valid stage-list evolution. -/
theorem chStageLoop_stagesDelta (hashFn : HashFn) (replicas tolerance : Nat)
    (getScanFiles : String → Nat → Except String ScanFiles) (jobId sessionId : String)
    (fuel : Nat) :
    ∀ (stages : List StageState) (bl : List Nat) (nodes : List TopologyNode)
      (total : Nat),
    (stages.map (·.stage_id)).Nodup →
    StagesDelta jobId stages
      (chStageLoop hashFn replicas tolerance getScanFiles jobId sessionId fuel stages bl
        nodes total).1
      ((chStageLoop hashFn replicas tolerance getScanFiles jobId sessionId fuel stages
        bl nodes total).2.2.2.1.map (·.1)) := by
  induction fuel with
  | zero =>
    intro stages bl nodes total hnd
    exact StagesDelta.refl_stages jobId stages
  | succ fuel ih =>
    intro stages bl nodes total hnd
    rw [chStageLoop]
    cases hfetch : fetchRunningStage stages bl with
    | none => exact StagesDelta.refl_stages jobId stages
    | some si =>
      obtain hsi := (fetchRunningStage_eq_some hfetch).1
      simp only
      cases hgs : getScanFiles jobId (stages.getD si default).plan with
      | error e => exact StagesDelta.refl_stages jobId stages
      | ok scanFiles =>
        simp only
        by_cases hskip : is_skip_consistent_hash scanFiles = true
        · rw [if_pos hskip]
          exact ih stages _ nodes total hnd
        · rw [if_neg hskip]
          have hdelta1 := chPass_stageDelta hashFn replicas jobId sessionId
            (scanFiles.getD 0 []) 0 0
            ((emptyIndices (stages.getD si default).task_infos).take total)
            (stages.getD si default) nodes total
            (@runnable_cells_none (stages.getD si default).task_infos total)
            (runnable_nodup (stages.getD si default).task_infos total)
          cases hs1 : (chPass hashFn replicas jobId sessionId (scanFiles.getD 0 []) 0 0
              ((emptyIndices (stages.getD si default).task_infos).take total)
              (stages.getD si default) nodes total).2.2.2.2 with
          | normal =>
            simp only
            have hdelta2 := chPass_stageDelta hashFn replicas jobId sessionId
              (scanFiles.getD 0 []) tolerance 1
              ((emptyIndices (chPass hashFn replicas jobId sessionId
                  (scanFiles.getD 0 []) 0 0
                  ((emptyIndices (stages.getD si default).task_infos).take total)
                  (stages.getD si default) nodes total).1.task_infos).take
                (chPass hashFn replicas jobId sessionId (scanFiles.getD 0 []) 0 0
                  ((emptyIndices (stages.getD si default).task_infos).take total)
                  (stages.getD si default) nodes total).2.2.1)
              (chPass hashFn replicas jobId sessionId (scanFiles.getD 0 []) 0 0
                ((emptyIndices (stages.getD si default).task_infos).take total)
                (stages.getD si default) nodes total).1
              (chPass hashFn replicas jobId sessionId (scanFiles.getD 0 []) 0 0
                ((emptyIndices (stages.getD si default).task_infos).take total)
                (stages.getD si default) nodes total).2.1
              (chPass hashFn replicas jobId sessionId (scanFiles.getD 0 []) 0 0
                ((emptyIndices (stages.getD si default).task_infos).take total)
                (stages.getD si default) nodes total).2.2.1
              (@runnable_cells_none _ _) (runnable_nodup _ _)
            have hdelta12 := hdelta1.comp hdelta2
            cases hs2 : (chPass hashFn replicas jobId sessionId (scanFiles.getD 0 [])
                tolerance 1
                ((emptyIndices (chPass hashFn replicas jobId sessionId
                    (scanFiles.getD 0 []) 0 0
                    ((emptyIndices (stages.getD si default).task_infos).take total)
                    (stages.getD si default) nodes total).1.task_infos).take
                  (chPass hashFn replicas jobId sessionId (scanFiles.getD 0 []) 0 0
                    ((emptyIndices (stages.getD si default).task_infos).take total)
                    (stages.getD si default) nodes total).2.2.1)
                (chPass hashFn replicas jobId sessionId (scanFiles.getD 0 []) 0 0
                  ((emptyIndices (stages.getD si default).task_infos).take total)
                  (stages.getD si default) nodes total).1
                (chPass hashFn replicas jobId sessionId (scanFiles.getD 0 []) 0 0
                  ((emptyIndices (stages.getD si default).task_infos).take total)
                  (stages.getD si default) nodes total).2.1
                (chPass hashFn replicas jobId sessionId (scanFiles.getD 0 []) 0 0
                  ((emptyIndices (stages.getD si default).task_infos).take total)
                  (stages.getD si default) nodes total).2.2.1).2.2.2.2 with
            | normal =>
              simp only
              have hset := StagesDelta.ofSet hsi hnd hdelta12
              have hnd2 : (((stages.set si
                  (chPass hashFn replicas jobId sessionId
                  (scanFiles.getD 0 []) tolerance 1
                  ((emptyIndices (chPass hashFn replicas jobId sessionId (scanFiles.getD 0 []) 0 0
                  ((emptyIndices (stages.getD si default).task_infos).take total)
                  (stages.getD si default) nodes total).1.task_infos).take
                    (chPass hashFn replicas jobId sessionId (scanFiles.getD 0 []) 0 0
                  ((emptyIndices (stages.getD si default).task_infos).take total)
                  (stages.getD si default) nodes total).2.2.1)
                  (chPass hashFn replicas jobId sessionId (scanFiles.getD 0 []) 0 0
                  ((emptyIndices (stages.getD si default).task_infos).take total)
                  (stages.getD si default) nodes total).1
                  (chPass hashFn replicas jobId sessionId (scanFiles.getD 0 []) 0 0
                  ((emptyIndices (stages.getD si default).task_infos).take total)
                  (stages.getD si default) nodes total).2.1
                  (chPass hashFn replicas jobId sessionId (scanFiles.getD 0 []) 0 0
                  ((emptyIndices (stages.getD si default).task_infos).take total)
                  (stages.getD si default) nodes total).2.2.1).1)).map (·.stage_id)).Nodup := by
                rw [stages_map_id_set hsi hdelta12.1]
                exact hnd
              have hcomp := hset.compose (ih (stages.set si (chPass hashFn replicas jobId sessionId
                  (scanFiles.getD 0 []) tolerance 1
                  ((emptyIndices (chPass hashFn replicas jobId sessionId (scanFiles.getD 0 []) 0 0
                  ((emptyIndices (stages.getD si default).task_infos).take total)
                  (stages.getD si default) nodes total).1.task_infos).take
                    (chPass hashFn replicas jobId sessionId (scanFiles.getD 0 []) 0 0
                  ((emptyIndices (stages.getD si default).task_infos).take total)
                  (stages.getD si default) nodes total).2.2.1)
                  (chPass hashFn replicas jobId sessionId (scanFiles.getD 0 []) 0 0
                  ((emptyIndices (stages.getD si default).task_infos).take total)
                  (stages.getD si default) nodes total).1
                  (chPass hashFn replicas jobId sessionId (scanFiles.getD 0 []) 0 0
                  ((emptyIndices (stages.getD si default).task_infos).take total)
                  (stages.getD si default) nodes total).2.1
                  (chPass hashFn replicas jobId sessionId (scanFiles.getD 0 []) 0 0
                  ((emptyIndices (stages.getD si default).task_infos).take total)
                  (stages.getD si default) nodes total).2.2.1).1)
                (if total = (chPass hashFn replicas jobId sessionId
                  (scanFiles.getD 0 []) tolerance 1
                  ((emptyIndices (chPass hashFn replicas jobId sessionId (scanFiles.getD 0 []) 0 0
                  ((emptyIndices (stages.getD si default).task_infos).take total)
                  (stages.getD si default) nodes total).1.task_infos).take
                    (chPass hashFn replicas jobId sessionId (scanFiles.getD 0 []) 0 0
                  ((emptyIndices (stages.getD si default).task_infos).take total)
                  (stages.getD si default) nodes total).2.2.1)
                  (chPass hashFn replicas jobId sessionId (scanFiles.getD 0 []) 0 0
                  ((emptyIndices (stages.getD si default).task_infos).take total)
                  (stages.getD si default) nodes total).1
                  (chPass hashFn replicas jobId sessionId (scanFiles.getD 0 []) 0 0
                  ((emptyIndices (stages.getD si default).task_infos).take total)
                  (stages.getD si default) nodes total).2.1
                  (chPass hashFn replicas jobId sessionId (scanFiles.getD 0 []) 0 0
                  ((emptyIndices (stages.getD si default).task_infos).take total)
                  (stages.getD si default) nodes total).2.2.1).2.2.1
                  then (stages.getD si default).stage_id :: bl else bl)
                (chPass hashFn replicas jobId sessionId
                  (scanFiles.getD 0 []) tolerance 1
                  ((emptyIndices (chPass hashFn replicas jobId sessionId (scanFiles.getD 0 []) 0 0
                  ((emptyIndices (stages.getD si default).task_infos).take total)
                  (stages.getD si default) nodes total).1.task_infos).take
                    (chPass hashFn replicas jobId sessionId (scanFiles.getD 0 []) 0 0
                  ((emptyIndices (stages.getD si default).task_infos).take total)
                  (stages.getD si default) nodes total).2.2.1)
                  (chPass hashFn replicas jobId sessionId (scanFiles.getD 0 []) 0 0
                  ((emptyIndices (stages.getD si default).task_infos).take total)
                  (stages.getD si default) nodes total).1
                  (chPass hashFn replicas jobId sessionId (scanFiles.getD 0 []) 0 0
                  ((emptyIndices (stages.getD si default).task_infos).take total)
                  (stages.getD si default) nodes total).2.1
                  (chPass hashFn replicas jobId sessionId (scanFiles.getD 0 []) 0 0
                  ((emptyIndices (stages.getD si default).task_infos).take total)
                  (stages.getD si default) nodes total).2.2.1).2.1 (chPass hashFn replicas jobId sessionId
                  (scanFiles.getD 0 []) tolerance 1
                  ((emptyIndices (chPass hashFn replicas jobId sessionId (scanFiles.getD 0 []) 0 0
                  ((emptyIndices (stages.getD si default).task_infos).take total)
                  (stages.getD si default) nodes total).1.task_infos).take
                    (chPass hashFn replicas jobId sessionId (scanFiles.getD 0 []) 0 0
                  ((emptyIndices (stages.getD si default).task_infos).take total)
                  (stages.getD si default) nodes total).2.2.1)
                  (chPass hashFn replicas jobId sessionId (scanFiles.getD 0 []) 0 0
                  ((emptyIndices (stages.getD si default).task_infos).take total)
                  (stages.getD si default) nodes total).1
                  (chPass hashFn replicas jobId sessionId (scanFiles.getD 0 []) 0 0
                  ((emptyIndices (stages.getD si default).task_infos).take total)
                  (stages.getD si default) nodes total).2.1
                  (chPass hashFn replicas jobId sessionId (scanFiles.getD 0 []) 0 0
                  ((emptyIndices (stages.getD si default).task_infos).take total)
                  (stages.getD si default) nodes total).2.2.1).2.2.1 hnd2)
              simp only [List.map_append] at hcomp ⊢
              simpa [List.append_assoc] using hcomp
            | halted =>
              simp only
              rw [List.map_append]
              exact StagesDelta.ofSet hsi hnd hdelta12
            | panicked =>
              simp only
              rw [List.map_append]
              exact StagesDelta.ofSet hsi hnd hdelta12
            | errored e =>
              simp only
              rw [List.map_append]
              exact StagesDelta.ofSet hsi hnd hdelta12
            | fuelOut =>
              simp only
              rw [List.map_append]
              exact StagesDelta.ofSet hsi hnd hdelta12
          | halted =>
            simp only
            exact StagesDelta.ofSet hsi hnd hdelta1
          | panicked =>
            simp only
            exact StagesDelta.ofSet hsi hnd hdelta1
          | errored e =>
            simp only
            exact StagesDelta.ofSet hsi hnd hdelta1
          | fuelOut =>
            simp only
            exact StagesDelta.ofSet hsi hnd hdelta1

/-- Node conservation, slot accounting, status behaviour and pass tagging of
the consistent-hash stage loop. -/
theorem chStageLoop_main (hashFn : HashFn) (replicas tolerance : Nat)
    (getScanFiles : String → Nat → Except String ScanFiles) (jobId sessionId : String)
    (fuel : Nat) :
    ∀ (stages : List StageState) (bl : List Nat) (nodes : List TopologyNode)
      (total : Nat), 0 < total →
    (∀ eid, nodesSum (chStageLoop hashFn replicas tolerance getScanFiles jobId sessionId fuel stages bl
        nodes total).2.1 eid +
      countFor ((chStageLoop hashFn replicas tolerance getScanFiles jobId sessionId fuel stages bl
        nodes total).2.2.2.1.map (·.1)) eid = nodesSum nodes eid) ∧
    ((chStageLoop hashFn replicas tolerance getScanFiles jobId sessionId fuel stages bl
        nodes total).2.2.1 + (chStageLoop hashFn replicas tolerance getScanFiles jobId sessionId fuel stages bl
        nodes total).2.2.2.1.length = total) ∧
    ((chStageLoop hashFn replicas tolerance getScanFiles jobId sessionId fuel stages bl
        nodes total).2.2.2.2 = ChStatus.halted → (chStageLoop hashFn replicas tolerance getScanFiles jobId sessionId fuel stages bl
        nodes total).2.2.1 = 0) ∧
    ((chStageLoop hashFn replicas tolerance getScanFiles jobId sessionId fuel stages bl
        nodes total).2.2.2.2 = ChStatus.normal → 0 < (chStageLoop hashFn replicas tolerance getScanFiles jobId sessionId fuel stages bl
        nodes total).2.2.1) ∧
    (∀ e, (chStageLoop hashFn replicas tolerance getScanFiles jobId sessionId fuel stages bl
        nodes total).2.2.2.2 = ChStatus.errored e →
      ∃ plan, getScanFiles jobId plan = Except.error e) ∧
    (∀ x ∈ (chStageLoop hashFn replicas tolerance getScanFiles jobId sessionId fuel stages bl
        nodes total).2.2.2.1,
      (x.2 = 0 ∧ x.1.2.data_cache = true) ∨ (x.2 = 1 ∧ x.1.2.data_cache = false)) := by
  induction fuel with
  | zero =>
    intro stages bl nodes total htot
    refine ⟨fun eid => by simp [chStageLoop, countFor], by simp [chStageLoop],
      by simp [chStageLoop], fun _ => htot, by simp [chStageLoop], ?_⟩
    intro x hx
    simp [chStageLoop] at hx
  | succ fuel ih =>
    intro stages bl nodes total htot
    rw [chStageLoop]
    cases hfetch : fetchRunningStage stages bl with
    | none =>
      refine ⟨fun eid => by simp [countFor], by simp, by simp, fun _ => htot,
        by simp, ?_⟩
      intro x hx
      simp at hx
    | some si =>
      obtain hsi := (fetchRunningStage_eq_some hfetch).1
      simp only
      cases hgs : getScanFiles jobId (stages.getD si default).plan with
      | error e =>
        refine ⟨fun eid => by simp [countFor], by simp, by simp, fun _ => htot,
          ?_, ?_⟩
        · intro e' he'
          simp only [ChStatus.errored.injEq] at he'
          exact ⟨(stages.getD si default).plan, he' ▸ hgs⟩
        · intro x hx
          simp at hx
      | ok scanFiles =>
        simp only
        by_cases hskip : is_skip_consistent_hash scanFiles = true
        · rw [if_pos hskip]
          exact ih stages _ nodes total htot
        · rw [if_neg hskip]
          obtain ⟨m11, m12, m13, m14, m15, m16, m17⟩ := chPass_main hashFn replicas
            jobId sessionId (scanFiles.getD 0 []) 0 0
            ((emptyIndices (stages.getD si default).task_infos).take total)
            (stages.getD si default) nodes total htot
          cases hs1 : (chPass hashFn replicas jobId sessionId (scanFiles.getD 0 []) 0 0
              ((emptyIndices (stages.getD si default).task_infos).take total)
              (stages.getD si default) nodes total).2.2.2.2 with
          | normal =>
            simp only
            have htot1 : 0 < (chPass hashFn replicas jobId sessionId (scanFiles.getD 0 []) 0 0
              ((emptyIndices (stages.getD si default).task_infos).take total)
              (stages.getD si default) nodes total).2.2.1 := m16 hs1
            obtain ⟨m21, m22, m23, m24, m25, m26, m27⟩ := chPass_main hashFn replicas
              jobId sessionId (scanFiles.getD 0 []) tolerance 1
              ((emptyIndices (chPass hashFn replicas jobId sessionId (scanFiles.getD 0 []) 0 0
              ((emptyIndices (stages.getD si default).task_infos).take total)
              (stages.getD si default) nodes total).1.task_infos).take (chPass hashFn replicas jobId sessionId (scanFiles.getD 0 []) 0 0
              ((emptyIndices (stages.getD si default).task_infos).take total)
              (stages.getD si default) nodes total).2.2.1)
              (chPass hashFn replicas jobId sessionId (scanFiles.getD 0 []) 0 0
              ((emptyIndices (stages.getD si default).task_infos).take total)
              (stages.getD si default) nodes total).1 (chPass hashFn replicas jobId sessionId (scanFiles.getD 0 []) 0 0
              ((emptyIndices (stages.getD si default).task_infos).take total)
              (stages.getD si default) nodes total).2.1 (chPass hashFn replicas jobId sessionId (scanFiles.getD 0 []) 0 0
              ((emptyIndices (stages.getD si default).task_infos).take total)
              (stages.getD si default) nodes total).2.2.1 htot1
            have hr2tags : ∀ x ∈ (chPass hashFn replicas jobId sessionId (scanFiles.getD 0 []) tolerance 1
              ((emptyIndices (chPass hashFn replicas jobId sessionId (scanFiles.getD 0 []) 0 0
              ((emptyIndices (stages.getD si default).task_infos).take total)
              (stages.getD si default) nodes total).1.task_infos).take (chPass hashFn replicas jobId sessionId (scanFiles.getD 0 []) 0 0
              ((emptyIndices (stages.getD si default).task_infos).take total)
              (stages.getD si default) nodes total).2.2.1)
              (chPass hashFn replicas jobId sessionId (scanFiles.getD 0 []) 0 0
              ((emptyIndices (stages.getD si default).task_infos).take total)
              (stages.getD si default) nodes total).1 (chPass hashFn replicas jobId sessionId (scanFiles.getD 0 []) 0 0
              ((emptyIndices (stages.getD si default).task_infos).take total)
              (stages.getD si default) nodes total).2.1 (chPass hashFn replicas jobId sessionId (scanFiles.getD 0 []) 0 0
              ((emptyIndices (stages.getD si default).task_infos).take total)
              (stages.getD si default) nodes total).2.2.1).2.2.2.1,
                x.2 = 1 ∧ x.1.2.data_cache = false := by
              by_cases htol : tolerance = 0
              · subst htol
                have hnoop := chSecondPass_noop hashFn replicas jobId sessionId
                  (scanFiles.getD 0 []) (stages.getD si default) nodes total htot hs1
                rw [hnoop]
                intro x hx
                simp at hx
              · intro x hx
                obtain ⟨ht, hd⟩ := m27 x hx
                refine ⟨ht, ?_⟩
                rw [hd]
                simpa using htol
            cases hs2 : (chPass hashFn replicas jobId sessionId (scanFiles.getD 0 []) tolerance 1
              ((emptyIndices (chPass hashFn replicas jobId sessionId (scanFiles.getD 0 []) 0 0
              ((emptyIndices (stages.getD si default).task_infos).take total)
              (stages.getD si default) nodes total).1.task_infos).take (chPass hashFn replicas jobId sessionId (scanFiles.getD 0 []) 0 0
              ((emptyIndices (stages.getD si default).task_infos).take total)
              (stages.getD si default) nodes total).2.2.1)
              (chPass hashFn replicas jobId sessionId (scanFiles.getD 0 []) 0 0
              ((emptyIndices (stages.getD si default).task_infos).take total)
              (stages.getD si default) nodes total).1 (chPass hashFn replicas jobId sessionId (scanFiles.getD 0 []) 0 0
              ((emptyIndices (stages.getD si default).task_infos).take total)
              (stages.getD si default) nodes total).2.1 (chPass hashFn replicas jobId sessionId (scanFiles.getD 0 []) 0 0
              ((emptyIndices (stages.getD si default).task_infos).take total)
              (stages.getD si default) nodes total).2.2.1).2.2.2.2 with
            | normal =>
              simp only
              have htot2 : 0 < (chPass hashFn replicas jobId sessionId (scanFiles.getD 0 []) tolerance 1
              ((emptyIndices (chPass hashFn replicas jobId sessionId (scanFiles.getD 0 []) 0 0
              ((emptyIndices (stages.getD si default).task_infos).take total)
              (stages.getD si default) nodes total).1.task_infos).take (chPass hashFn replicas jobId sessionId (scanFiles.getD 0 []) 0 0
              ((emptyIndices (stages.getD si default).task_infos).take total)
              (stages.getD si default) nodes total).2.2.1)
              (chPass hashFn replicas jobId sessionId (scanFiles.getD 0 []) 0 0
              ((emptyIndices (stages.getD si default).task_infos).take total)
              (stages.getD si default) nodes total).1 (chPass hashFn replicas jobId sessionId (scanFiles.getD 0 []) 0 0
              ((emptyIndices (stages.getD si default).task_infos).take total)
              (stages.getD si default) nodes total).2.1 (chPass hashFn replicas jobId sessionId (scanFiles.getD 0 []) 0 0
              ((emptyIndices (stages.getD si default).task_infos).take total)
              (stages.getD si default) nodes total).2.2.1).2.2.1 := m26 hs2
              obtain ⟨j1, j2, j3, j4, j5, j6⟩ := ih (stages.set si (chPass hashFn replicas jobId sessionId (scanFiles.getD 0 []) tolerance 1
              ((emptyIndices (chPass hashFn replicas jobId sessionId (scanFiles.getD 0 []) 0 0
              ((emptyIndices (stages.getD si default).task_infos).take total)
              (stages.getD si default) nodes total).1.task_infos).take (chPass hashFn replicas jobId sessionId (scanFiles.getD 0 []) 0 0
              ((emptyIndices (stages.getD si default).task_infos).take total)
              (stages.getD si default) nodes total).2.2.1)
              (chPass hashFn replicas jobId sessionId (scanFiles.getD 0 []) 0 0
              ((emptyIndices (stages.getD si default).task_infos).take total)
              (stages.getD si default) nodes total).1 (chPass hashFn replicas jobId sessionId (scanFiles.getD 0 []) 0 0
              ((emptyIndices (stages.getD si default).task_infos).take total)
              (stages.getD si default) nodes total).2.1 (chPass hashFn replicas jobId sessionId (scanFiles.getD 0 []) 0 0
              ((emptyIndices (stages.getD si default).task_infos).take total)
              (stages.getD si default) nodes total).2.2.1).1)
                (if total = (chPass hashFn replicas jobId sessionId (scanFiles.getD 0 []) tolerance 1
              ((emptyIndices (chPass hashFn replicas jobId sessionId (scanFiles.getD 0 []) 0 0
              ((emptyIndices (stages.getD si default).task_infos).take total)
              (stages.getD si default) nodes total).1.task_infos).take (chPass hashFn replicas jobId sessionId (scanFiles.getD 0 []) 0 0
              ((emptyIndices (stages.getD si default).task_infos).take total)
              (stages.getD si default) nodes total).2.2.1)
              (chPass hashFn replicas jobId sessionId (scanFiles.getD 0 []) 0 0
              ((emptyIndices (stages.getD si default).task_infos).take total)
              (stages.getD si default) nodes total).1 (chPass hashFn replicas jobId sessionId (scanFiles.getD 0 []) 0 0
              ((emptyIndices (stages.getD si default).task_infos).take total)
              (stages.getD si default) nodes total).2.1 (chPass hashFn replicas jobId sessionId (scanFiles.getD 0 []) 0 0
              ((emptyIndices (stages.getD si default).task_infos).take total)
              (stages.getD si default) nodes total).2.2.1).2.2.1
                  then (stages.getD si default).stage_id :: bl else bl)
                (chPass hashFn replicas jobId sessionId (scanFiles.getD 0 []) tolerance 1
              ((emptyIndices (chPass hashFn replicas jobId sessionId (scanFiles.getD 0 []) 0 0
              ((emptyIndices (stages.getD si default).task_infos).take total)
              (stages.getD si default) nodes total).1.task_infos).take (chPass hashFn replicas jobId sessionId (scanFiles.getD 0 []) 0 0
              ((emptyIndices (stages.getD si default).task_infos).take total)
              (stages.getD si default) nodes total).2.2.1)
              (chPass hashFn replicas jobId sessionId (scanFiles.getD 0 []) 0 0
              ((emptyIndices (stages.getD si default).task_infos).take total)
              (stages.getD si default) nodes total).1 (chPass hashFn replicas jobId sessionId (scanFiles.getD 0 []) 0 0
              ((emptyIndices (stages.getD si default).task_infos).take total)
              (stages.getD si default) nodes total).2.1 (chPass hashFn replicas jobId sessionId (scanFiles.getD 0 []) 0 0
              ((emptyIndices (stages.getD si default).task_infos).take total)
              (stages.getD si default) nodes total).2.2.1).2.1 (chPass hashFn replicas jobId sessionId (scanFiles.getD 0 []) tolerance 1
              ((emptyIndices (chPass hashFn replicas jobId sessionId (scanFiles.getD 0 []) 0 0
              ((emptyIndices (stages.getD si default).task_infos).take total)
              (stages.getD si default) nodes total).1.task_infos).take (chPass hashFn replicas jobId sessionId (scanFiles.getD 0 []) 0 0
              ((emptyIndices (stages.getD si default).task_infos).take total)
              (stages.getD si default) nodes total).2.2.1)
              (chPass hashFn replicas jobId sessionId (scanFiles.getD 0 []) 0 0
              ((emptyIndices (stages.getD si default).task_infos).take total)
              (stages.getD si default) nodes total).1 (chPass hashFn replicas jobId sessionId (scanFiles.getD 0 []) 0 0
              ((emptyIndices (stages.getD si default).task_infos).take total)
              (stages.getD si default) nodes total).2.1 (chPass hashFn replicas jobId sessionId (scanFiles.getD 0 []) 0 0
              ((emptyIndices (stages.getD si default).task_infos).take total)
              (stages.getD si default) nodes total).2.2.1).2.2.1 htot2
              refine ⟨?_, ?_, j3, j4, j5, ?_⟩
              · intro eid
                have h1 := m12 eid
                have h2 := m22 eid
                have h3 := j1 eid
                simp only [List.map_append, countFor_append] at h3 ⊢
                omega
              · simp only [List.length_append]
                omega
              · intro x hx
                rcases List.mem_append.1 hx with hx1 | hx2
                · rcases List.mem_append.1 hx1 with hx11 | hx12
                  · exact Or.inl ⟨(m17 x hx11).1, by rw [(m17 x hx11).2]; rfl⟩
                  · exact Or.inr (hr2tags x hx12)
                · exact j6 x hx2
            | halted =>
              simp only
              refine ⟨?_, ?_, fun _ => m25 hs2, ?_, ?_, ?_⟩
              · intro eid
                have h1 := m12 eid
                have h2 := m22 eid
                simp only [List.map_append, countFor_append]
                omega
              · simp only [List.length_append]
                omega
              · intro hcon
                simp at hcon
              · intro e' he'
                simp at he'
              · intro x hx
                rcases List.mem_append.1 hx with hx1 | hx2
                · exact Or.inl ⟨(m17 x hx1).1, by rw [(m17 x hx1).2]; rfl⟩
                · exact Or.inr (hr2tags x hx2)
            | panicked =>
              simp only
              refine ⟨?_, ?_, ?_, ?_, ?_, ?_⟩
              · intro eid
                have h1 := m12 eid
                have h2 := m22 eid
                simp only [List.map_append, countFor_append]
                omega
              · simp only [List.length_append]
                omega
              · intro hcon
                simp at hcon
              · intro hcon
                simp at hcon
              · intro e' he'
                simp at he'
              · intro x hx
                rcases List.mem_append.1 hx with hx1 | hx2
                · exact Or.inl ⟨(m17 x hx1).1, by rw [(m17 x hx1).2]; rfl⟩
                · exact Or.inr (hr2tags x hx2)
            | errored e => exact absurd hs2 (m24.2 e)
            | fuelOut => exact absurd hs2 m24.1
          | halted =>
            simp only
            refine ⟨?_, ?_, fun _ => m15 hs1, ?_, ?_, ?_⟩
            · intro eid
              have h1 := m12 eid
              omega
            · omega
            · intro hcon
              simp at hcon
            · intro e' he'
              simp at he'
            · intro x hx
              exact Or.inl ⟨(m17 x hx).1, by rw [(m17 x hx).2]; rfl⟩
          | panicked =>
            simp only
            refine ⟨?_, ?_, ?_, ?_, ?_, ?_⟩
            · intro eid
              have h1 := m12 eid
              omega
            · omega
            · intro hcon
              simp at hcon
            · intro hcon
              simp at hcon
            · intro e' he'
              simp at he'
            · intro x hx
              exact Or.inl ⟨(m17 x hx).1, by rw [(m17 x hx).2]; rfl⟩
          | errored e => exact absurd hs1 (m14.2 e)
          | fuelOut => exact absurd hs1 m14.1

/-- The canonical fuel is sufficient for the consistent-hash stage loop. -/
theorem chStageLoop_no_fuelOut (hashFn : HashFn) (replicas tolerance : Nat)
    (getScanFiles : String → Nat → Except String ScanFiles) (jobId sessionId : String)
    (fuel : Nat) :
    ∀ (stages : List StageState) (bl : List Nat) (nodes : List TopologyNode)
      (total : Nat), 0 < total → loopMeasure stages bl < fuel →
    (chStageLoop hashFn replicas tolerance getScanFiles jobId sessionId fuel stages bl
      nodes total).2.2.2.2 ≠ ChStatus.fuelOut := by
  induction fuel with
  | zero =>
    intro stages bl nodes total htot hm
    omega
  | succ fuel ih =>
    intro stages bl nodes total htot hm
    rw [chStageLoop]
    cases hfetch : fetchRunningStage stages bl with
    | none => simp
    | some si =>
      obtain ⟨hsi, hany, hnb⟩ := fetchRunningStage_eq_some hfetch
      simp only
      cases hgs : getScanFiles jobId (stages.getD si default).plan with
      | error e => simp
      | ok scanFiles =>
        simp only
        by_cases hskip : is_skip_consistent_hash scanFiles = true
        · rw [if_pos hskip]
          apply ih stages _ nodes total htot
          have := nonBlacklisted_cons_lt hsi hnb
          simp only [loopMeasure] at hm ⊢
          omega
        · rw [if_neg hskip]
          obtain ⟨m11, m12, m13, m14, m15, m16, m17⟩ := chPass_main hashFn replicas
            jobId sessionId (scanFiles.getD 0 []) 0 0
            ((emptyIndices (stages.getD si default).task_infos).take total)
            (stages.getD si default) nodes total htot
          have hdelta1 := chPass_stageDelta hashFn replicas jobId sessionId
            (scanFiles.getD 0 []) 0 0
            ((emptyIndices (stages.getD si default).task_infos).take total)
            (stages.getD si default) nodes total
            (@runnable_cells_none (stages.getD si default).task_infos total)
            (runnable_nodup (stages.getD si default).task_infos total)
          cases hs1 : (chPass hashFn replicas jobId sessionId (scanFiles.getD 0 []) 0 0
              ((emptyIndices (stages.getD si default).task_infos).take total)
              (stages.getD si default) nodes total).2.2.2.2 with
          | normal =>
            simp only
            have htot1 : 0 < (chPass hashFn replicas jobId sessionId (scanFiles.getD 0 []) 0 0
              ((emptyIndices (stages.getD si default).task_infos).take total)
              (stages.getD si default) nodes total).2.2.1 := m16 hs1
            obtain ⟨m21, m22, m23, m24, m25, m26, m27⟩ := chPass_main hashFn replicas
              jobId sessionId (scanFiles.getD 0 []) tolerance 1
              ((emptyIndices (chPass hashFn replicas jobId sessionId (scanFiles.getD 0 []) 0 0
              ((emptyIndices (stages.getD si default).task_infos).take total)
              (stages.getD si default) nodes total).1.task_infos).take (chPass hashFn replicas jobId sessionId (scanFiles.getD 0 []) 0 0
              ((emptyIndices (stages.getD si default).task_infos).take total)
              (stages.getD si default) nodes total).2.2.1)
              (chPass hashFn replicas jobId sessionId (scanFiles.getD 0 []) 0 0
              ((emptyIndices (stages.getD si default).task_infos).take total)
              (stages.getD si default) nodes total).1 (chPass hashFn replicas jobId sessionId (scanFiles.getD 0 []) 0 0
              ((emptyIndices (stages.getD si default).task_infos).take total)
              (stages.getD si default) nodes total).2.1 (chPass hashFn replicas jobId sessionId (scanFiles.getD 0 []) 0 0
              ((emptyIndices (stages.getD si default).task_infos).take total)
              (stages.getD si default) nodes total).2.2.1 htot1
            have hdelta2 := chPass_stageDelta hashFn replicas jobId sessionId
              (scanFiles.getD 0 []) tolerance 1
              ((emptyIndices (chPass hashFn replicas jobId sessionId (scanFiles.getD 0 []) 0 0
              ((emptyIndices (stages.getD si default).task_infos).take total)
              (stages.getD si default) nodes total).1.task_infos).take (chPass hashFn replicas jobId sessionId (scanFiles.getD 0 []) 0 0
              ((emptyIndices (stages.getD si default).task_infos).take total)
              (stages.getD si default) nodes total).2.2.1)
              (chPass hashFn replicas jobId sessionId (scanFiles.getD 0 []) 0 0
              ((emptyIndices (stages.getD si default).task_infos).take total)
              (stages.getD si default) nodes total).1 (chPass hashFn replicas jobId sessionId (scanFiles.getD 0 []) 0 0
              ((emptyIndices (stages.getD si default).task_infos).take total)
              (stages.getD si default) nodes total).2.1 (chPass hashFn replicas jobId sessionId (scanFiles.getD 0 []) 0 0
              ((emptyIndices (stages.getD si default).task_infos).take total)
              (stages.getD si default) nodes total).2.2.1
              (@runnable_cells_none _ _) (runnable_nodup _ _)
            have hdelta12 := hdelta1.comp hdelta2
            cases hs2 : (chPass hashFn replicas jobId sessionId (scanFiles.getD 0 []) tolerance 1
              ((emptyIndices (chPass hashFn replicas jobId sessionId (scanFiles.getD 0 []) 0 0
              ((emptyIndices (stages.getD si default).task_infos).take total)
              (stages.getD si default) nodes total).1.task_infos).take (chPass hashFn replicas jobId sessionId (scanFiles.getD 0 []) 0 0
              ((emptyIndices (stages.getD si default).task_infos).take total)
              (stages.getD si default) nodes total).2.2.1)
              (chPass hashFn replicas jobId sessionId (scanFiles.getD 0 []) 0 0
              ((emptyIndices (stages.getD si default).task_infos).take total)
              (stages.getD si default) nodes total).1 (chPass hashFn replicas jobId sessionId (scanFiles.getD 0 []) 0 0
              ((emptyIndices (stages.getD si default).task_infos).take total)
              (stages.getD si default) nodes total).2.1 (chPass hashFn replicas jobId sessionId (scanFiles.getD 0 []) 0 0
              ((emptyIndices (stages.getD si default).task_infos).take total)
              (stages.getD si default) nodes total).2.2.1).2.2.2.2 with
            | normal =>
              simp only
              have htot2 : 0 < (chPass hashFn replicas jobId sessionId (scanFiles.getD 0 []) tolerance 1
              ((emptyIndices (chPass hashFn replicas jobId sessionId (scanFiles.getD 0 []) 0 0
              ((emptyIndices (stages.getD si default).task_infos).take total)
              (stages.getD si default) nodes total).1.task_infos).take (chPass hashFn replicas jobId sessionId (scanFiles.getD 0 []) 0 0
              ((emptyIndices (stages.getD si default).task_infos).take total)
              (stages.getD si default) nodes total).2.2.1)
              (chPass hashFn replicas jobId sessionId (scanFiles.getD 0 []) 0 0
              ((emptyIndices (stages.getD si default).task_infos).take total)
              (stages.getD si default) nodes total).1 (chPass hashFn replicas jobId sessionId (scanFiles.getD 0 []) 0 0
              ((emptyIndices (stages.getD si default).task_infos).take total)
              (stages.getD si default) nodes total).2.1 (chPass hashFn replicas jobId sessionId (scanFiles.getD 0 []) 0 0
              ((emptyIndices (stages.getD si default).task_infos).take total)
              (stages.getD si default) nodes total).2.2.1).2.2.1 := m26 hs2
              apply ih _ _ _ _ htot2
              have hcount := hdelta12.2.2.2.2.2.2.2.2.2
              rw [← List.map_append] at hcount
              have hempty := totalEmpty_set hsi hcount
              have hnbl := @nonBlacklisted_set_same_id stages bl si _ hsi hdelta12.1
              by_cases hz : total = (chPass hashFn replicas jobId sessionId (scanFiles.getD 0 []) tolerance 1
              ((emptyIndices (chPass hashFn replicas jobId sessionId (scanFiles.getD 0 []) 0 0
              ((emptyIndices (stages.getD si default).task_infos).take total)
              (stages.getD si default) nodes total).1.task_infos).take (chPass hashFn replicas jobId sessionId (scanFiles.getD 0 []) 0 0
              ((emptyIndices (stages.getD si default).task_infos).take total)
              (stages.getD si default) nodes total).2.2.1)
              (chPass hashFn replicas jobId sessionId (scanFiles.getD 0 []) 0 0
              ((emptyIndices (stages.getD si default).task_infos).take total)
              (stages.getD si default) nodes total).1 (chPass hashFn replicas jobId sessionId (scanFiles.getD 0 []) 0 0
              ((emptyIndices (stages.getD si default).task_infos).take total)
              (stages.getD si default) nodes total).2.1 (chPass hashFn replicas jobId sessionId (scanFiles.getD 0 []) 0 0
              ((emptyIndices (stages.getD si default).task_infos).take total)
              (stages.getD si default) nodes total).2.2.1).2.2.1
              · rw [if_pos hz]
                have hnbl2 := @nonBlacklisted_set_same_id stages
                  ((stages.getD si default).stage_id :: bl) si _ hsi hdelta12.1
                have hlt := nonBlacklisted_cons_lt hsi hnb
                have hlm : (List.map (fun x => x.1)
                    ((chPass hashFn replicas jobId sessionId (scanFiles.getD 0 []) 0 0
              ((emptyIndices (stages.getD si default).task_infos).take total)
              (stages.getD si default) nodes total).2.2.2.1 ++ (chPass hashFn replicas jobId sessionId (scanFiles.getD 0 []) tolerance 1
              ((emptyIndices (chPass hashFn replicas jobId sessionId (scanFiles.getD 0 []) 0 0
              ((emptyIndices (stages.getD si default).task_infos).take total)
              (stages.getD si default) nodes total).1.task_infos).take (chPass hashFn replicas jobId sessionId (scanFiles.getD 0 []) 0 0
              ((emptyIndices (stages.getD si default).task_infos).take total)
              (stages.getD si default) nodes total).2.2.1)
              (chPass hashFn replicas jobId sessionId (scanFiles.getD 0 []) 0 0
              ((emptyIndices (stages.getD si default).task_infos).take total)
              (stages.getD si default) nodes total).1 (chPass hashFn replicas jobId sessionId (scanFiles.getD 0 []) 0 0
              ((emptyIndices (stages.getD si default).task_infos).take total)
              (stages.getD si default) nodes total).2.1 (chPass hashFn replicas jobId sessionId (scanFiles.getD 0 []) 0 0
              ((emptyIndices (stages.getD si default).task_infos).take total)
              (stages.getD si default) nodes total).2.2.1).2.2.2.1)).length =
                    (chPass hashFn replicas jobId sessionId (scanFiles.getD 0 []) 0 0
              ((emptyIndices (stages.getD si default).task_infos).take total)
              (stages.getD si default) nodes total).2.2.2.1.length + (chPass hashFn replicas jobId sessionId (scanFiles.getD 0 []) tolerance 1
              ((emptyIndices (chPass hashFn replicas jobId sessionId (scanFiles.getD 0 []) 0 0
              ((emptyIndices (stages.getD si default).task_infos).take total)
              (stages.getD si default) nodes total).1.task_infos).take (chPass hashFn replicas jobId sessionId (scanFiles.getD 0 []) 0 0
              ((emptyIndices (stages.getD si default).task_infos).take total)
              (stages.getD si default) nodes total).2.2.1)
              (chPass hashFn replicas jobId sessionId (scanFiles.getD 0 []) 0 0
              ((emptyIndices (stages.getD si default).task_infos).take total)
              (stages.getD si default) nodes total).1 (chPass hashFn replicas jobId sessionId (scanFiles.getD 0 []) 0 0
              ((emptyIndices (stages.getD si default).task_infos).take total)
              (stages.getD si default) nodes total).2.1 (chPass hashFn replicas jobId sessionId (scanFiles.getD 0 []) 0 0
              ((emptyIndices (stages.getD si default).task_infos).take total)
              (stages.getD si default) nodes total).2.2.1).2.2.2.1.length := by
                  rw [List.length_map, List.length_append]
                simp only [loopMeasure] at hm ⊢
                omega
              · rw [if_neg hz]
                have hlm : (List.map (fun x => x.1)
                    ((chPass hashFn replicas jobId sessionId (scanFiles.getD 0 []) 0 0
              ((emptyIndices (stages.getD si default).task_infos).take total)
              (stages.getD si default) nodes total).2.2.2.1 ++ (chPass hashFn replicas jobId sessionId (scanFiles.getD 0 []) tolerance 1
              ((emptyIndices (chPass hashFn replicas jobId sessionId (scanFiles.getD 0 []) 0 0
              ((emptyIndices (stages.getD si default).task_infos).take total)
              (stages.getD si default) nodes total).1.task_infos).take (chPass hashFn replicas jobId sessionId (scanFiles.getD 0 []) 0 0
              ((emptyIndices (stages.getD si default).task_infos).take total)
              (stages.getD si default) nodes total).2.2.1)
              (chPass hashFn replicas jobId sessionId (scanFiles.getD 0 []) 0 0
              ((emptyIndices (stages.getD si default).task_infos).take total)
              (stages.getD si default) nodes total).1 (chPass hashFn replicas jobId sessionId (scanFiles.getD 0 []) 0 0
              ((emptyIndices (stages.getD si default).task_infos).take total)
              (stages.getD si default) nodes total).2.1 (chPass hashFn replicas jobId sessionId (scanFiles.getD 0 []) 0 0
              ((emptyIndices (stages.getD si default).task_infos).take total)
              (stages.getD si default) nodes total).2.2.1).2.2.2.1)).length =
                    (chPass hashFn replicas jobId sessionId (scanFiles.getD 0 []) 0 0
              ((emptyIndices (stages.getD si default).task_infos).take total)
              (stages.getD si default) nodes total).2.2.2.1.length + (chPass hashFn replicas jobId sessionId (scanFiles.getD 0 []) tolerance 1
              ((emptyIndices (chPass hashFn replicas jobId sessionId (scanFiles.getD 0 []) 0 0
              ((emptyIndices (stages.getD si default).task_infos).take total)
              (stages.getD si default) nodes total).1.task_infos).take (chPass hashFn replicas jobId sessionId (scanFiles.getD 0 []) 0 0
              ((emptyIndices (stages.getD si default).task_infos).take total)
              (stages.getD si default) nodes total).2.2.1)
              (chPass hashFn replicas jobId sessionId (scanFiles.getD 0 []) 0 0
              ((emptyIndices (stages.getD si default).task_infos).take total)
              (stages.getD si default) nodes total).1 (chPass hashFn replicas jobId sessionId (scanFiles.getD 0 []) 0 0
              ((emptyIndices (stages.getD si default).task_infos).take total)
              (stages.getD si default) nodes total).2.1 (chPass hashFn replicas jobId sessionId (scanFiles.getD 0 []) 0 0
              ((emptyIndices (stages.getD si default).task_infos).take total)
              (stages.getD si default) nodes total).2.2.1).2.2.2.1.length := by
                  rw [List.length_map, List.length_append]
                simp only [loopMeasure] at hm ⊢
                omega
            | halted => simp
            | panicked => simp
            | errored e => exact absurd hs2 (m24.2 e)
            | fuelOut => exact absurd hs2 m24.1
          | halted => simp
          | panicked => simp
          | errored e => exact absurd hs1 (m14.2 e)
          | fuelOut => exact absurd hs1 m14.1

/-- A stage whose scan files trigger the consistent-hash skip predicate is left
untouched by the stage loop. -/
theorem chStageLoop_skip_frame (hashFn : HashFn) (replicas tolerance : Nat)
    (getScanFiles : String → Nat → Except String ScanFiles) (jobId sessionId : String)
    (fuel : Nat) :
    ∀ (stages : List StageState) (bl : List Nat) (nodes : List TopologyNode)
      (total : Nat) (k : Nat), k < stages.length →
    (∃ v, getScanFiles jobId (stages.getD k default).plan = Except.ok v ∧
      is_skip_consistent_hash v = true) →
    (chStageLoop hashFn replicas tolerance getScanFiles jobId sessionId fuel stages bl
      nodes total).1.getD k default = stages.getD k default := by
  induction fuel with
  | zero =>
    intro stages bl nodes total k hk hskipk
    rfl
  | succ fuel ih =>
    intro stages bl nodes total k hk hskipk
    rw [chStageLoop]
    cases hfetch : fetchRunningStage stages bl with
    | none => rfl
    | some si =>
      obtain hsi := (fetchRunningStage_eq_some hfetch).1
      simp only
      cases hgs : getScanFiles jobId (stages.getD si default).plan with
      | error e => rfl
      | ok scanFiles =>
        simp only
        by_cases hskip : is_skip_consistent_hash scanFiles = true
        · rw [if_pos hskip]
          exact ih stages _ nodes total k hk hskipk
        · rw [if_neg hskip]
          have hne : si ≠ k := by
            intro hcon
            subst hcon
            obtain ⟨v, hv, hsv⟩ := hskipk
            rw [hv] at hgs
            simp only [Except.ok.injEq] at hgs
            subst hgs
            exact hskip hsv
          cases hs1 : (chPass hashFn replicas jobId sessionId (scanFiles.getD 0 []) 0 0
              ((emptyIndices (stages.getD si default).task_infos).take total)
              (stages.getD si default) nodes total).2.2.2.2 with
          | normal =>
            simp only
            cases hs2 : (chPass hashFn replicas jobId sessionId (scanFiles.getD 0 []) tolerance 1
              ((emptyIndices (chPass hashFn replicas jobId sessionId (scanFiles.getD 0 []) 0 0
              ((emptyIndices (stages.getD si default).task_infos).take total)
              (stages.getD si default) nodes total).1.task_infos).take (chPass hashFn replicas jobId sessionId (scanFiles.getD 0 []) 0 0
              ((emptyIndices (stages.getD si default).task_infos).take total)
              (stages.getD si default) nodes total).2.2.1)
              (chPass hashFn replicas jobId sessionId (scanFiles.getD 0 []) 0 0
              ((emptyIndices (stages.getD si default).task_infos).take total)
              (stages.getD si default) nodes total).1 (chPass hashFn replicas jobId sessionId (scanFiles.getD 0 []) 0 0
              ((emptyIndices (stages.getD si default).task_infos).take total)
              (stages.getD si default) nodes total).2.1 (chPass hashFn replicas jobId sessionId (scanFiles.getD 0 []) 0 0
              ((emptyIndices (stages.getD si default).task_infos).take total)
              (stages.getD si default) nodes total).2.2.1).2.2.2.2 with
            | normal =>
              simp only
              rw [ih _ _ _ _ k (by simpa using hk)
                (by rw [getD_set_ne hne]; exact hskipk)]
              exact getD_set_ne hne _ _
            | halted => exact getD_set_ne hne _ _
            | panicked => exact getD_set_ne hne _ _
            | errored e => exact getD_set_ne hne _ _
            | fuelOut => exact getD_set_ne hne _ _
          | halted => exact getD_set_ne hne _ _
          | panicked => exact getD_set_ne hne _ _
          | errored e => exact getD_set_ne hne _ _
          | fuelOut => exact getD_set_ne hne _ _

/-! ## Consistent-hash job-loop lemmas -/

/-- The consistent-hash job loop is a valid job-list evolution. -/
theorem chJobLoop_jobsDelta (hashFn : HashFn) (replicas tolerance : Nat)
    (getScanFiles : String → Nat → Except String ScanFiles) :
    ∀ (jobs : List JobInfo) (nodes : List TopologyNode) (total : Nat),
    (jobs.map (·.job_id)).Nodup →
    (∀ job ∈ jobs, (job.stages.map (·.stage_id)).Nodup) →
    JobsDelta jobs (chJobLoop hashFn replicas tolerance getScanFiles jobs nodes total).1
      ((chJobLoop hashFn replicas tolerance getScanFiles jobs nodes
        total).2.2.2.1.map (·.1)) := by
  intro jobs
  induction jobs with
  | nil =>
    intro nodes total hnd hnds
    exact JobsDelta.refl_jobs []
  | cons job rest ih =>
    intro nodes total hnd hnds
    rw [chJobLoop]
    by_cases hrun : job.running = true
    · rw [if_pos hrun]
      simp only
      have hdstage := chStageLoop_stagesDelta hashFn replicas tolerance getScanFiles
        job.job_id job.session_id (stageFuel job.stages) job.stages [] nodes total
        (hnds job (List.mem_cons_self job rest))
      have hallhead : ∀ t ∈ (chStageLoop hashFn replicas tolerance getScanFiles job.job_id job.session_id
          (stageFuel job.stages) job.stages [] nodes total).2.2.2.1.map (·.1),
          t.2.partition.job_id = job.job_id := fun t ht => (hdstage.2.2 t ht).1
      cases hexit : (chStageLoop hashFn replicas tolerance getScanFiles job.job_id job.session_id
          (stageFuel job.stages) job.stages [] nodes total).2.2.2.2 with
      | normal =>
        simp only
        have hrest := ih (chStageLoop hashFn replicas tolerance getScanFiles job.job_id job.session_id
          (stageFuel job.stages) job.stages [] nodes total).2.1 (chStageLoop hashFn replicas tolerance getScanFiles job.job_id job.session_id
          (stageFuel job.stages) job.stages [] nodes total).2.2.1
          (by
            rw [List.map_cons, List.nodup_cons] at hnd
            exact hnd.2)
          (fun j hj => hnds j (List.mem_cons_of_mem job hj))
        refine ⟨by simp [hrest.1], ?_, ?_⟩
        · intro k hk
          cases k with
          | zero =>
            refine ⟨rfl, rfl, rfl, ?_⟩
            simp only [List.getD_cons_zero, List.map_append]
            rw [List.filter_append, filter_self_of_job hallhead,
              filter_head_of_rest hnd hrest.2.2, List.append_nil]
            exact hdstage
          | succ k =>
            have hk' : k < rest.length := by simpa using hk
            obtain ⟨hji, hsi, hri, hsd⟩ := hrest.2.1 k hk'
            refine ⟨by simpa using hji, by simpa using hsi, by simpa using hri, ?_⟩
            simp only [List.getD_cons_succ, List.map_append]
            rw [List.filter_append, filter_nil_of_job hnd hk' hallhead,
              List.nil_append]
            exact hsd
        · intro t ht
          rw [List.map_append] at ht
          rcases List.mem_append.1 ht with h | h
          · exact ⟨0, by simp, hallhead t h⟩
          · obtain ⟨k, hk, hid⟩ := hrest.2.2 t h
            exact ⟨k + 1, by simpa using hk, by simpa using hid⟩
      | halted =>
        simp only
        refine ⟨by simp, ?_, ?_⟩
        · intro k hk
          cases k with
          | zero =>
            refine ⟨rfl, rfl, rfl, ?_⟩
            simp only [List.getD_cons_zero]
            rw [filter_self_of_job hallhead]
            exact hdstage
          | succ k =>
            have hk' : k < rest.length := by simpa using hk
            refine ⟨rfl, rfl, rfl, ?_⟩
            simp only [List.getD_cons_succ]
            rw [filter_nil_of_job hnd hk' hallhead]
            exact StagesDelta.refl_stages _ _
        · intro t ht
          exact ⟨0, by simp, hallhead t ht⟩
      | panicked =>
        simp only
        refine ⟨by simp, ?_, ?_⟩
        · intro k hk
          cases k with
          | zero =>
            refine ⟨rfl, rfl, rfl, ?_⟩
            simp only [List.getD_cons_zero]
            rw [filter_self_of_job hallhead]
            exact hdstage
          | succ k =>
            have hk' : k < rest.length := by simpa using hk
            refine ⟨rfl, rfl, rfl, ?_⟩
            simp only [List.getD_cons_succ]
            rw [filter_nil_of_job hnd hk' hallhead]
            exact StagesDelta.refl_stages _ _
        · intro t ht
          exact ⟨0, by simp, hallhead t ht⟩
      | errored e =>
        simp only
        refine ⟨by simp, ?_, ?_⟩
        · intro k hk
          cases k with
          | zero =>
            refine ⟨rfl, rfl, rfl, ?_⟩
            simp only [List.getD_cons_zero]
            rw [filter_self_of_job hallhead]
            exact hdstage
          | succ k =>
            have hk' : k < rest.length := by simpa using hk
            refine ⟨rfl, rfl, rfl, ?_⟩
            simp only [List.getD_cons_succ]
            rw [filter_nil_of_job hnd hk' hallhead]
            exact StagesDelta.refl_stages _ _
        · intro t ht
          exact ⟨0, by simp, hallhead t ht⟩
      | fuelOut =>
        simp only
        refine ⟨by simp, ?_, ?_⟩
        · intro k hk
          cases k with
          | zero =>
            refine ⟨rfl, rfl, rfl, ?_⟩
            simp only [List.getD_cons_zero]
            rw [filter_self_of_job hallhead]
            exact hdstage
          | succ k =>
            have hk' : k < rest.length := by simpa using hk
            refine ⟨rfl, rfl, rfl, ?_⟩
            simp only [List.getD_cons_succ]
            rw [filter_nil_of_job hnd hk' hallhead]
            exact StagesDelta.refl_stages _ _
        · intro t ht
          exact ⟨0, by simp, hallhead t ht⟩
    · rw [if_neg hrun]
      simp only
      have hrest := ih nodes total
        (by
          rw [List.map_cons, List.nodup_cons] at hnd
          exact hnd.2)
        (fun j hj => hnds j (List.mem_cons_of_mem job hj))
      refine ⟨by simp [hrest.1], ?_, ?_⟩
      · intro k hk
        cases k with
        | zero =>
          refine ⟨rfl, rfl, rfl, ?_⟩
          simp only [List.getD_cons_zero]
          rw [filter_head_of_rest hnd hrest.2.2]
          exact StagesDelta.refl_stages _ _
        | succ k =>
          have hk' : k < rest.length := by simpa using hk
          obtain ⟨hji, hsi, hri, hsd⟩ := hrest.2.1 k hk'
          exact ⟨by simpa using hji, by simpa using hsi, by simpa using hri, by
            simpa using hsd⟩
      · intro t ht
        obtain ⟨k, hk, hid⟩ := hrest.2.2 t ht
        exact ⟨k + 1, by simpa using hk, by simpa using hid⟩

/-- Node conservation, slot accounting, status behaviour and pass tagging of
the consistent-hash job loop. -/
theorem chJobLoop_main (hashFn : HashFn) (replicas tolerance : Nat)
    (getScanFiles : String → Nat → Except String ScanFiles) :
    ∀ (jobs : List JobInfo) (nodes : List TopologyNode) (total : Nat), 0 < total →
    (∀ eid, nodesSum (chJobLoop hashFn replicas tolerance getScanFiles jobs nodes total).2.1 eid +
      countFor ((chJobLoop hashFn replicas tolerance getScanFiles jobs nodes total).2.2.2.1.map (·.1)) eid = nodesSum nodes eid) ∧
    ((chJobLoop hashFn replicas tolerance getScanFiles jobs nodes total).2.2.1 + (chJobLoop hashFn replicas tolerance getScanFiles jobs nodes total).2.2.2.1.length = total) ∧
    ((chJobLoop hashFn replicas tolerance getScanFiles jobs nodes total).2.2.2.2 = ChStatus.halted → (chJobLoop hashFn replicas tolerance getScanFiles jobs nodes total).2.2.1 = 0) ∧
    ((chJobLoop hashFn replicas tolerance getScanFiles jobs nodes total).2.2.2.2 = ChStatus.normal → 0 < (chJobLoop hashFn replicas tolerance getScanFiles jobs nodes total).2.2.1) ∧
    (∀ e, (chJobLoop hashFn replicas tolerance getScanFiles jobs nodes total).2.2.2.2 = ChStatus.errored e →
      ∃ jid plan, getScanFiles jid plan = Except.error e) ∧
    (∀ x ∈ (chJobLoop hashFn replicas tolerance getScanFiles jobs nodes total).2.2.2.1,
      (x.2 = 0 ∧ x.1.2.data_cache = true) ∨ (x.2 = 1 ∧ x.1.2.data_cache = false)) := by
  intro jobs
  induction jobs with
  | nil =>
    intro nodes total htot
    refine ⟨fun eid => by simp [chJobLoop, countFor], by simp [chJobLoop],
      by simp [chJobLoop], fun _ => htot, by simp [chJobLoop], ?_⟩
    intro x hx
    simp [chJobLoop] at hx
  | cons job rest ih =>
    intro nodes total htot
    rw [chJobLoop]
    by_cases hrun : job.running = true
    · rw [if_pos hrun]
      simp only
      obtain ⟨s1, s2, s3, s4, s5, s6⟩ := chStageLoop_main hashFn replicas tolerance
        getScanFiles job.job_id job.session_id (stageFuel job.stages) job.stages []
        nodes total htot
      cases hexit : (chStageLoop hashFn replicas tolerance getScanFiles job.job_id job.session_id
          (stageFuel job.stages) job.stages [] nodes total).2.2.2.2 with
      | normal =>
        simp only
        obtain ⟨j1, j2, j3, j4, j5, j6⟩ := ih (chStageLoop hashFn replicas tolerance getScanFiles job.job_id job.session_id
          (stageFuel job.stages) job.stages [] nodes total).2.1 (chStageLoop hashFn replicas tolerance getScanFiles job.job_id job.session_id
          (stageFuel job.stages) job.stages [] nodes total).2.2.1 (s4 hexit)
        refine ⟨?_, ?_, j3, j4, j5, ?_⟩
        · intro eid
          have h1 := s1 eid
          have h2 := j1 eid
          simp only [List.map_append, countFor_append]
          omega
        · simp only [List.length_append]
          omega
        · intro x hx
          rcases List.mem_append.1 hx with h | h
          · exact s6 x h
          · exact j6 x h
      | halted =>
        simp only
        exact ⟨s1, s2, fun _ => s3 hexit, fun hcon => by simp at hcon,
          fun e' he' => by simp at he', s6⟩
      | panicked =>
        simp only
        exact ⟨s1, s2, fun hcon => by simp at hcon, fun hcon => by simp at hcon,
          fun e' he' => by simp at he', s6⟩
      | errored e =>
        simp only
        refine ⟨s1, s2, fun hcon => by simp at hcon, fun hcon => by simp at hcon,
          ?_, s6⟩
        intro e' he'
        simp only [ChStatus.errored.injEq] at he'
        obtain ⟨plan, hplan⟩ := s5 e hexit
        exact ⟨job.job_id, plan, he' ▸ hplan⟩
      | fuelOut =>
        simp only
        exact ⟨s1, s2, fun hcon => by simp at hcon, fun hcon => by simp at hcon,
          fun e' he' => by simp at he', s6⟩
    · rw [if_neg hrun]
      simp only
      exact ih nodes total htot

/-- The consistent-hash job loop never exhausts its fuel. -/
theorem chJobLoop_no_fuelOut (hashFn : HashFn) (replicas tolerance : Nat)
    (getScanFiles : String → Nat → Except String ScanFiles) :
    ∀ (jobs : List JobInfo) (nodes : List TopologyNode) (total : Nat), 0 < total →
    (chJobLoop hashFn replicas tolerance getScanFiles jobs nodes total).2.2.2.2
      ≠ ChStatus.fuelOut := by
  intro jobs
  induction jobs with
  | nil =>
    intro nodes total htot
    simp [chJobLoop]
  | cons job rest ih =>
    intro nodes total htot
    rw [chJobLoop]
    by_cases hrun : job.running = true
    · rw [if_pos hrun]
      simp only
      obtain ⟨s1, s2, s3, s4, s5, s6⟩ := chStageLoop_main hashFn replicas tolerance
        getScanFiles job.job_id job.session_id (stageFuel job.stages) job.stages []
        nodes total htot
      cases hexit : (chStageLoop hashFn replicas tolerance getScanFiles job.job_id job.session_id
          (stageFuel job.stages) job.stages [] nodes total).2.2.2.2 with
      | normal =>
        simp only
        exact ih (chStageLoop hashFn replicas tolerance getScanFiles job.job_id job.session_id
          (stageFuel job.stages) job.stages [] nodes total).2.1 (chStageLoop hashFn replicas tolerance getScanFiles job.job_id job.session_id
          (stageFuel job.stages) job.stages [] nodes total).2.2.1 (s4 hexit)
      | halted => simp
      | panicked => simp
      | errored e => simp
      | fuelOut =>
        exact absurd hexit (chStageLoop_no_fuelOut hashFn replicas tolerance
          getScanFiles job.job_id job.session_id (stageFuel job.stages) job.stages []
          nodes total htot (loopMeasure_lt_stageFuel job.stages))
    · rw [if_neg hrun]
      simp only
      exact ih nodes total htot

/-- A stage whose scan files trigger the consistent-hash skip predicate is left
untouched by the job loop. -/
theorem chJobLoop_skip_frame (hashFn : HashFn) (replicas tolerance : Nat)
    (getScanFiles : String → Nat → Except String ScanFiles) :
    ∀ (jobs : List JobInfo) (nodes : List TopologyNode) (total : Nat) (k m : Nat),
    k < jobs.length → m < (jobs.getD k default).stages.length →
    (∃ v, getScanFiles (jobs.getD k default).job_id
        (((jobs.getD k default).stages.getD m default)).plan = Except.ok v ∧
      is_skip_consistent_hash v = true) →
    ((chJobLoop hashFn replicas tolerance getScanFiles jobs nodes
        total).1.getD k default).stages.getD m default
      = (jobs.getD k default).stages.getD m default := by
  intro jobs
  induction jobs with
  | nil =>
    intro nodes total k m hk
    simp at hk
  | cons job rest ih =>
    intro nodes total k m hk hm hskip
    rw [chJobLoop]
    by_cases hrun : job.running = true
    · rw [if_pos hrun]
      simp only
      cases hexit : (chStageLoop hashFn replicas tolerance getScanFiles job.job_id job.session_id
          (stageFuel job.stages) job.stages [] nodes total).2.2.2.2 with
      | normal =>
        simp only
        cases k with
        | zero =>
          simp only [List.getD_cons_zero] at hm hskip ⊢
          exact chStageLoop_skip_frame hashFn replicas tolerance getScanFiles
            job.job_id job.session_id (stageFuel job.stages) job.stages [] nodes total
            m hm hskip
        | succ k =>
          simp only [List.getD_cons_succ] at hm hskip ⊢
          exact ih _ _ k m (by simpa using hk) hm hskip
      | halted =>
        simp only
        cases k with
        | zero =>
          simp only [List.getD_cons_zero] at hm hskip ⊢
          exact chStageLoop_skip_frame hashFn replicas tolerance getScanFiles
            job.job_id job.session_id (stageFuel job.stages) job.stages [] nodes total
            m hm hskip
        | succ k =>
          simp only [List.getD_cons_succ]
      | panicked =>
        simp only
        cases k with
        | zero =>
          simp only [List.getD_cons_zero] at hm hskip ⊢
          exact chStageLoop_skip_frame hashFn replicas tolerance getScanFiles
            job.job_id job.session_id (stageFuel job.stages) job.stages [] nodes total
            m hm hskip
        | succ k =>
          simp only [List.getD_cons_succ]
      | errored e =>
        simp only
        cases k with
        | zero =>
          simp only [List.getD_cons_zero] at hm hskip ⊢
          exact chStageLoop_skip_frame hashFn replicas tolerance getScanFiles
            job.job_id job.session_id (stageFuel job.stages) job.stages [] nodes total
            m hm hskip
        | succ k =>
          simp only [List.getD_cons_succ]
      | fuelOut =>
        simp only
        cases k with
        | zero =>
          simp only [List.getD_cons_zero] at hm hskip ⊢
          exact chStageLoop_skip_frame hashFn replicas tolerance getScanFiles
            job.job_id job.session_id (stageFuel job.stages) job.stages [] nodes total
            m hm hskip
        | succ k =>
          simp only [List.getD_cons_succ]
    · rw [if_neg hrun]
      simp only
      cases k with
      | zero => simp only [List.getD_cons_zero]
      | succ k =>
        simp only [List.getD_cons_succ] at hm hskip ⊢
        exact ih _ _ k m (by simpa using hk) hm hskip

/-! ## Consistent-hash wrapper facts -/

/-- The state evolution of a whole `bind_task_consistent_hash` round, on every
outcome including error and panic. -/
theorem bind_task_consistent_hash_jobsDelta (hashFn : HashFn)
    (topologyNodes : List TopologyNode) (numReplicas tolerance : Nat)
    (jobs : List JobInfo) (getScanFiles : String → Nat → Except String ScanFiles)
    (hnd : (jobs.map (·.job_id)).Nodup)
    (hnds : ∀ job ∈ jobs, (job.stages.map (·.stage_id)).Nodup) :
    JobsDelta jobs (bind_task_consistent_hash hashFn topologyNodes numReplicas tolerance jobs
      getScanFiles).1 ((bind_task_consistent_hash hashFn topologyNodes numReplicas tolerance jobs
      getScanFiles).2.1.map (·.1)) := by
  rw [bind_task_consistent_hash]
  by_cases htot : nodesTotal topologyNodes = 0
  · rw [if_pos htot]
    exact JobsDelta.refl_jobs jobs
  · rw [if_neg htot]
    simp only
    have hjd := chJobLoop_jobsDelta hashFn numReplicas tolerance getScanFiles jobs
      topologyNodes (nodesTotal topologyNodes) hnd hnds
    cases hst : (chJobLoop hashFn numReplicas tolerance getScanFiles jobs topologyNodes
          (nodesTotal topologyNodes)).2.2.2.2 with
    | normal => exact hjd
    | halted => exact hjd
    | panicked => exact hjd
    | errored e => exact hjd
    | fuelOut => exact hjd

/-- With no free slot anywhere, `bind_task_consistent_hash` binds nothing,
returns no ring and leaves the jobs untouched. -/
theorem bind_task_consistent_hash_total_zero (hashFn : HashFn)
    (topologyNodes : List TopologyNode) (numReplicas tolerance : Nat)
    (jobs : List JobInfo) (getScanFiles : String → Nat → Except String ScanFiles)
    (htot : nodesTotal topologyNodes = 0) :
    (bind_task_consistent_hash hashFn topologyNodes numReplicas tolerance jobs
      getScanFiles) = (jobs, [], ChOutcome.ok [] none) := by
  rw [bind_task_consistent_hash, if_pos htot]

/-- With at least one free slot, a successful `bind_task_consistent_hash`
always returns a ring. -/
theorem bind_task_consistent_hash_ring_some (hashFn : HashFn)
    (topologyNodes : List TopologyNode) (numReplicas tolerance : Nat)
    (jobs : List JobInfo) (getScanFiles : String → Nat → Except String ScanFiles)
    (htot : nodesTotal topologyNodes ≠ 0) :
    ∀ tasks ring, (bind_task_consistent_hash hashFn topologyNodes numReplicas tolerance jobs
      getScanFiles).2.2 = ChOutcome.ok tasks ring → ∃ ch, ring = some ch := by
  intro tasks ring hok
  rw [bind_task_consistent_hash, if_neg htot] at hok
  simp only at hok
  cases hst : (chJobLoop hashFn numReplicas tolerance getScanFiles jobs topologyNodes
          (nodesTotal topologyNodes)).2.2.2.2 with
  | normal =>
    rw [hst] at hok
    simp only [ChOutcome.ok.injEq] at hok
    exact ⟨_, hok.2.symm⟩
  | halted =>
    rw [hst] at hok
    simp only [ChOutcome.ok.injEq] at hok
    exact ⟨_, hok.2.symm⟩
  | fuelOut =>
    rw [hst] at hok
    simp only [ChOutcome.ok.injEq] at hok
    exact ⟨_, hok.2.symm⟩
  | panicked =>
    rw [hst] at hok
    simp at hok
  | errored e =>
    rw [hst] at hok
    simp at hok

/-- Per-executor conservation for `bind_task_consistent_hash`: on a successful
outcome that carries a ring, each executor lost exactly as many slots as tasks
were bound to it. -/
theorem bind_task_consistent_hash_conservation (hashFn : HashFn)
    (topologyNodes : List TopologyNode) (numReplicas tolerance : Nat)
    (jobs : List JobInfo) (getScanFiles : String → Nat → Except String ScanFiles) :
    ∀ tasks ch, (bind_task_consistent_hash hashFn topologyNodes numReplicas tolerance jobs
      getScanFiles).2.2 = ChOutcome.ok tasks (some ch) →
    ∀ eid, nodesSum ch.nodes eid + countFor tasks eid = nodesSum topologyNodes eid := by
  intro tasks ch hok eid
  rw [bind_task_consistent_hash] at hok
  by_cases htot : nodesTotal topologyNodes = 0
  · rw [if_pos htot] at hok
    simp at hok
  · rw [if_neg htot] at hok
    simp only at hok
    obtain ⟨j1, j2, j3, j4, j5, j6⟩ := chJobLoop_main hashFn numReplicas tolerance
      getScanFiles jobs topologyNodes (nodesTotal topologyNodes)
      (Nat.pos_of_ne_zero htot)
    cases hst : (chJobLoop hashFn numReplicas tolerance getScanFiles jobs topologyNodes
          (nodesTotal topologyNodes)).2.2.2.2 with
    | normal =>
      rw [hst] at hok
      simp only [ChOutcome.ok.injEq, Option.some.injEq] at hok
      rw [← hok.1, ← hok.2]
      exact j1 eid
    | halted =>
      rw [hst] at hok
      simp only [ChOutcome.ok.injEq, Option.some.injEq] at hok
      rw [← hok.1, ← hok.2]
      exact j1 eid
    | fuelOut =>
      rw [hst] at hok
      simp only [ChOutcome.ok.injEq, Option.some.injEq] at hok
      rw [← hok.1, ← hok.2]
      exact j1 eid
    | panicked =>
      rw [hst] at hok
      simp at hok
    | errored e =>
      rw [hst] at hok
      simp at hok

/-- An error outcome of `bind_task_consistent_hash` always originates from a
failing `get_scan_files` call. -/
theorem bind_task_consistent_hash_err (hashFn : HashFn)
    (topologyNodes : List TopologyNode) (numReplicas tolerance : Nat)
    (jobs : List JobInfo) (getScanFiles : String → Nat → Except String ScanFiles) :
    ∀ e, (bind_task_consistent_hash hashFn topologyNodes numReplicas tolerance jobs
      getScanFiles).2.2 = ChOutcome.err e →
    ∃ jid plan, getScanFiles jid plan = Except.error e := by
  intro e herr
  rw [bind_task_consistent_hash] at herr
  by_cases htot : nodesTotal topologyNodes = 0
  · rw [if_pos htot] at herr
    simp at herr
  · rw [if_neg htot] at herr
    simp only at herr
    obtain ⟨j1, j2, j3, j4, j5, j6⟩ := chJobLoop_main hashFn numReplicas tolerance
      getScanFiles jobs topologyNodes (nodesTotal topologyNodes)
      (Nat.pos_of_ne_zero htot)
    cases hst : (chJobLoop hashFn numReplicas tolerance getScanFiles jobs topologyNodes
          (nodesTotal topologyNodes)).2.2.2.2 with
    | normal =>
      rw [hst] at herr
      simp at herr
    | halted =>
      rw [hst] at herr
      simp at herr
    | fuelOut =>
      rw [hst] at herr
      simp at herr
    | panicked =>
      rw [hst] at herr
      simp at herr
    | errored e' =>
      rw [hst] at herr
      simp only [ChOutcome.err.injEq] at herr
      exact herr ▸ j5 e' hst

/-- Every task bound by `bind_task_consistent_hash` carries the pass tag and
`data_cache` flag of its pass: first-pass hits cache data, second-pass hits do
not. -/
theorem bind_task_consistent_hash_tags (hashFn : HashFn)
    (topologyNodes : List TopologyNode) (numReplicas tolerance : Nat)
    (jobs : List JobInfo) (getScanFiles : String → Nat → Except String ScanFiles) :
    ∀ x ∈ (bind_task_consistent_hash hashFn topologyNodes numReplicas tolerance jobs
      getScanFiles).2.1,
      (x.2 = 0 ∧ x.1.2.data_cache = true) ∨ (x.2 = 1 ∧ x.1.2.data_cache = false) := by
  intro x hx
  rw [bind_task_consistent_hash] at hx
  by_cases htot : nodesTotal topologyNodes = 0
  · rw [if_pos htot] at hx
    simp at hx
  · rw [if_neg htot] at hx
    simp only at hx
    obtain ⟨j1, j2, j3, j4, j5, j6⟩ := chJobLoop_main hashFn numReplicas tolerance
      getScanFiles jobs topologyNodes (nodesTotal topologyNodes)
      (Nat.pos_of_ne_zero htot)
    cases hst : (chJobLoop hashFn numReplicas tolerance getScanFiles jobs topologyNodes
          (nodesTotal topologyNodes)).2.2.2.2 with
    | normal =>
      rw [hst] at hx
      exact j6 x hx
    | halted =>
      rw [hst] at hx
      exact j6 x hx
    | fuelOut =>
      rw [hst] at hx
      exact j6 x hx
    | panicked =>
      rw [hst] at hx
      exact j6 x hx
    | errored e =>
      rw [hst] at hx
      exact j6 x hx

/-! ## Bridges from the round deltas to per-task and per-stage statements -/

/-- Every task of a valid round fills exactly one previously empty cell of its
own job and stage with exactly its executor and task id. -/
theorem JobsDelta.task_cells {jobs jobs' : List JobInfo} {tasks : List BoundTask}
    (h : JobsDelta jobs jobs' tasks) :
    ∀ t ∈ tasks, ∃ k m, k < jobs.length ∧ m < (jobs.getD k default).stages.length ∧
      t.2.partition.job_id = (jobs.getD k default).job_id ∧
      t.2.partition.stage_id = ((jobs.getD k default).stages.getD m default).stage_id ∧
      ((jobs.getD k default).stages.getD m
        default).task_infos[t.2.partition.partition_id]? = some none ∧
      ((jobs'.getD k default).stages.getD m
        default).task_infos[t.2.partition.partition_id]? =
        some (some (create_task_info t.1 t.2.task_id)) := by
  intro t ht
  obtain ⟨hlen, hper, hex⟩ := h
  obtain ⟨k, hk, hjid⟩ := hex t ht
  obtain ⟨hji, hsi, hri, hsd⟩ := hper k hk
  obtain ⟨hsl, hsper, hsex⟩ := hsd
  have ht1 : t ∈ tasks.filter
      (fun t => t.2.partition.job_id == (jobs.getD k default).job_id) :=
    List.mem_filter.2 ⟨ht, by simp [hjid]⟩
  obtain ⟨hjid', m, hm, hsid⟩ := hsex t ht1
  have hdelta := hsper m hm
  have ht2 : t ∈ (tasks.filter
      (fun t => t.2.partition.job_id == (jobs.getD k default).job_id)).filter
      (fun t => t.2.partition.stage_id ==
        ((jobs.getD k default).stages.getD m default).stage_id) :=
    List.mem_filter.2 ⟨ht1, by simp [hsid]⟩
  obtain ⟨hj, hs, hpre, hpost⟩ := hdelta.2.2.2.2.2.2.2.1 t ht2
  exact ⟨k, m, hk, hm, hjid, hsid, hpre, hpost⟩

/-- Across a valid round, every cell either keeps its value or goes from
empty to filled: a filled cell is never overwritten. -/
theorem JobsDelta.cells_mono {jobs jobs' : List JobInfo} {tasks : List BoundTask}
    (h : JobsDelta jobs jobs' tasks) :
    ∀ k, k < jobs.length → ∀ m, m < (jobs.getD k default).stages.length →
    ∀ i : Nat,
      ((jobs'.getD k default).stages.getD m default).task_infos[i]? =
        ((jobs.getD k default).stages.getD m default).task_infos[i]? ∨
      (((jobs.getD k default).stages.getD m default).task_infos[i]? = some none ∧
        ∃ v : TaskInfo, ((jobs'.getD k default).stages.getD m
          default).task_infos[i]? = some (some v)) := by
  intro k hk m hm i
  obtain ⟨hlen, hper, hex⟩ := h
  obtain ⟨hji, hsi, hri, hsd⟩ := hper k hk
  obtain ⟨hsl, hsper, hsex⟩ := hsd
  exact (hsper m hm).2.2.2.2.2.2.1 i

/-- The task ids a valid round hands out in one stage are exactly the
contiguous run of the stage's task-id generator. -/
theorem JobsDelta.task_ids {jobs jobs' : List JobInfo} {tasks : List BoundTask}
    (h : JobsDelta jobs jobs' tasks) :
    ∀ k, k < jobs.length → ∀ m, m < (jobs.getD k default).stages.length →
      ((tasks.filter (fun t => t.2.partition.job_id ==
          (jobs.getD k default).job_id)).filter
        (fun t => t.2.partition.stage_id ==
          ((jobs.getD k default).stages.getD m default).stage_id)).map
        (fun t => t.2.task_id) =
      List.range' ((jobs.getD k default).stages.getD m default).task_id_gen
        (((jobs'.getD k default).stages.getD m default).task_id_gen -
          ((jobs.getD k default).stages.getD m default).task_id_gen) ∧
      ((jobs.getD k default).stages.getD m default).task_id_gen ≤
        ((jobs'.getD k default).stages.getD m default).task_id_gen := by
  intro k hk m hm
  obtain ⟨hlen, hper, hex⟩ := h
  obtain ⟨hji, hsi, hri, hsd⟩ := hper k hk
  obtain ⟨hsl, hsper, hsex⟩ := hsd
  exact ⟨(hsper m hm).2.2.2.2.2.2.2.2.1, (hsper m hm).2.2.2.2.2.1⟩

/-- A binding round reaching a partition whose file list is empty panics (the
`assert!` in the source), rather than returning an error value. -/
theorem chPass_empty_files_panics (hashFn : HashFn) (replicas : Nat)
    (jobId sessionId : String) (sf : List (List PartitionedFile)) (tol passIdx : Nat)
    (p : Nat) (rest : List Nat) (stage : StageState) (nodes : List TopologyNode)
    (total : Nat) (hp : p < sf.length) (he : (sf.getD p []).isEmpty = true) :
    chPass hashFn replicas jobId sessionId sf tol passIdx (p :: rest) stage nodes total
      = (stage, nodes, total, [], ChStatus.panicked) := by
  rw [chPass, if_pos hp]
  simp only
  rw [if_pos he]

/-- A stage whose scan files trigger the consistent-hash skip predicate is
left untouched by a whole `bind_task_consistent_hash` round. -/
theorem bind_task_consistent_hash_skip_frame (hashFn : HashFn)
    (topologyNodes : List TopologyNode) (numReplicas tolerance : Nat)
    (jobs : List JobInfo) (getScanFiles : String → Nat → Except String ScanFiles)
    {k m : Nat} (hk : k < jobs.length)
    (hm : m < (jobs.getD k default).stages.length)
    (hskip : ∃ v, getScanFiles (jobs.getD k default).job_id
        (((jobs.getD k default).stages.getD m default)).plan = Except.ok v ∧
      is_skip_consistent_hash v = true) :
    ((bind_task_consistent_hash hashFn topologyNodes numReplicas tolerance jobs
      getScanFiles).1.getD k default).stages.getD m default
      = (jobs.getD k default).stages.getD m default := by
  rw [bind_task_consistent_hash]
  by_cases htot : nodesTotal topologyNodes = 0
  · rw [if_pos htot]
  · rw [if_neg htot]
    simp only
    have := chJobLoop_skip_frame hashFn numReplicas tolerance getScanFiles jobs
      topologyNodes (nodesTotal topologyNodes) k m hk hm hskip
    cases hst : (chJobLoop hashFn numReplicas tolerance getScanFiles jobs topologyNodes
        (nodesTotal topologyNodes)).2.2.2.2 with
    | normal => exact this
    | halted => exact this
    | panicked => exact this
    | errored e => exact this
    | fuelOut => exact this

/-- The task ids handed out in one stage in one round: the contiguous run of
the generator, strictly increasing, and (when the stage's pre-round ids sit
below the generator) strictly above every pre-existing id. -/
theorem JobsDelta.ids_facts {jobs jobs' : List JobInfo} {tasks : List BoundTask}
    (h : JobsDelta jobs jobs' tasks) :
    ∀ k, k < jobs.length → ∀ m, m < (jobs.getD k default).stages.length →
      ((tasks.filter (fun t => t.2.partition.job_id ==
          (jobs.getD k default).job_id)).filter
        (fun t => t.2.partition.stage_id ==
          ((jobs.getD k default).stages.getD m default).stage_id)).map
        (fun t => t.2.task_id) =
      List.range' ((jobs.getD k default).stages.getD m default).task_id_gen
        (((jobs'.getD k default).stages.getD m default).task_id_gen -
          ((jobs.getD k default).stages.getD m default).task_id_gen) ∧
      ((jobs.getD k default).stages.getD m default).task_id_gen ≤
        ((jobs'.getD k default).stages.getD m default).task_id_gen ∧
      (((tasks.filter (fun t => t.2.partition.job_id ==
          (jobs.getD k default).job_id)).filter
        (fun t => t.2.partition.stage_id ==
          ((jobs.getD k default).stages.getD m default).stage_id)).map
        (fun t => t.2.task_id)).Pairwise (· < ·) ∧
      ((∀ c ∈ ((jobs.getD k default).stages.getD m default).task_infos,
          ∀ v : TaskInfo, c = some v →
            v.task_id < ((jobs.getD k default).stages.getD m default).task_id_gen) →
        ∀ i ∈ ((tasks.filter (fun t => t.2.partition.job_id ==
            (jobs.getD k default).job_id)).filter
          (fun t => t.2.partition.stage_id ==
            ((jobs.getD k default).stages.getD m default).stage_id)).map
          (fun t => t.2.task_id),
          ∀ c ∈ ((jobs.getD k default).stages.getD m default).task_infos,
            ∀ v : TaskInfo, c = some v → v.task_id < i) := by
  intro k hk m hm
  obtain ⟨h1, h2⟩ := h.task_ids k hk m hm
  refine ⟨h1, h2, ?_, ?_⟩
  · rw [h1]
    have hpw := List.pairwise_lt_range'
      ((jobs.getD k default).stages.getD m default).task_id_gen
      (((jobs'.getD k default).stages.getD m default).task_id_gen -
        ((jobs.getD k default).stages.getD m default).task_id_gen) 1 (by omega)
    simpa using hpw
  · intro hwf i hi c hc v hv
    rw [h1] at hi
    have hge := (List.mem_range'_1.1 hi).1
    have hlt := hwf c hc v hv
    omega

/-! ## Concrete round scenarios -/

/-- A hash that sends everything to 0 (the model is parameterised by the
hash; every ring result below is checked by evaluation). -/
def hashZero : HashFn := fun _ => 0

def stageOneCell : StageState := ⟨1, 0, 0, [none], [], 0⟩

def stageTwoCells : StageState := ⟨1, 0, 0, [none, none], [], 0⟩

def jobOne : JobInfo := ⟨"j", "s", true, [stageOneCell]⟩

def jobTwoCells : JobInfo := ⟨"j", "s", true, [stageTwoCells]⟩

def jobsAB : List JobInfo :=
  [⟨"a", "s", true, [stageOneCell]⟩, ⟨"b", "s", true, [stageOneCell]⟩]

def nodesTwo : List TopologyNode := [⟨"e1", "n1", 0, 2⟩]

def nodesOne : List TopologyNode := [⟨"e1", "n1", 0, 1⟩]

/-- Scan files resolve for job `a` and fail for every other job. -/
def gsfBoom : String → Nat → Except String ScanFiles :=
  fun jid _ => if jid = "a" then Except.ok [[[⟨[0]⟩]]] else Except.error "boom"

def gsfOk : String → Nat → Except String ScanFiles := fun _ _ => Except.ok [[[⟨[0]⟩]]]

/-- One scan whose only partition has an empty file list. -/
def gsfEmptyFiles : String → Nat → Except String ScanFiles :=
  fun _ _ => Except.ok [[[]]]

/-- No scan at all: the skip predicate fires. -/
def gsfNoScan : String → Nat → Except String ScanFiles := fun _ _ => Except.ok []

def slotsOne : List AvailableTaskSlots := [⟨"e1", 1⟩]

def slotsTwo : List AvailableTaskSlots := [⟨"e1", 1⟩, ⟨"e2", 1⟩]

/-! ## The claims -/

/-- C1, counterexample: `bind_task_consistent_hash` does not roll back on
error.  With two jobs where `get_scan_files` succeeds for job `a` and fails
for job `b`, the round returns the error, yet job `a`'s `task_infos` cell —
empty at round start — is still filled in the state the caller observes. -/
theorem C1_counterexample :
    (bind_task_consistent_hash hashZero nodesTwo 1 0 jobsAB gsfBoom).2.2
      = ChOutcome.err "boom" ∧
    (((bind_task_consistent_hash hashZero nodesTwo 1 0 jobsAB
        gsfBoom).1.getD 0 default).stages.getD 0 default).task_infos
      = [some ⟨"e1", 0⟩] ∧
    ((jobsAB.getD 0 default).stages.getD 0 default).task_infos = [none] := by
  exact ⟨by decide, by decide, by decide⟩

/-- C1, amended: when `bind_task_consistent_hash` returns an error, the error
is the propagated `get_scan_files` failure and the mutations already applied
in the round are kept, not rolled back: the jobs evolve as a valid one-way
delta (cells only go from empty to filled, generators only advance). -/
theorem C1_rollback (hashFn : HashFn) (topologyNodes : List TopologyNode)
    (numReplicas tolerance : Nat) (jobs : List JobInfo)
    (getScanFiles : String → Nat → Except String ScanFiles)
    (hnd : (jobs.map (·.job_id)).Nodup)
    (hnds : ∀ job ∈ jobs, (job.stages.map (·.stage_id)).Nodup) :
    JobsDelta jobs (bind_task_consistent_hash hashFn topologyNodes numReplicas tolerance jobs
      getScanFiles).1 ((bind_task_consistent_hash hashFn topologyNodes numReplicas tolerance jobs
      getScanFiles).2.1.map (·.1)) ∧
    (∀ e, (bind_task_consistent_hash hashFn topologyNodes numReplicas tolerance jobs
      getScanFiles).2.2 = ChOutcome.err e →
      ∃ jid plan, getScanFiles jid plan = Except.error e) :=
  ⟨bind_task_consistent_hash_jobsDelta hashFn topologyNodes numReplicas tolerance jobs
      getScanFiles hnd hnds,
    bind_task_consistent_hash_err hashFn topologyNodes numReplicas tolerance jobs
      getScanFiles⟩

/-- C1, witness: the amended theorem applied to the two-job error scenario. -/
theorem C1_rollback_witness :
    ∃ jid plan, gsfBoom jid plan = Except.error "boom" :=
  (C1_rollback hashZero nodesTwo 1 0 jobsAB gsfBoom (by decide)
    (by decide)).2 "boom" (by decide)

/-- C2, counterexample: with slots `[1, 1]` and two runnable partitions, the
second iteration starts with the live total at 1 while the entry at index 0
has no slots left, refuting "total_slots > 0 implies slots[0] > 0"; the round
stays correct only because the wrap logic re-checks the entry under the
cursor, not index 0. -/
theorem C2_counterexample :
    RRTraceEntry.mk [⟨"e1", 0⟩, ⟨"e2", 1⟩] 1 1 ∈
      (bind_task_round_robin slotsTwo [jobTwoCells] (fun _ => false)).2.2.2.1 ∧
    0 < (1 : Nat) ∧ slotAt [⟨"e1", 0⟩, ⟨"e2", 1⟩] 0 = 0 := by
  exact ⟨by decide, by decide, by decide⟩

/-- C2, amended: at every iteration start of a `bind_task_round_robin` round
the live total is positive and the entry the wrap logic selects is in range
with a positive slot count — so no task is bound to an exhausted executor and
the `u32` decrement never underflows. -/
theorem C2_no_underflow (slots : List AvailableTaskSlots) (jobs : List JobInfo)
    (ifSkip : Nat → Bool) :
    ∀ e ∈ (bind_task_round_robin slots jobs ifSkip).2.2.2.1,
      0 < e.total ∧ rrSelect e.slots e.idx < e.slots.length ∧
        0 < slotAt e.slots (rrSelect e.slots e.idx) :=
  bind_task_round_robin_trace slots jobs ifSkip

/-- C2, witness: the amended theorem applied to the wrap-around scenario, at
the iteration whose cursor state refutes the literal claim. -/
theorem C2_no_underflow_witness :
    0 < (RRTraceEntry.mk [⟨"e1", 0⟩, ⟨"e2", 1⟩] 1 1).total ∧
    rrSelect (RRTraceEntry.mk [⟨"e1", 0⟩, ⟨"e2", 1⟩] 1 1).slots
        (RRTraceEntry.mk [⟨"e1", 0⟩, ⟨"e2", 1⟩] 1 1).idx <
      (RRTraceEntry.mk [⟨"e1", 0⟩, ⟨"e2", 1⟩] 1 1).slots.length ∧
    0 < slotAt (RRTraceEntry.mk [⟨"e1", 0⟩, ⟨"e2", 1⟩] 1 1).slots
      (rrSelect (RRTraceEntry.mk [⟨"e1", 0⟩, ⟨"e2", 1⟩] 1 1).slots
        (RRTraceEntry.mk [⟨"e1", 0⟩, ⟨"e2", 1⟩] 1 1).idx) :=
  C2_no_underflow slotsTwo [jobTwoCells] (fun _ => false)
    (RRTraceEntry.mk [⟨"e1", 0⟩, ⟨"e2", 1⟩] 1 1) (by decide)

/-- C3: per-executor slot conservation for every policy: in any round of
`bind_task_bias`, `bind_task_round_robin` and (on a successful outcome)
`bind_task_consistent_hash`, each executor's bound-task count equals its slot
count before the round minus its slot count after it. -/
theorem C3_conservation (slots : List AvailableTaskSlots) (jobs : List JobInfo)
    (ifSkip : Nat → Bool) (slots2 : List AvailableTaskSlots) (jobs2 : List JobInfo)
    (ifSkip2 : Nat → Bool) (hashFn : HashFn) (topologyNodes : List TopologyNode)
    (numReplicas tolerance : Nat) (jobs3 : List JobInfo)
    (getScanFiles : String → Nat → Except String ScanFiles) :
    (∀ eid, slotsSum (bind_task_bias slots jobs ifSkip).2.1 eid +
      countFor (bind_task_bias slots jobs ifSkip).1 eid = slotsSum slots eid) ∧
    (∀ eid, slotsSum (bind_task_round_robin slots2 jobs2 ifSkip2).2.1 eid +
      countFor (bind_task_round_robin slots2 jobs2 ifSkip2).1 eid
        = slotsSum slots2 eid) ∧
    (∀ tasks ch, (bind_task_consistent_hash hashFn topologyNodes numReplicas tolerance jobs3
      getScanFiles).2.2 = ChOutcome.ok tasks (some ch) →
      ∀ eid, nodesSum ch.nodes eid + countFor tasks eid
        = nodesSum topologyNodes eid) :=
  ⟨fun eid => bind_task_bias_conservation slots jobs ifSkip eid,
    fun eid => bind_task_round_robin_conservation slots2 jobs2 ifSkip2 eid,
    bind_task_consistent_hash_conservation hashFn topologyNodes numReplicas tolerance
      jobs3 getScanFiles⟩

/-- C3, witness: conservation at a consistent-hash round that bound one task
to executor `e1`, draining its only slot. -/
theorem C3_conservation_witness :
    nodesSum (ConsistentHash.mk [⟨"e1", "n1", 0, 0⟩] 1).nodes "e1" +
      countFor [("e1", ⟨"s", ⟨"j", 1, 0⟩, 0, 0, 0, true, 0⟩)] "e1"
      = nodesSum nodesOne "e1" :=
  (C3_conservation slotsOne [jobOne] (fun _ => false) slotsOne [jobOne]
    (fun _ => false) hashZero nodesOne 1 0 [jobOne] gsfOk).2.2
    [("e1", ⟨"s", ⟨"j", 1, 0⟩, 0, 0, 0, true, 0⟩)]
    (ConsistentHash.mk [⟨"e1", "n1", 0, 0⟩] 1) (by decide) "e1"

/-- C4: every bound task emitted by any of the three policies fills exactly
its own partition's cell: the cell was empty before the round and afterwards
holds exactly the task's executor and task id; and no policy ever overwrites
a filled cell (all cells evolve only from empty to filled). -/
theorem C4_cells (slots : List AvailableTaskSlots) (jobs : List JobInfo)
    (ifSkip : Nat → Bool) (slots2 : List AvailableTaskSlots) (jobs2 : List JobInfo)
    (ifSkip2 : Nat → Bool) (hashFn : HashFn) (topologyNodes : List TopologyNode)
    (numReplicas tolerance : Nat) (jobs3 : List JobInfo)
    (getScanFiles : String → Nat → Except String ScanFiles)
    (hnd : (jobs.map (·.job_id)).Nodup)
    (hnds : ∀ job ∈ jobs, (job.stages.map (·.stage_id)).Nodup)
    (hnd2 : (jobs2.map (·.job_id)).Nodup)
    (hnds2 : ∀ job ∈ jobs2, (job.stages.map (·.stage_id)).Nodup)
    (hnd3 : (jobs3.map (·.job_id)).Nodup)
    (hnds3 : ∀ job ∈ jobs3, (job.stages.map (·.stage_id)).Nodup) :
    (∀ t ∈ (bind_task_bias slots jobs ifSkip).1,
      ∃ k m, k < jobs.length ∧ m < (jobs.getD k default).stages.length ∧
        t.2.partition.job_id = (jobs.getD k default).job_id ∧
        t.2.partition.stage_id
          = ((jobs.getD k default).stages.getD m default).stage_id ∧
        ((jobs.getD k default).stages.getD m
          default).task_infos[t.2.partition.partition_id]? = some none ∧
        (((bind_task_bias slots jobs ifSkip).2.2.1.getD k default).stages.getD m
          default).task_infos[t.2.partition.partition_id]?
          = some (some (create_task_info t.1 t.2.task_id))) ∧
    (∀ t ∈ (bind_task_round_robin slots2 jobs2 ifSkip2).1,
      ∃ k m, k < jobs2.length ∧ m < (jobs2.getD k default).stages.length ∧
        t.2.partition.job_id = (jobs2.getD k default).job_id ∧
        t.2.partition.stage_id
          = ((jobs2.getD k default).stages.getD m default).stage_id ∧
        ((jobs2.getD k default).stages.getD m
          default).task_infos[t.2.partition.partition_id]? = some none ∧
        (((bind_task_round_robin slots2 jobs2 ifSkip2).2.2.1.getD k
          default).stages.getD m
          default).task_infos[t.2.partition.partition_id]?
          = some (some (create_task_info t.1 t.2.task_id))) ∧
    (∀ t ∈ (bind_task_consistent_hash hashFn topologyNodes numReplicas tolerance jobs3
      getScanFiles).2.1.map (·.1),
      ∃ k m, k < jobs3.length ∧ m < (jobs3.getD k default).stages.length ∧
        t.2.partition.job_id = (jobs3.getD k default).job_id ∧
        t.2.partition.stage_id
          = ((jobs3.getD k default).stages.getD m default).stage_id ∧
        ((jobs3.getD k default).stages.getD m
          default).task_infos[t.2.partition.partition_id]? = some none ∧
        (((bind_task_consistent_hash hashFn topologyNodes numReplicas tolerance jobs3
      getScanFiles).1.getD k default).stages.getD m
          default).task_infos[t.2.partition.partition_id]?
          = some (some (create_task_info t.1 t.2.task_id))) ∧
    (∀ k, k < jobs.length → ∀ m, m < (jobs.getD k default).stages.length →
      ∀ i : Nat,
      (((bind_task_bias slots jobs ifSkip).2.2.1.getD k default).stages.getD m
        default).task_infos[i]?
        = ((jobs.getD k default).stages.getD m default).task_infos[i]? ∨
      (((jobs.getD k default).stages.getD m default).task_infos[i]? = some none ∧
        ∃ v : TaskInfo, (((bind_task_bias slots jobs ifSkip).2.2.1.getD k
          default).stages.getD m default).task_infos[i]? = some (some v))) ∧
    (∀ k, k < jobs2.length → ∀ m, m < (jobs2.getD k default).stages.length →
      ∀ i : Nat,
      (((bind_task_round_robin slots2 jobs2 ifSkip2).2.2.1.getD k
        default).stages.getD m default).task_infos[i]?
        = ((jobs2.getD k default).stages.getD m default).task_infos[i]? ∨
      (((jobs2.getD k default).stages.getD m default).task_infos[i]? = some none ∧
        ∃ v : TaskInfo, (((bind_task_round_robin slots2 jobs2 ifSkip2).2.2.1.getD k
          default).stages.getD m default).task_infos[i]? = some (some v))) ∧
    (∀ k, k < jobs3.length → ∀ m, m < (jobs3.getD k default).stages.length →
      ∀ i : Nat,
      (((bind_task_consistent_hash hashFn topologyNodes numReplicas tolerance jobs3
      getScanFiles).1.getD k default).stages.getD m default).task_infos[i]?
        = ((jobs3.getD k default).stages.getD m default).task_infos[i]? ∨
      (((jobs3.getD k default).stages.getD m default).task_infos[i]? = some none ∧
        ∃ v : TaskInfo, (((bind_task_consistent_hash hashFn topologyNodes numReplicas tolerance jobs3
      getScanFiles).1.getD k default).stages.getD m
          default).task_infos[i]? = some (some v))) := by
  have h1 := bind_task_bias_jobsDelta slots jobs ifSkip hnd hnds
  have h2 := bind_task_round_robin_jobsDelta slots2 jobs2 ifSkip2 hnd2 hnds2
  have h3 := bind_task_consistent_hash_jobsDelta hashFn topologyNodes numReplicas
    tolerance jobs3 getScanFiles hnd3 hnds3
  exact ⟨h1.task_cells, h2.task_cells, h3.task_cells, h1.cells_mono, h2.cells_mono,
    h3.cells_mono⟩

/-- C4, witness: the cell fact for the one task a one-slot bias round binds. -/
theorem C4_cells_witness :
    ∃ k m, k < ([jobOne] : List JobInfo).length ∧
      m < (([jobOne] : List JobInfo).getD k default).stages.length ∧
      (("e1", ⟨"s", ⟨"j", 1, 0⟩, 0, 0, 0, false, 0⟩) :
        BoundTask).2.partition.job_id
        = (([jobOne] : List JobInfo).getD k default).job_id ∧
      (("e1", ⟨"s", ⟨"j", 1, 0⟩, 0, 0, 0, false, 0⟩) :
        BoundTask).2.partition.stage_id
        = ((([jobOne] : List JobInfo).getD k default).stages.getD m
          default).stage_id ∧
      ((([jobOne] : List JobInfo).getD k default).stages.getD m
        default).task_infos[(("e1", ⟨"s", ⟨"j", 1, 0⟩, 0, 0, 0, false, 0⟩) :
          BoundTask).2.partition.partition_id]? = some none ∧
      (((bind_task_bias slotsOne [jobOne] (fun _ => false)).2.2.1.getD k
        default).stages.getD m
        default).task_infos[(("e1", ⟨"s", ⟨"j", 1, 0⟩, 0, 0, 0, false, 0⟩) :
          BoundTask).2.partition.partition_id]?
        = some (some (create_task_info
          (("e1", ⟨"s", ⟨"j", 1, 0⟩, 0, 0, 0, false, 0⟩) : BoundTask).1
          (("e1", ⟨"s", ⟨"j", 1, 0⟩, 0, 0, 0, false, 0⟩) : BoundTask).2.task_id)) :=
  (C4_cells slotsOne [jobOne] (fun _ => false) slotsOne [jobOne] (fun _ => false)
    hashZero nodesOne 1 0 [jobOne] gsfOk (by decide) (by decide) (by decide)
    (by decide) (by decide) (by decide)).1
    ("e1", ⟨"s", ⟨"j", 1, 0⟩, 0, 0, 0, false, 0⟩) (by decide)

/-- C5: in every round of every policy, the task ids assigned within a stage
are exactly the contiguous run of the stage's task-id generator from its
round-start value, strictly increasing (so no two share an id); and whenever
the stage's pre-existing ids sit below the generator — the generator's
invariant — every new id is strictly greater than every pre-existing one. -/
theorem C5_task_ids (slots : List AvailableTaskSlots) (jobs : List JobInfo)
    (ifSkip : Nat → Bool) (slots2 : List AvailableTaskSlots) (jobs2 : List JobInfo)
    (ifSkip2 : Nat → Bool) (hashFn : HashFn) (topologyNodes : List TopologyNode)
    (numReplicas tolerance : Nat) (jobs3 : List JobInfo)
    (getScanFiles : String → Nat → Except String ScanFiles)
    (hnd : (jobs.map (·.job_id)).Nodup)
    (hnds : ∀ job ∈ jobs, (job.stages.map (·.stage_id)).Nodup)
    (hnd2 : (jobs2.map (·.job_id)).Nodup)
    (hnds2 : ∀ job ∈ jobs2, (job.stages.map (·.stage_id)).Nodup)
    (hnd3 : (jobs3.map (·.job_id)).Nodup)
    (hnds3 : ∀ job ∈ jobs3, (job.stages.map (·.stage_id)).Nodup) :
    (∀ k, k < jobs.length → ∀ m, m < (jobs.getD k default).stages.length →
      ((((bind_task_bias slots jobs ifSkip).1.filter
          (fun t => t.2.partition.job_id == (jobs.getD k default).job_id)).filter
        (fun t => t.2.partition.stage_id ==
          ((jobs.getD k default).stages.getD m default).stage_id)).map
        (fun t => t.2.task_id) =
      List.range' ((jobs.getD k default).stages.getD m default).task_id_gen
        ((((bind_task_bias slots jobs ifSkip).2.2.1.getD k default).stages.getD m
            default).task_id_gen -
          ((jobs.getD k default).stages.getD m default).task_id_gen)) ∧
      ((((bind_task_bias slots jobs ifSkip).1.filter
          (fun t => t.2.partition.job_id == (jobs.getD k default).job_id)).filter
        (fun t => t.2.partition.stage_id ==
          ((jobs.getD k default).stages.getD m default).stage_id)).map
        (fun t => t.2.task_id)).Pairwise (· < ·) ∧
      ((∀ c ∈ ((jobs.getD k default).stages.getD m default).task_infos,
          ∀ v : TaskInfo, c = some v →
            v.task_id < ((jobs.getD k default).stages.getD m default).task_id_gen) →
        ∀ i ∈ (((bind_task_bias slots jobs ifSkip).1.filter
            (fun t => t.2.partition.job_id == (jobs.getD k default).job_id)).filter
          (fun t => t.2.partition.stage_id ==
            ((jobs.getD k default).stages.getD m default).stage_id)).map
          (fun t => t.2.task_id),
          ∀ c ∈ ((jobs.getD k default).stages.getD m default).task_infos,
            ∀ v : TaskInfo, c = some v → v.task_id < i)) ∧
    (∀ k, k < jobs2.length → ∀ m, m < (jobs2.getD k default).stages.length →
      ((((bind_task_round_robin slots2 jobs2 ifSkip2).1.filter
          (fun t => t.2.partition.job_id == (jobs2.getD k default).job_id)).filter
        (fun t => t.2.partition.stage_id ==
          ((jobs2.getD k default).stages.getD m default).stage_id)).map
        (fun t => t.2.task_id) =
      List.range' ((jobs2.getD k default).stages.getD m default).task_id_gen
        ((((bind_task_round_robin slots2 jobs2 ifSkip2).2.2.1.getD k
            default).stages.getD m default).task_id_gen -
          ((jobs2.getD k default).stages.getD m default).task_id_gen)) ∧
      ((((bind_task_round_robin slots2 jobs2 ifSkip2).1.filter
          (fun t => t.2.partition.job_id == (jobs2.getD k default).job_id)).filter
        (fun t => t.2.partition.stage_id ==
          ((jobs2.getD k default).stages.getD m default).stage_id)).map
        (fun t => t.2.task_id)).Pairwise (· < ·) ∧
      ((∀ c ∈ ((jobs2.getD k default).stages.getD m default).task_infos,
          ∀ v : TaskInfo, c = some v →
            v.task_id < ((jobs2.getD k default).stages.getD m
              default).task_id_gen) →
        ∀ i ∈ (((bind_task_round_robin slots2 jobs2 ifSkip2).1.filter
            (fun t => t.2.partition.job_id == (jobs2.getD k default).job_id)).filter
          (fun t => t.2.partition.stage_id ==
            ((jobs2.getD k default).stages.getD m default).stage_id)).map
          (fun t => t.2.task_id),
          ∀ c ∈ ((jobs2.getD k default).stages.getD m default).task_infos,
            ∀ v : TaskInfo, c = some v → v.task_id < i)) ∧
    (∀ k, k < jobs3.length → ∀ m, m < (jobs3.getD k default).stages.length →
      ((((bind_task_consistent_hash hashFn topologyNodes numReplicas tolerance jobs3
      getScanFiles).2.1.map (·.1)).filter
          (fun t => t.2.partition.job_id == (jobs3.getD k default).job_id)).filter
        (fun t => t.2.partition.stage_id ==
          ((jobs3.getD k default).stages.getD m default).stage_id)).map
        (fun t => t.2.task_id) =
      List.range' ((jobs3.getD k default).stages.getD m default).task_id_gen
        ((((bind_task_consistent_hash hashFn topologyNodes numReplicas tolerance jobs3
      getScanFiles).1.getD k default).stages.getD m default).task_id_gen -
          ((jobs3.getD k default).stages.getD m default).task_id_gen) ∧
      (((((bind_task_consistent_hash hashFn topologyNodes numReplicas tolerance jobs3
      getScanFiles).2.1.map (·.1)).filter
          (fun t => t.2.partition.job_id == (jobs3.getD k default).job_id)).filter
        (fun t => t.2.partition.stage_id ==
          ((jobs3.getD k default).stages.getD m default).stage_id)).map
        (fun t => t.2.task_id)).Pairwise (· < ·) ∧
      ((∀ c ∈ ((jobs3.getD k default).stages.getD m default).task_infos,
          ∀ v : TaskInfo, c = some v →
            v.task_id < ((jobs3.getD k default).stages.getD m
              default).task_id_gen) →
        ∀ i ∈ ((((bind_task_consistent_hash hashFn topologyNodes numReplicas tolerance jobs3
      getScanFiles).2.1.map (·.1)).filter
            (fun t => t.2.partition.job_id == (jobs3.getD k default).job_id)).filter
          (fun t => t.2.partition.stage_id ==
            ((jobs3.getD k default).stages.getD m default).stage_id)).map
          (fun t => t.2.task_id),
          ∀ c ∈ ((jobs3.getD k default).stages.getD m default).task_infos,
            ∀ v : TaskInfo, c = some v → v.task_id < i)) := by
  have h1 := (bind_task_bias_jobsDelta slots jobs ifSkip hnd hnds).ids_facts
  have h2 := (bind_task_round_robin_jobsDelta slots2 jobs2 ifSkip2 hnd2
    hnds2).ids_facts
  have h3 := (bind_task_consistent_hash_jobsDelta hashFn topologyNodes numReplicas
    tolerance jobs3 getScanFiles hnd3 hnds3).ids_facts
  refine ⟨fun k hk m hm => ?_, fun k hk m hm => ?_, fun k hk m hm => ?_⟩
  · obtain ⟨a, b, c, d⟩ := h1 k hk m hm
    exact ⟨a, c, d⟩
  · obtain ⟨a, b, c, d⟩ := h2 k hk m hm
    exact ⟨a, c, d⟩
  · obtain ⟨a, b, c, d⟩ := h3 k hk m hm
    exact ⟨a, c, d⟩

/-- C5, witness: the new task ids of a one-slot bias round are strictly
increasing. -/
theorem C5_task_ids_witness :
    ((((bind_task_bias slotsOne [jobOne] (fun _ => false)).1.filter
        (fun t => t.2.partition.job_id ==
          (([jobOne] : List JobInfo).getD 0 default).job_id)).filter
      (fun t => t.2.partition.stage_id ==
        ((([jobOne] : List JobInfo).getD 0 default).stages.getD 0
          default).stage_id)).map
      (fun t => t.2.task_id)).Pairwise (· < ·) :=
  ((C5_task_ids slotsOne [jobOne] (fun _ => false) slotsOne [jobOne]
    (fun _ => false) hashZero nodesOne 1 0 [jobOne] gsfOk (by decide) (by decide)
    (by decide) (by decide) (by decide) (by decide)).1 0 (by decide) 0
    (by decide)).2.1

/-- C6: in `bind_task_consistent_hash`, every task bound during the first
(tolerance-0) pass has `data_cache = true` and every task bound during the
second (caller-tolerance) pass has `data_cache = false` — in particular, when
the caller passes tolerance 0 the second pass binds nothing, since every
still-empty window cell already missed the ring in the first pass. -/
theorem C6_data_cache (hashFn : HashFn) (topologyNodes : List TopologyNode)
    (numReplicas tolerance : Nat) (jobs : List JobInfo)
    (getScanFiles : String → Nat → Except String ScanFiles) :
    ∀ x ∈ (bind_task_consistent_hash hashFn topologyNodes numReplicas tolerance jobs
      getScanFiles).2.1,
      (x.2 = 0 ∧ x.1.2.data_cache = true) ∨ (x.2 = 1 ∧ x.1.2.data_cache = false) :=
  bind_task_consistent_hash_tags hashFn topologyNodes numReplicas tolerance jobs
    getScanFiles

/-- C6, witness: the task a one-node round binds in its first pass carries
`data_cache = true`. -/
theorem C6_data_cache_witness :
    (((("e1", ⟨"s", ⟨"j", 1, 0⟩, 0, 0, 0, true, 0⟩), 0) :
        BoundTask × Nat).2 = 0 ∧
      ((("e1", ⟨"s", ⟨"j", 1, 0⟩, 0, 0, 0, true, 0⟩), 0) :
        BoundTask × Nat).1.2.data_cache = true) ∨
    (((("e1", ⟨"s", ⟨"j", 1, 0⟩, 0, 0, 0, true, 0⟩), 0) :
        BoundTask × Nat).2 = 1 ∧
      ((("e1", ⟨"s", ⟨"j", 1, 0⟩, 0, 0, 0, true, 0⟩), 0) :
        BoundTask × Nat).1.2.data_cache = false) :=
  C6_data_cache hashZero nodesOne 1 0 [jobOne] gsfOk
    ((("e1", ⟨"s", ⟨"j", 1, 0⟩, 0, 0, 0, true, 0⟩), 0)) (by decide)

/-- C7, counterexample: a partition with an empty file list does not produce
an `InvalidState` error — the round panics (the source's `assert!`), so the
caller never receives an error value. -/
theorem C7_counterexample :
    (bind_task_consistent_hash hashZero nodesOne 1 0 [jobOne] gsfEmptyFiles).2.2
      = ChOutcome.panicked ∧
    ∀ e, (bind_task_consistent_hash hashZero nodesOne 1 0 [jobOne]
      gsfEmptyFiles).2.2 ≠ ChOutcome.err e := by
  have h0 : (bind_task_consistent_hash hashZero nodesOne 1 0 [jobOne]
      gsfEmptyFiles).2.2 = ChOutcome.panicked := by decide
  refine ⟨h0, ?_⟩
  intro e h
  rw [h0] at h
  exact ChOutcome.noConfusion h

/-- C7, amended: when the binding loop reaches a partition whose file list is
empty, it panics via the source's `assert!(!partition_files.is_empty())`
(aborting with no task bound in that pass), instead of returning an
`InvalidState` error. -/
theorem C7_empty_files (hashFn : HashFn) (replicas : Nat) (jobId sessionId : String)
    (sf : List (List PartitionedFile)) (tol passIdx : Nat) (p : Nat)
    (rest : List Nat) (stage : StageState) (nodes : List TopologyNode) (total : Nat)
    (hp : p < sf.length) (he : (sf.getD p []).isEmpty = true) :
    chPass hashFn replicas jobId sessionId sf tol passIdx (p :: rest) stage nodes
      total = (stage, nodes, total, [], ChStatus.panicked) :=
  chPass_empty_files_panics hashFn replicas jobId sessionId sf tol passIdx p rest
    stage nodes total hp he

/-- C7, witness: the amended theorem at the concrete empty-file-list input. -/
theorem C7_empty_files_witness :
    chPass hashZero 1 "j" "s" [[]] 0 0 [0] stageOneCell nodesOne 1
      = (stageOneCell, nodesOne, 1, [], ChStatus.panicked) :=
  C7_empty_files hashZero 1 "j" "s" [[]] 0 0 0 [] stageOneCell nodesOne 1
    (by decide) (by decide)

/-- C8: in every `bind_task_bias` round each task goes to the first executor
position (in the descending-sorted order) that still has slots — every
position before the chosen one is exhausted at that moment — and when the
cursor walks past the end the round returns what it bound so far, which
happens exactly when the whole vector is exhausted, i.e. after binding
`slotsTotal slots` tasks. -/
theorem C8_bias_order (slots : List AvailableTaskSlots) (jobs : List JobInfo)
    (ifSkip : Nat → Bool) :
    (∀ ev ∈ (bind_task_bias slots jobs ifSkip).2.2.2.1,
      (∀ i, i < ev.chosen → slotAt ev.slotsBefore i = 0) ∧
        slotAt ev.slotsBefore ev.chosen ≠ 0) ∧
    ((bind_task_bias slots jobs ifSkip).2.2.2.2 = RoundExit.halted →
      (∀ i, i < slots.length → slotAt (bind_task_bias slots jobs ifSkip).2.1 i = 0) ∧
      (bind_task_bias slots jobs ifSkip).1.length = slotsTotal slots) :=
  ⟨bind_task_bias_events slots jobs ifSkip,
    fun h => bind_task_bias_halted slots jobs ifSkip h⟩

/-- C8, witness: a one-slot round that halts after exhausting its executor:
the recorded bind chose position 0, and on the halt the vector is exhausted
with exactly `slotsTotal` tasks bound. -/
theorem C8_bias_order_witness :
    ((∀ i, i < (BiasEvent.mk [⟨"e1", 1⟩] 0).chosen →
        slotAt (BiasEvent.mk [⟨"e1", 1⟩] 0).slotsBefore i = 0) ∧
      slotAt (BiasEvent.mk [⟨"e1", 1⟩] 0).slotsBefore
        (BiasEvent.mk [⟨"e1", 1⟩] 0).chosen ≠ 0) ∧
    ((∀ i, i < slotsOne.length →
        slotAt (bind_task_bias slotsOne [jobTwoCells] (fun _ => false)).2.1 i = 0) ∧
      (bind_task_bias slotsOne [jobTwoCells] (fun _ => false)).1.length
        = slotsTotal slotsOne) :=
  ⟨(C8_bias_order slotsOne [jobTwoCells] (fun _ => false)).1
      (BiasEvent.mk [⟨"e1", 1⟩] 0) (by decide),
    (C8_bias_order slotsOne [jobTwoCells] (fun _ => false)).2 (by decide)⟩

/-- C9: `is_skip_consistent_hash` fires exactly when the outer scan-files
list is empty or longer than one; a stage whose scan files fire it is left
untouched by the consistent-hash round — its cells and task-id generator are
unchanged — and no bound task is emitted for it. -/
theorem C9_skip (hashFn : HashFn) (topologyNodes : List TopologyNode)
    (numReplicas tolerance : Nat) (jobs : List JobInfo)
    (getScanFiles : String → Nat → Except String ScanFiles)
    (hnd : (jobs.map (·.job_id)).Nodup)
    (hnds : ∀ job ∈ jobs, (job.stages.map (·.stage_id)).Nodup)
    (k m : Nat) (hk : k < jobs.length)
    (hm : m < (jobs.getD k default).stages.length)
    (hskip : ∃ v, getScanFiles (jobs.getD k default).job_id
        (((jobs.getD k default).stages.getD m default)).plan = Except.ok v ∧
      is_skip_consistent_hash v = true) :
    (∀ v : ScanFiles, is_skip_consistent_hash v = true ↔
      (v.length = 0 ∨ 1 < v.length)) ∧
    ((bind_task_consistent_hash hashFn topologyNodes numReplicas tolerance jobs
      getScanFiles).1.getD k default).stages.getD m default
      = (jobs.getD k default).stages.getD m default ∧
    (∀ t ∈ (bind_task_consistent_hash hashFn topologyNodes numReplicas tolerance jobs
      getScanFiles).2.1.map (·.1),
      ¬(t.2.partition.job_id = (jobs.getD k default).job_id ∧
        t.2.partition.stage_id
          = ((jobs.getD k default).stages.getD m default).stage_id)) := by
  have hframe := bind_task_consistent_hash_skip_frame hashFn topologyNodes
    numReplicas tolerance jobs getScanFiles hk hm hskip
  have hjd := bind_task_consistent_hash_jobsDelta hashFn topologyNodes numReplicas
    tolerance jobs getScanFiles hnd hnds
  refine ⟨?_, hframe, no_tasks_for_untouched_stage hjd hk hm hframe⟩
  intro v
  cases v with
  | nil => simp [is_skip_consistent_hash]
  | cons a t =>
    simp only [is_skip_consistent_hash, List.isEmpty_cons, Bool.false_or,
      List.length_cons, decide_eq_true_eq]
    constructor
    · intro h
      exact Or.inr h
    · rintro (h | h)
      · exact absurd h (by omega)
      · exact h

/-- C9, witness: the skip conjunction at a concrete no-scan round, where the
stage is untouched. -/
theorem C9_skip_witness :
    ((bind_task_consistent_hash hashZero nodesOne 1 0 [jobOne]
        gsfNoScan).1.getD 0 default).stages.getD 0 default
      = (([jobOne] : List JobInfo).getD 0 default).stages.getD 0 default :=
  (C9_skip hashZero nodesOne 1 0 [jobOne] gsfNoScan (by decide) (by decide) 0 0
    (by decide) (by decide) ⟨[], rfl, rfl⟩).2.1

/-- C10: `bind_task_consistent_hash` returns no ring exactly when the initial
slot total over the topology is zero — in which case it binds nothing and
leaves the jobs untouched; with any free slot, every successful outcome
(even with zero tasks bound) returns a ring. -/
theorem C10_ring (hashFn : HashFn) (topologyNodes : List TopologyNode)
    (numReplicas tolerance : Nat) (jobs : List JobInfo)
    (getScanFiles : String → Nat → Except String ScanFiles) :
    (nodesTotal topologyNodes = 0 →
      (bind_task_consistent_hash hashFn topologyNodes numReplicas tolerance jobs
      getScanFiles) = (jobs, [], ChOutcome.ok [] none)) ∧
    (nodesTotal topologyNodes ≠ 0 →
      ∀ tasks ring, (bind_task_consistent_hash hashFn topologyNodes numReplicas tolerance jobs
      getScanFiles).2.2 = ChOutcome.ok tasks ring → ∃ ch, ring = some ch) :=
  ⟨bind_task_consistent_hash_total_zero hashFn topologyNodes numReplicas tolerance
      jobs getScanFiles,
    fun h => bind_task_consistent_hash_ring_some hashFn topologyNodes numReplicas
      tolerance jobs getScanFiles h⟩

/-- C10, witness: an empty topology yields the untouched-jobs, no-ring
result, and a one-slot topology yields a ring on its successful outcome. -/
theorem C10_ring_witness :
    bind_task_consistent_hash hashZero [] 1 0 [jobOne] gsfOk
      = ([jobOne], [], ChOutcome.ok [] none) ∧
    ∃ ch, (some (ConsistentHash.mk [⟨"e1", "n1", 0, 0⟩] 1) : Option ConsistentHash)
      = some ch :=
  ⟨(C10_ring hashZero [] 1 0 [jobOne] gsfOk).1 (by decide),
    (C10_ring hashZero nodesOne 1 0 [jobOne] gsfOk).2 (by decide)
      [("e1", ⟨"s", ⟨"j", 1, 0⟩, 0, 0, 0, true, 0⟩)]
      (some (ConsistentHash.mk [⟨"e1", "n1", 0, 0⟩] 1)) (by decide)⟩

end Ballista
